import Mathlib

/-!
Host attribute auto-apply of the service template handlers.

A shallow embedding of `src/scene_server/proc_server/service/servicetemplate.go`:
`getUpdateDataStr`, `generateCondition`, `updateHostAttributes`,
`getHostIDByCondition`, `GetServiceTemplateSyncStatus`,
`ExecServiceTemplateHostApplyRule` and
`UpdateServiceTemplateHostApplyEnableStatus`, together with the
library calls they rest on (`json.Marshal`, `json.Unmarshal`, `sort.Strings`,
`strings.Join`) and the collaborators they talk to (attribute schema reader,
count-by-filter service, partial-update service, module reader, host-module
relation reader, sync status evaluator, template and rule services, unit of
work).

Conventions.
* A Go `string` is a Lean `String`; the byte order used by `sort.Strings` is the
  lexicographic order of the code points (UTF-8 keeps that order).
* A Go `map` is an association list without repeated keys, kept in order of
  first insertion.  Go leaves the iteration order open; nothing proved below
  depends on it beyond what is said at the theorem.
* A property value (`interface{}` decoded from a JSON request) is a JSON scalar:
  null, a boolean, an integer or a string.  Arrays, nested objects and
  non-integer numbers are not modelled; the decoder answers a document that
  contains one as it answers a malformed document, which Go does not.
* A number is an integer.  Go holds a decoded number in a `float64`: it holds an
  integer of magnitude below 2^53 exactly, `json.Marshal` writes it in plain
  decimal and `json.Unmarshal` reads the same number back, and that is what the
  definitions below do for every integer.  Beyond that range Go rounds, and from
  1e21 on it writes an exponent; the definitions do not.  The statements on which
  of several entries of one property is kept, and on the value a host is compared
  with, turn on the text of a value and on the value read back: they are made for
  values in `exactValue`, over property names in `plainName`.
* `int64` values are integers; no operation here does arithmetic on them.
-/

namespace ProcServer

/-! ## Go maps -/

/-- A Go map: association list, keys pairwise different, first insertion first. -/
abbrev GoMap (κ ν : Type) := List (κ × ν)

/-- The assignment `m[k] = v`. -/
def GoMap.set {κ ν : Type} [DecidableEq κ] : GoMap κ ν → κ → ν → GoMap κ ν
  | [], k, v => [(k, v)]
  | (k', v') :: m, k, v => if k' = k then (k', v) :: m else (k', v') :: GoMap.set m k v

/-- The lookup `v, ok := m[k]`. -/
def GoMap.get? {κ ν : Type} [DecidableEq κ] : GoMap κ ν → κ → Option ν
  | [], _ => none
  | (k', v') :: m, k => if k' = k then some v' else GoMap.get? m k

/-- The keys of a map, in iteration order. -/
def GoMap.keys {κ ν : Type} (m : GoMap κ ν) : List κ := m.map Prod.fst

/-! ## JSON scalars and `json.Marshal` -/

/-- A property value: what `interface{}` holds after a JSON request is decoded, as far as
it is a scalar.  A number is an integer; the definitions agree with Go on the integers of
magnitude below 2^53 (`exactValue`), which a `float64` holds exactly. -/
inductive JValue where
  | null : JValue
  | bool (b : Bool) : JValue
  | number (n : Int) : JValue
  | string (s : String) : JValue
  deriving DecidableEq, Repr

/-- Lower-case hexadecimal digit of a number below sixteen. -/
def hexDigit (n : Nat) : Char :=
  if n < 10 then Char.ofNat (48 + n) else Char.ofNat (87 + n)

/-- Characters that `json.Marshal` writes as a six-character unicode escape: the control
characters, the HTML characters and the two line separators. -/
def needsUnicodeEscape (c : Char) : Bool :=
  decide (c.toNat < 32) || c == '<' || c == '>' || c == '&' ||
    decide (c.toNat = 8232) || decide (c.toNat = 8233)

/-- The encoding of one character inside a JSON string literal. -/
def escapeRune (c : Char) : List Char :=
  if c = '"' then ['\\', '"']
  else if c = '\\' then ['\\', '\\']
  else if c = '\n' then ['\\', 'n']
  else if c = '\r' then ['\\', 'r']
  else if c = '\t' then ['\\', 't']
  else if needsUnicodeEscape c then
    ['\\', 'u', hexDigit (c.toNat / 4096 % 16), hexDigit (c.toNat / 256 % 16),
      hexDigit (c.toNat / 16 % 16), hexDigit (c.toNat % 16)]
  else [c]

/-- The body of a JSON string literal, without the quotes. -/
def escapeString : List Char → List Char
  | [] => []
  | c :: cs => escapeRune c ++ escapeString cs

/-- Decimal digits of a natural number, most significant first (`fuel` bounds the length). -/
def decimalCore : Nat → Nat → List Char → List Char
  | 0, _, acc => acc
  | fuel + 1, n, acc =>
    if n < 10 then Char.ofNat (48 + n) :: acc
    else decimalCore fuel (n / 10) (Char.ofNat (48 + n % 10) :: acc)

/-- Decimal representation of a natural number. -/
def decimal (n : Nat) : List Char := decimalCore (n + 1) n []

/-- Decimal representation of an integer: the text `json.Marshal` writes for a number that
holds an integer of magnitude below 2^53.  Go writes a `float64` beyond that range with
rounded digits, and from 1e21 on with an exponent (`1e+21`), so the text, and with it the
place of an entry under `sort.Strings`, is the one of the code only for values in
`exactValue`. -/
def formatInt : Int → List Char
  | Int.ofNat n => decimal n
  | Int.negSucc n => '-' :: decimal (n + 1)

/-- The characters `json.Marshal` writes for a scalar. -/
def marshalChars : JValue → List Char
  | JValue.null => ['n', 'u', 'l', 'l']
  | JValue.bool true => ['t', 'r', 'u', 'e']
  | JValue.bool false => ['f', 'a', 'l', 's', 'e']
  | JValue.number n => formatInt n
  | JValue.string s => '"' :: (escapeString s.data ++ ['"'])

/-- The call `json.Marshal(value)` on a scalar; it cannot fail there. -/
def jsonMarshal (v : JValue) : String := String.mk (marshalChars v)

/-! ## `sort.Strings` and `strings.Join` -/

/-- The order of Go strings: lexicographic on the characters. -/
def stringLE (a b : String) : Prop := a.data ≤ b.data

instance stringLE_decidable : DecidableRel stringLE := fun a b =>
  inferInstanceAs (Decidable (a.data ≤ b.data))

/-- The call `sort.Strings(fields)`: the ascending rearrangement of the slice. -/
def sortStrings (fields : List String) : List String :=
  List.insertionSort stringLE fields

/-- The call `strings.Join(elems, sep)`. -/
def stringsJoin : List String → String → String
  | [], _ => ""
  | [a], _ => a
  | a :: b :: rest, sep => a ++ sep ++ stringsJoin (b :: rest) sep

/-! ## Errors -/

/-- Error codes of package `common` used by the handlers, and errors handed back by a
collaborator (told apart by a tag). -/
inductive CCError where
  | CCErrCommParamsInvalid : CCError
  | CCErrCommParamsIsInvalid : CCError
  | CCErrCommParamsNeedSet : CCError
  | CCErrCommParamsNeedInt : CCError
  | CCErrCommXXExceedLimit : CCError
  | CCErrCommHTTPDoRequestFailed : CCError
  | collaborator (tag : Nat) : CCError
  deriving DecidableEq, Repr

/-! ## `getUpdateDataStr` -/

/-- A rule of the request: `metadata.CreateHostApplyRuleOption`. -/
structure CreateHostApplyRuleOption where
  AttributeID : Int
  ServiceTemplateID : Int
  PropertyValue : JValue
  deriving DecidableEq, Repr

/-- A row of the attribute schema: `metadata.Attribute`, fields `ID` and `PropertyID`. -/
structure Attribute where
  ID : Int
  PropertyID : String
  deriving DecidableEq, Repr

/-- The attribute schema reader `Model().ReadModelAttr`, asked for the attributes whose id
is in the given list; `none` is a failed call. -/
abbrev ModelReader := List Int → Option (List Attribute)

/-- The reader over a fixed attribute schema: the rows whose id is among the asked ones. -/
def schemaReader (schema : List Attribute) : ModelReader :=
  fun ids => some (schema.filter (fun a => decide (a.ID ∈ ids)))

/-- Lines 271-279: the attribute ids of the rules, each kept at its first occurrence
(`attrIDmap` holds exactly the ids already appended to `attributeIDs`). -/
def collectAttributeIDs : List CreateHostApplyRuleOption → List Int → List Int
  | [], attributeIDs => attributeIDs
  | rule :: rules, attributeIDs =>
    if rule.AttributeID ∈ attributeIDs then collectAttributeIDs rules attributeIDs
    else collectAttributeIDs rules (attributeIDs ++ [rule.AttributeID])

/-- Lines 297-300: `attrMap[attr.ID] = attr.PropertyID` over the rows read. -/
def buildAttrMap : List Attribute → GoMap Int String → GoMap Int String
  | [], attrMap => attrMap
  | attr :: info, attrMap => buildAttrMap info (attrMap.set attr.ID attr.PropertyID)

/-- The read `attrMap[id]`: the empty string when the id is missing. -/
def attrMapAt (attrMap : GoMap Int String) (id : Int) : String :=
  (attrMap.get? id).getD ""

/-- Line 305-306: one entry of the document, the property name in quotes, a colon, the
marshalled value. -/
def fieldOf (attrMap : GoMap Int String) (field : CreateHostApplyRuleOption) : String :=
  "\"" ++ attrMapAt attrMap field.AttributeID ++ "\":" ++ jsonMarshal field.PropertyValue

/-- The sorted entries of the document (`fields` after `sort.Strings`). -/
def sortedFields (attrMap : GoMap Int String) (rules : List CreateHostApplyRuleOption) :
    List String :=
  sortStrings (rules.map (fieldOf attrMap))

/-- The function `getUpdateDataStr`: the merged document of a rule list. -/
def getUpdateDataStr (readModelAttr : ModelReader) (rules : List CreateHostApplyRuleOption) :
    Except CCError String :=
  let attributeIDs := collectAttributeIDs rules []
  match readModelAttr attributeIDs with
  | none => Except.error CCError.CCErrCommHTTPDoRequestFailed
  | some info =>
    let attrMap := buildAttrMap info []
    Except.ok ("\x7b" ++ stringsJoin (sortedFields attrMap rules) "," ++ "\x7d")

/-! ## `json.Unmarshal` into `map[string]interface{}` -/

/-- JSON white space. -/
def isSpace (c : Char) : Bool := c == ' ' || c == '\t' || c == '\r' || c == '\n'

/-- Skip the white space in front of the next token. -/
def skipSpace : List Char → List Char
  | [] => []
  | c :: cs => if isSpace c then skipSpace cs else c :: cs

/-- Value of a hexadecimal digit, either case. -/
def hexValue (c : Char) : Option Nat :=
  if 48 ≤ c.toNat ∧ c.toNat ≤ 57 then some (c.toNat - 48)
  else if 97 ≤ c.toNat ∧ c.toNat ≤ 102 then some (c.toNat - 87)
  else if 65 ≤ c.toNat ∧ c.toNat ≤ 70 then some (c.toNat - 55)
  else none

/-- The number written by four hexadecimal digits (`getu4`). -/
def hex4 (a b c d : Char) : Option Nat :=
  match hexValue a, hexValue b, hexValue c, hexValue d with
  | some x, some y, some z, some w => some (4096 * x + 256 * y + 16 * z + w)
  | _, _, _, _ => none

/-- The character after a backslash, for the two-character escapes. -/
def simpleEscape (e : Char) : Option Char :=
  if e = '"' then some '"'
  else if e = '\\' then some '\\'
  else if e = '/' then some '/'
  else if e = 'b' then some (Char.ofNat 8)
  else if e = 'f' then some (Char.ofNat 12)
  else if e = 'n' then some '\n'
  else if e = 'r' then some '\r'
  else if e = 't' then some '\t'
  else none

/-- The low half of a surrogate pair, when the input goes on with one. -/
def lowSurrogate : List Char → Option Nat
  | bs :: u :: a :: b :: c :: d :: _ =>
    if bs = '\\' ∧ u = 'u' then
      match hex4 a b c d with
      | some n => if 56320 ≤ n ∧ n < 57344 then some n else none
      | none => none
    else none
  | _ => none

/-- The scanner inside a string literal: the raw body up to the closing quote, and what
follows the quote.  The flag tells that the character before was a backslash, which takes
the next character with it. -/
def scanLiteral : Bool → List Char → Option (List Char × List Char)
  | _, [] => none
  | true, c :: rest => (scanLiteral false rest).map (fun p => (c :: p.1, p.2))
  | false, c :: rest =>
    if c = '"' then some ([], rest)
    else if c = '\\' then (scanLiteral true rest).map (fun p => (c :: p.1, p.2))
    else (scanLiteral false rest).map (fun p => (c :: p.1, p.2))

/-- The function `unquote`: the text of a raw string body.  Control characters, a bare quote
and an unknown escape make the literal invalid; a lone surrogate becomes U+FFFD. -/
def unquote : Nat → List Char → Option (List Char)
  | 0, _ => none
  | _ + 1, [] => some []
  | fuel + 1, c :: rest =>
    if c = '\\' then
      match rest with
      | [] => none
      | e :: r =>
        if e = 'u' then
          match r with
          | a :: b :: c' :: d :: r' =>
            match hex4 a b c' d with
            | none => none
            | some n =>
              if 55296 ≤ n ∧ n < 56320 then
                match lowSurrogate r' with
                | some n' =>
                  (unquote fuel (r'.drop 6)).map
                    (fun t => Char.ofNat (65536 + (n - 55296) * 1024 + (n' - 56320)) :: t)
                | none => (unquote fuel r').map (fun t => Char.ofNat 65533 :: t)
              else if 56320 ≤ n ∧ n < 57344 then
                (unquote fuel r').map (fun t => Char.ofNat 65533 :: t)
              else (unquote fuel r').map (fun t => Char.ofNat n :: t)
          | _ => none
        else
          match simpleEscape e with
          | none => none
          | some ch => (unquote fuel r).map (fun t => ch :: t)
    else if c = '"' ∨ c.toNat < 32 then none
    else (unquote fuel rest).map (fun t => c :: t)

/-- A string literal after its opening quote: the decoded text and the remaining input. -/
def parseString (cs : List Char) : Option (String × List Char) :=
  match scanLiteral false cs with
  | none => none
  | some (raw, rest) =>
    match unquote (raw.length + 1) raw with
    | none => none
    | some text => some (String.mk text, rest)

/-- Is the character a decimal digit. -/
def isDigit (c : Char) : Bool := decide (48 ≤ c.toNat) && decide (c.toNat ≤ 57)

/-- Value of a run of decimal digits read after `acc`. -/
def digitsValue : List Char → Nat → Nat
  | [], acc => acc
  | c :: cs, acc => digitsValue cs (acc * 10 + (c.toNat - 48))

/-- An unsigned integer literal: no leading zero, no fraction, no exponent.  The value is
the integer written; Go rounds it to a `float64`, which is the same number below 2^53. -/
def parseNat (cs : List Char) : Option (Nat × List Char) :=
  let ds := cs.takeWhile isDigit
  let rest := cs.dropWhile isDigit
  match ds with
  | [] => none
  | d :: more =>
    if d = '0' ∧ more ≠ [] then none
    else
      match rest with
      | c :: _ => if c = '.' ∨ c = 'e' ∨ c = 'E' then none else some (digitsValue ds 0, rest)
      | [] => some (digitsValue ds 0, rest)

/-- The input after the given word, when the input starts with it. -/
def expectWord : List Char → List Char → Option (List Char)
  | [], cs => some cs
  | _ :: _, [] => none
  | w :: ws, c :: cs => if w = c then expectWord ws cs else none

/-- A scalar value at the head of the input, and the remaining input.  An array, a nested
object, a fraction or an exponent is not read: the answer is `none`, as for a malformed
value. -/
def parseValue (cs : List Char) : Option (JValue × List Char) :=
  match cs with
  | [] => none
  | c :: rest =>
    if c = '"' then (parseString rest).map (fun p => (JValue.string p.1, p.2))
    else if c = '-' then (parseNat rest).map (fun p => (JValue.number (- (p.1 : Int)), p.2))
    else if isDigit c then (parseNat (c :: rest)).map (fun p => (JValue.number (p.1 : Int), p.2))
    else if c = 'n' then (expectWord ['u', 'l', 'l'] rest).map (fun r => (JValue.null, r))
    else if c = 't' then (expectWord ['r', 'u', 'e'] rest).map (fun r => (JValue.bool true, r))
    else if c = 'f' then
      (expectWord ['a', 'l', 's', 'e'] rest).map (fun r => (JValue.bool false, r))
    else none

/-- The members of an object from the opening quote of a key on, stored into the map one
after the other (`m[key] = value`, a repeated key overwrites); the input after the closing
brace is handed back.  Every member uses one unit of `fuel`. -/
def parseMembers : Nat → List Char → GoMap String JValue →
    Option (GoMap String JValue × List Char)
  | 0, _, _ => none
  | _ + 1, [], _ => none
  | fuel + 1, q :: r1, m =>
    if q = '"' then
      match parseString r1 with
      | none => none
      | some (key, r2) =>
        match skipSpace r2 with
        | [] => none
        | colon :: r3 =>
          if colon = ':' then
            match parseValue (skipSpace r3) with
            | none => none
            | some (v, r4) =>
              match skipSpace r4 with
              | [] => none
              | sep :: r5 =>
                if sep = ',' then parseMembers fuel (skipSpace r5) (m.set key v)
                else if sep = '\x7d' then some (m.set key v, r5)
                else none
          else none
    else none

/-- A whole document that is one JSON object with scalar values. -/
def decodeObject (cs : List Char) : Option (GoMap String JValue) :=
  match skipSpace cs with
  | [] => none
  | open_ :: r =>
    if open_ = '\x7b' then
      match skipSpace r with
      | [] => none
      | c :: r' =>
        if c = '\x7d' then (if skipSpace r' = [] then some [] else none)
        else
          match parseMembers (r.length) (c :: r') [] with
          | none => none
          | some (m, rest) => if skipSpace rest = [] then some m else none
    else none

/-- The call `_ = json.Unmarshal([]byte(dataStr), &data)` on the empty map `data`: an
invalid document leaves the map empty, the error being dropped.  The definition is the one
of the code on an object whose values are scalars in `exactValue`, and on an invalid
document.  A valid document that holds an array, a nested object, a fraction or an
exponent is decoded by Go and left empty here, and a greater integer is rounded by Go and
kept exact here; the documents `getUpdateDataStr` builds from values in `exactValue` over
plain property names hold none of these. -/
def jsonUnmarshal (dataStr : String) : GoMap String JValue :=
  (decodeObject dataStr.data).getD []

/-! ## `generateCondition` -/

/-- One element of `cond`: the document that maps `key` to a not-equal test on `value`. -/
structure NeCond where
  key : String
  value : JValue
  deriving DecidableEq, Repr

/-- The filter `mergeCond`: the host id is in `hostIDs` (key `common.BKHostIDField`) and
one of the `orCond` tests holds (key `common.BKDBOR`). -/
structure MergeCond where
  hostIDs : List Int
  orCond : List NeCond
  deriving DecidableEq, Repr

/-- The function `generateCondition`: the mismatch filter and the update data. -/
def generateCondition (dataStr : String) (hostIDs : List Int) :
    MergeCond × GoMap String JValue :=
  let data := jsonUnmarshal dataStr
  let cond := data.map (fun kv => NeCond.mk kv.1 kv.2)
  (MergeCond.mk hostIDs cond, data)

/-! ## Hosts and the collaborators of `updateHostAttributes` -/

/-- A host document: its id (`bk_host_id`) and its attributes by property name. -/
structure Host where
  HostID : Int
  attrs : GoMap String JValue
  deriving DecidableEq, Repr

/-- The value a filter sees for a property: a missing property compares as null. -/
def Host.value (h : Host) (key : String) : JValue :=
  (h.attrs.get? key).getD JValue.null

/-- The not-equal test of one element of `cond` on a host. -/
def NeCond.holds (c : NeCond) (h : Host) : Bool :=
  h.value c.key != c.value

/-- A host satisfies `mergeCond`: its id is in the list and one of the tests holds. -/
def MergeCond.matches (mc : MergeCond) (h : Host) : Bool :=
  decide (h.HostID ∈ mc.hostIDs) && mc.orCond.any (fun c => c.holds h)

/-- A field-level merge update: every property of `data` is set, the rest is kept. -/
def setFields : GoMap String JValue → GoMap String JValue → GoMap String JValue
  | [], attrs => attrs
  | (k, v) :: data, attrs => setFields data (attrs.set k v)

/-- The request of the handlers in the template scenario:
`metadata.HostApplyServiceTemplateOption`. -/
structure HostApplyServiceTemplateOption where
  BizID : Int
  ServiceTemplateIDs : List Int
  HostIDs : Option (List Int)
  AdditionalRules : List CreateHostApplyRuleOption
  RemoveRuleIDs : List Int
  Changed : Bool
  deriving DecidableEq, Repr

/-- The services `updateHostAttributes` calls, over a datastore state `σ`: the attribute
schema reader, the count-by-filter service (a count per filter, or an error) and the
partial-update service (the new state, and the error of the call if there is one). -/
structure CoreService (σ : Type) where
  ReadModelAttr : σ → ModelReader
  GetCountByFilter : σ → List MergeCond → Except CCError (List Int)
  UpdateInstance : σ → MergeCond → GoMap String JValue → σ × Option String

/-- A call issued on the host table. -/
inductive Call where
  | count (filters : List MergeCond) : Call
  | update (cond : MergeCond) (data : GoMap String JValue) : Call
  deriving DecidableEq, Repr

/-- Is the call a write. -/
def Call.isUpdate : Call → Bool
  | Call.count _ => false
  | Call.update _ _ => true

/-- How a function ends: `nil`, an error, or a run-time panic. -/
inductive Answer where
  | ok : Answer
  | error (e : CCError) : Answer
  | panic : Answer
  deriving DecidableEq, Repr

/-- What a run leaves behind: the datastore state, the calls issued in order, the answer. -/
structure Run (σ : Type) where
  state : σ
  calls : List Call
  answer : Answer

/-- The function `updateHostAttributes`. -/
def updateHostAttributes {σ : Type} (svc : CoreService σ) (st : σ)
    (planResult : HostApplyServiceTemplateOption) (hostIDs : List Int) : Run σ :=
  match getUpdateDataStr (svc.ReadModelAttr st) planResult.AdditionalRules with
  | Except.error err => Run.mk st [] (Answer.error err)
  | Except.ok dataStr =>
    let mergeCond := (generateCondition dataStr hostIDs).1
    let data := (generateCondition dataStr hostIDs).2
    match svc.GetCountByFilter st [mergeCond] with
    | Except.error cErr => Run.mk st [Call.count [mergeCond]] (Answer.error cErr)
    | Except.ok [] => Run.mk st [Call.count [mergeCond]] Answer.panic
    | Except.ok (c0 :: _) =>
      if c0 = 0 then Run.mk st [Call.count [mergeCond]] Answer.ok
      else
        match svc.UpdateInstance st mergeCond data with
        | (st', some _) =>
          Run.mk st' [Call.count [mergeCond], Call.update mergeCond data]
            (Answer.error CCError.CCErrCommHTTPDoRequestFailed)
        | (st', none) =>
          Run.mk st' [Call.count [mergeCond], Call.update mergeCond data] Answer.ok

/-- The number of hosts of the table that satisfy a filter. -/
def countHosts (hosts : List Host) (filter : MergeCond) : Int :=
  ((hosts.filter (fun h => filter.matches h)).length : Int)

/-- The update of the host table: the hosts that satisfy the filter get the fields of
`data`, the others stay. -/
def updateHosts (hosts : List Host) (cond : MergeCond) (data : GoMap String JValue) :
    List Host :=
  hosts.map (fun h => if cond.matches h then Host.mk h.HostID (setFields data h.attrs) else h)

/-- The host store: a host table with a fixed attribute schema, where count and update
select exactly the hosts that satisfy the filter and neither call fails. -/
def hostStore (schema : List Attribute) : CoreService (List Host) where
  ReadModelAttr := fun _ => schemaReader schema
  GetCountByFilter := fun hosts filters => Except.ok (filters.map (countHosts hosts))
  UpdateInstance := fun hosts cond data => (updateHosts hosts cond data, none)

/-! ## `getHostIDByCondition` -/

/-- A module row as far as it is read here (`bk_module_id`). -/
structure ModuleInst where
  ModuleID : Int
  deriving DecidableEq, Repr

/-- A host-module relation row: `metadata.ModuleHost`. -/
structure ModuleHost where
  HostID : Int
  ModuleID : Int
  deriving DecidableEq, Repr

/-- The request to the relation reader (paging without limit and field projection are
left out): `metadata.HostModuleRelationRequest`. -/
structure HostModuleRelationRequest where
  ApplicationID : Int
  ModuleIDArr : List Int
  HostIDArr : Option (List Int)
  deriving DecidableEq, Repr

/-- The readers of `getHostIDByCondition`: the module query by business and template ids
(an error stands for both the failed call and the error carried by the response) and the
host-module relation reader (`none` is a failed call). -/
structure MembershipService where
  ReadModules : Int → List Int → Except CCError (List ModuleInst)
  GetHostModuleRelation : HostModuleRelationRequest → Option (List ModuleHost)

/-- A read issued by `getHostIDByCondition`. -/
inductive ReadCall where
  | modules (bizID : Int) (serviceTemplateIDs : List Int) : ReadCall
  | relations (req : HostModuleRelationRequest) : ReadCall
  deriving DecidableEq, Repr

/-- Is the read a host-module relation query. -/
def ReadCall.isRelations : ReadCall → Bool
  | ReadCall.modules _ _ => false
  | ReadCall.relations _ => true

/-- The two results of `getHostIDByCondition` and the reads it issued. -/
structure HostIDResult where
  hostIDs : List Int
  err : Option CCError
  calls : List ReadCall
  deriving DecidableEq, Repr

/-- Lines 167-170: `hostModuleMap[item.HostID] = struct{}{}` over the relations. -/
def buildHostModuleMap : List ModuleHost → GoMap Int Unit → GoMap Int Unit
  | [], hostModuleMap => hostModuleMap
  | item :: info, hostModuleMap => buildHostModuleMap info (hostModuleMap.set item.HostID ())

/-- The function `getHostIDByCondition`. -/
def getHostIDByCondition (svc : MembershipService) (bizID : Int)
    (serviceTemplateIDs : List Int) (hostIDs : Option (List Int)) : HostIDResult :=
  match svc.ReadModules bizID serviceTemplateIDs with
  | Except.error err => HostIDResult.mk [] (some err) [ReadCall.modules bizID serviceTemplateIDs]
  | Except.ok info =>
    if info.length = 0 then
      HostIDResult.mk [] (some CCError.CCErrCommParamsInvalid)
        [ReadCall.modules bizID serviceTemplateIDs]
    else
      let modIDs := info.map (fun modID => modID.ModuleID)
      let relationReq := HostModuleRelationRequest.mk bizID modIDs none
      let relationReq :=
        match hostIDs with
        | some ids => HostModuleRelationRequest.mk bizID modIDs (some ids)
        | none => relationReq
      match svc.GetHostModuleRelation relationReq with
      | none =>
        HostIDResult.mk [] (some CCError.CCErrCommHTTPDoRequestFailed)
          [ReadCall.modules bizID serviceTemplateIDs, ReadCall.relations relationReq]
      | some hostRelations =>
        let hostModuleMap := buildHostModuleMap hostRelations []
        HostIDResult.mk hostModuleMap.keys none
          [ReadCall.modules bizID serviceTemplateIDs, ReadCall.relations relationReq]

/-! ## `GetServiceTemplateSyncStatus` -/

/-- The request body: `metadata.GetServiceTemplateSyncStatusOption`. -/
structure GetServiceTemplateSyncStatusOption where
  ModuleIDs : List Int
  ServiceTemplateIDs : List Int
  IsPartial : Bool
  deriving DecidableEq, Repr

/-- The module filter handed to the evaluator: by template ids (partial mode), or by module
ids among the modules that have a template set (full mode); both within the business. -/
inductive ModuleCond where
  | byTemplates (bizID : Int) (serviceTemplateIDs : List Int) : ModuleCond
  | byModules (bizID : Int) (moduleIDs : List Int) : ModuleCond
  deriving DecidableEq, Repr

/-- A verdict of the evaluator: the template or module id and whether it needs a sync. -/
structure SyncStatus where
  ID : Int
  NeedSync : Bool
  deriving DecidableEq, Repr

/-- The evaluator `Logic.GetSvcTempSyncStatus(kit, bizID, moduleCond, isPartial)`: the
verdicts per template and per module, or an error. -/
abbrev SyncStatusEvaluator :=
  Int → ModuleCond → Bool → Except CCError (List SyncStatus × List SyncStatus)

/-- The response of the handler: an error, or the entity with the two verdict lists. -/
inductive Response where
  | error (e : CCError) : Response
  | entity (serviceTemplates modules : List SyncStatus) : Response
  deriving DecidableEq, Repr

/-- The response and the calls made to the evaluator (business, filter, mode). -/
structure SyncStatusRun where
  response : Response
  consulted : List (Int × ModuleCond × Bool)
  deriving DecidableEq, Repr

/-- The cap on the id list: `const maxIDLen = 100`. -/
def maxIDLen : Nat := 100

/-- The function `GetServiceTemplateSyncStatus`; `bizID` is the parsed path parameter
(`none` when it is not a number) and `opt` the decoded body (the decoder's error when
decoding fails). -/
def GetServiceTemplateSyncStatus (GetSvcTempSyncStatus : SyncStatusEvaluator)
    (bizID : Option Int) (opt : Except CCError GetServiceTemplateSyncStatusOption) :
    SyncStatusRun :=
  match bizID with
  | none => SyncStatusRun.mk (Response.error CCError.CCErrCommParamsIsInvalid) []
  | some bizID =>
    if bizID ≤ 0 then SyncStatusRun.mk (Response.error CCError.CCErrCommParamsIsInvalid) []
    else
      match opt with
      | Except.error err => SyncStatusRun.mk (Response.error err) []
      | Except.ok opt =>
        if opt.IsPartial then
          if opt.ServiceTemplateIDs.length = 0 then
            SyncStatusRun.mk (Response.error CCError.CCErrCommParamsNeedSet) []
          else if opt.ServiceTemplateIDs.length > maxIDLen then
            SyncStatusRun.mk (Response.error CCError.CCErrCommXXExceedLimit) []
          else
            let moduleCond := ModuleCond.byTemplates bizID opt.ServiceTemplateIDs
            match GetSvcTempSyncStatus bizID moduleCond true with
            | Except.error err =>
              SyncStatusRun.mk (Response.error err) [(bizID, moduleCond, true)]
            | Except.ok (statuses, _) =>
              SyncStatusRun.mk (Response.entity statuses []) [(bizID, moduleCond, true)]
        else
          if opt.ModuleIDs.length = 0 then
            SyncStatusRun.mk (Response.error CCError.CCErrCommParamsNeedSet) []
          else if opt.ModuleIDs.length > maxIDLen then
            SyncStatusRun.mk (Response.error CCError.CCErrCommXXExceedLimit) []
          else
            let moduleCond := ModuleCond.byModules bizID opt.ModuleIDs
            match GetSvcTempSyncStatus bizID moduleCond false with
            | Except.error err =>
              SyncStatusRun.mk (Response.error err) [(bizID, moduleCond, false)]
            | Except.ok (_, statuses) =>
              SyncStatusRun.mk (Response.entity [] statuses) [(bizID, moduleCond, false)]

/-! ## Error classes -/

/-- The four error classes of the error handling design. -/
inductive ErrorKind where
  | ValidationError : ErrorKind
  | NotFoundError : ErrorKind
  | LimitExceededError : ErrorKind
  | DependencyError : ErrorKind
  deriving DecidableEq, Repr

/-- Modelled from the spec: the class of each error code of package `common` (its
declarations are not part of the sources at hand), read off the names of the codes and the
taxonomy of the error handling design: a parameter that is invalid or not set is a
validation error, an exceeded limit is a limit error, a failed request to a collaborator
and an error handed back by one are dependency errors.  No code used by these handlers is
a not-found code. -/
def errorKind : CCError → ErrorKind
  | CCError.CCErrCommParamsInvalid => ErrorKind.ValidationError
  | CCError.CCErrCommParamsIsInvalid => ErrorKind.ValidationError
  | CCError.CCErrCommParamsNeedSet => ErrorKind.ValidationError
  | CCError.CCErrCommParamsNeedInt => ErrorKind.ValidationError
  | CCError.CCErrCommXXExceedLimit => ErrorKind.LimitExceededError
  | CCError.CCErrCommHTTPDoRequestFailed => ErrorKind.DependencyError
  | CCError.collaborator _ => ErrorKind.DependencyError


/-! ## The entries of the document -/

/-- The rules in the order in which `sort.Strings` leaves their entries. -/
def sortedRules (attrMap : GoMap Int String) (rules : List CreateHostApplyRuleOption) :
    List CreateHostApplyRuleOption :=
  List.insertionSort (fun r₁ r₂ => stringLE (fieldOf attrMap r₁) (fieldOf attrMap r₂)) rules

/-- The property names of the entries of the document, left to right. -/
def documentNames (attrMap : GoMap Int String) (rules : List CreateHostApplyRuleOption) :
    List String :=
  (sortedRules attrMap rules).map (fun r => attrMapAt attrMap r.AttributeID)

/-- The map `attrMap` that `getUpdateDataStr` builds over a fixed schema. -/
def schemaAttrMap (schema : List Attribute) (rules : List CreateHostApplyRuleOption) :
    GoMap Int String :=
  buildAttrMap (schema.filter (fun a => decide (a.ID ∈ collectAttributeIDs rules []))) []


/-- The id list the request is checked on: the template ids in partial mode, the module
ids in full mode. -/
def modeIDs (opt : GetServiceTemplateSyncStatusOption) : List Int :=
  if opt.IsPartial then opt.ServiceTemplateIDs else opt.ModuleIDs


/-- A property name that is read back as it is written between the quotes: it holds no
double quote, no backslash and no control character. -/
def plainName (s : String) : Prop :=
  ∀ c ∈ s.data, c ≠ '"' ∧ c ≠ '\\' ∧ 32 ≤ c.toNat

instance plainName_decidable : DecidablePred plainName := fun s =>
  inferInstanceAs (Decidable (∀ c ∈ s.data, c ≠ '"' ∧ c ≠ '\\' ∧ 32 ≤ c.toNat))

/-- The stores `data[name] = value` made for the entries of the given rules, first to
last. -/
def storeRules (attrMap : GoMap Int String) :
    List CreateHostApplyRuleOption → GoMap String JValue → GoMap String JValue
  | [], data => data
  | r :: rs, data =>
    storeRules attrMap rs (data.set (attrMapAt attrMap r.AttributeID) r.PropertyValue)


/-- A property value on which the definitions of `json.Marshal` and `json.Unmarshal` above
are those of Go: null, a boolean, an integer of magnitude below 2^53, or a string without
the characters U+0008 and U+000C.  A `float64` holds such an integer exactly,
`json.Marshal` writes it in plain decimal and `json.Unmarshal` reads the same number back;
for the two characters the escape written differs between Go releases (six characters, as
in `escapeRune`, or two). -/
def exactValue : JValue → Bool
  | JValue.number n => decide (n.natAbs < 2 ^ 53)
  | JValue.string s => s.data.all (fun c => c.toNat != 8 && c.toNat != 12)
  | _ => true

/-- The rule whose entry is the last one of its property in the document: no rule on the
same property has a greater entry.  A rule whose property no other rule carries is such a
rule. -/
def lastOfProperty (attrMap : GoMap Int String) (rules : List CreateHostApplyRuleOption)
    (r : CreateHostApplyRuleOption) : Prop :=
  ∀ r' ∈ rules, attrMapAt attrMap r'.AttributeID = attrMapAt attrMap r.AttributeID →
    stringLE (fieldOf attrMap r') (fieldOf attrMap r)

instance lastOfProperty_decidable (attrMap : GoMap Int String)
    (rules : List CreateHostApplyRuleOption) : DecidablePred (lastOfProperty attrMap rules) :=
  fun r => inferInstanceAs (Decidable (∀ r' ∈ rules,
    attrMapAt attrMap r'.AttributeID = attrMapAt attrMap r.AttributeID →
      stringLE (fieldOf attrMap r') (fieldOf attrMap r)))


/-! ## Templates, rules and the unit of work -/

/-- A service template as far as the handlers touch it: its id, its business and the
flag `host_apply_enabled`. -/
structure ServiceTemplate where
  ID : Int
  BizID : Int
  HostApplyEnabled : Bool
  deriving DecidableEq, Repr

/-- A stored host apply rule: `metadata.HostApplyRule`. -/
structure HostApplyRule where
  ID : Int
  BizID : Int
  ServiceTemplateID : Int
  AttributeID : Int
  PropertyValue : JValue
  deriving DecidableEq, Repr

/-- The update of the flag on a batch of templates: `metadata.UpdateOption` with the
condition on the business and the template ids and the new value of the flag as data. -/
structure TemplateUpdateOption where
  BizID : Int
  IDs : List Int
  HostApplyEnabled : Bool
  deriving DecidableEq, Repr

/-- A rule to save: `metadata.CreateOrUpdateApplyRuleOption`. -/
structure CreateOrUpdateApplyRuleOption where
  AttributeID : Int
  ServiceTemplateID : Int
  PropertyValue : JValue
  deriving DecidableEq, Repr

/-- The rules to delete: `metadata.DeleteHostApplyRuleOption`. -/
structure DeleteHostApplyRuleOption where
  RuleIDs : List Int
  ServiceTemplateIDs : List Int
  deriving DecidableEq, Repr

/-- The rules to list (paging without limit is left out):
`metadata.ListHostApplyRuleOption`. -/
structure ListHostApplyRuleOption where
  ServiceTemplateIDs : List Int
  deriving DecidableEq, Repr

/-- The body of the enable-status request: `metadata.UpdateHostApplyEnableStatusOption`. -/
structure UpdateHostApplyEnableStatusOption where
  IDs : List Int
  Enable : Bool
  ClearRules : Bool
  deriving DecidableEq, Repr

/-- The services the handlers call inside the unit of work, over a datastore state `σ`:
the batch update of templates, the batch save of rules, the delete of rules and the list of
rules.  A write gives the new state and the error of the call if there is one. -/
structure RuleService (σ : Type) where
  UpdateBatchServiceTemplate : σ → TemplateUpdateOption → σ × Option CCError
  BatchUpdateHostApplyRule : σ → Int → List CreateOrUpdateApplyRuleOption → σ × Option CCError
  DeleteHostApplyRule : σ → Int → DeleteHostApplyRuleOption → σ × Option CCError
  ListHostApplyRule : σ → Int → ListHostApplyRuleOption → Except CCError (List HostApplyRule)

/-- A call issued inside the unit of work. -/
inductive StoreCall where
  | updateTemplates (option : TemplateUpdateOption) : StoreCall
  | saveRules (bizID : Int) (rules : List CreateOrUpdateApplyRuleOption) : StoreCall
  | deleteRules (bizID : Int) (option : DeleteHostApplyRuleOption) : StoreCall
  | listRules (bizID : Int) (option : ListHostApplyRuleOption) : StoreCall
  deriving DecidableEq, Repr

/-- Is the call a list or a delete of rules. -/
def StoreCall.isRuleListOrDelete : StoreCall → Bool
  | StoreCall.updateTemplates _ => false
  | StoreCall.saveRules _ _ => false
  | StoreCall.deleteRules _ _ => true
  | StoreCall.listRules _ _ => true

/-- What the body of a unit of work leaves behind: the state, the calls issued in order and
the error it returns (`none` for `nil`). -/
structure TxnRun (σ : Type) where
  state : σ
  calls : List StoreCall
  err : Option CCError

/-- Modelled from the spec: the unit-of-work provider `Txn().AutoRunTxn(ctx, header, fn)`,
whose code is not part of the sources at hand, all-or-nothing for the steps inside `fn`: it
returns the error of `fn`; when `fn` returns `nil` the state `fn` reached is kept, when `fn`
returns an error the state is the one before.  A failure of the commit itself is not
modelled. -/
def AutoRunTxn {σ : Type} (st : σ) (fn : σ → TxnRun σ) : TxnRun σ :=
  match (fn st).err with
  | none => fn st
  | some txnErr => TxnRun.mk st (fn st).calls (some txnErr)

/-- The answer of a handler: `RespEntity(nil)`, `RespAutoError(err)`,
`RespAutoError(&metadata.RespError{Msg: txnErr})`, or a run-time panic. -/
inductive Reply where
  | entity : Reply
  | error (e : CCError) : Reply
  | respError (msg : CCError) : Reply
  | panic : Reply
  deriving DecidableEq, Repr

/-! ## `ExecServiceTemplateHostApplyRule` -/

/-- Lines 193-242: the body of the unit of work of `ExecServiceTemplateHostApplyRule`. -/
def execTxn {σ : Type} (rs : RuleService σ) (planReq : HostApplyServiceTemplateOption)
    (st : σ) : TxnRun σ :=
  let updateOption := TemplateUpdateOption.mk planReq.BizID planReq.ServiceTemplateIDs true
  match rs.UpdateBatchServiceTemplate st updateOption with
  | (st1, some err) => TxnRun.mk st1 [StoreCall.updateTemplates updateOption] (some err)
  | (st1, none) =>
    let rulesOption := planReq.AdditionalRules.map (fun rule =>
      CreateOrUpdateApplyRuleOption.mk rule.AttributeID rule.ServiceTemplateID
        rule.PropertyValue)
    match rs.BatchUpdateHostApplyRule st1 planReq.BizID rulesOption with
    | (st2, some ccErr) =>
      TxnRun.mk st2 [StoreCall.updateTemplates updateOption,
        StoreCall.saveRules planReq.BizID rulesOption] (some ccErr)
    | (st2, none) =>
      if planReq.RemoveRuleIDs.length > 0 then
        let removeOp :=
          DeleteHostApplyRuleOption.mk planReq.RemoveRuleIDs planReq.ServiceTemplateIDs
        match rs.DeleteHostApplyRule st2 planReq.BizID removeOp with
        | (st3, some ccErr) =>
          TxnRun.mk st3 [StoreCall.updateTemplates updateOption,
            StoreCall.saveRules planReq.BizID rulesOption,
            StoreCall.deleteRules planReq.BizID removeOp] (some ccErr)
        | (st3, none) =>
          TxnRun.mk st3 [StoreCall.updateTemplates updateOption,
            StoreCall.saveRules planReq.BizID rulesOption,
            StoreCall.deleteRules planReq.BizID removeOp] none
      else
        TxnRun.mk st2 [StoreCall.updateTemplates updateOption,
          StoreCall.saveRules planReq.BizID rulesOption] none

/-- What a request to `ExecServiceTemplateHostApplyRule` leaves behind: the state, the reads
of the membership resolution, the calls of the unit of work, the run of
`updateHostAttributes` when it was invoked, and the answer. -/
structure ExecRun (σ : Type) where
  state : σ
  reads : List ReadCall
  storeCalls : List StoreCall
  hostApply : Option (Run σ)
  reply : Reply

/-- The calls issued on the host table by a request: those of `updateHostAttributes` when
it was invoked, none otherwise. -/
def ExecRun.hostCalls {σ : Type} (run : ExecRun σ) : List Call :=
  match run.hostApply with
  | none => []
  | some r => r.calls

/-- The function `ExecServiceTemplateHostApplyRule`; `planReq` is the decoded body (the
decoder's error when decoding fails). -/
def ExecServiceTemplateHostApplyRule {σ : Type} (ms : MembershipService)
    (rs : RuleService σ) (cs : CoreService σ) (st : σ)
    (planReq : Except CCError HostApplyServiceTemplateOption) : ExecRun σ :=
  match planReq with
  | Except.error err => ExecRun.mk st [] [] none (Reply.error err)
  | Except.ok planReq =>
    let res := getHostIDByCondition ms planReq.BizID planReq.ServiceTemplateIDs planReq.HostIDs
    match res.err with
    | some err => ExecRun.mk st res.calls [] none (Reply.error err)
    | none =>
      let txn := AutoRunTxn st (execTxn rs planReq)
      match txn.err with
      | some txnErr => ExecRun.mk txn.state res.calls txn.calls none (Reply.respError txnErr)
      | none =>
        if !planReq.Changed || planReq.AdditionalRules.length = 0 then
          ExecRun.mk txn.state res.calls txn.calls none Reply.entity
        else
          let run := updateHostAttributes cs txn.state planReq res.hostIDs
          match run.answer with
          | Answer.error err =>
            ExecRun.mk run.state res.calls txn.calls (some run) (Reply.error err)
          | Answer.panic => ExecRun.mk run.state res.calls txn.calls (some run) Reply.panic
          | Answer.ok => ExecRun.mk run.state res.calls txn.calls (some run) Reply.entity

/-! ## `UpdateServiceTemplateHostApplyEnableStatus` -/

/-- Lines 427-472: the body of the unit of work of
`UpdateServiceTemplateHostApplyEnableStatus`. -/
def enableStatusTxn {σ : Type} (rs : RuleService σ) (bizID : Int)
    (requestBody : UpdateHostApplyEnableStatusOption) (st : σ) : TxnRun σ :=
  let updateOption := TemplateUpdateOption.mk bizID requestBody.IDs requestBody.Enable
  match rs.UpdateBatchServiceTemplate st updateOption with
  | (st1, some err) => TxnRun.mk st1 [StoreCall.updateTemplates updateOption] (some err)
  | (st1, none) =>
    if requestBody.Enable then TxnRun.mk st1 [StoreCall.updateTemplates updateOption] none
    else if requestBody.ClearRules then
      let listRuleOption := ListHostApplyRuleOption.mk requestBody.IDs
      match rs.ListHostApplyRule st1 bizID listRuleOption with
      | Except.error ccErr =>
        TxnRun.mk st1 [StoreCall.updateTemplates updateOption,
          StoreCall.listRules bizID listRuleOption] (some ccErr)
      | Except.ok info =>
        let ruleIDs := info.map (fun item => item.ID)
        if ruleIDs.length > 0 then
          let deleteRuleOption := DeleteHostApplyRuleOption.mk ruleIDs requestBody.IDs
          match rs.DeleteHostApplyRule st1 bizID deleteRuleOption with
          | (st2, some ccErr) =>
            TxnRun.mk st2 [StoreCall.updateTemplates updateOption,
              StoreCall.listRules bizID listRuleOption,
              StoreCall.deleteRules bizID deleteRuleOption] (some ccErr)
          | (st2, none) =>
            TxnRun.mk st2 [StoreCall.updateTemplates updateOption,
              StoreCall.listRules bizID listRuleOption,
              StoreCall.deleteRules bizID deleteRuleOption] none
        else
          TxnRun.mk st1 [StoreCall.updateTemplates updateOption,
            StoreCall.listRules bizID listRuleOption] none
    else TxnRun.mk st1 [StoreCall.updateTemplates updateOption] none

/-- What a request to `UpdateServiceTemplateHostApplyEnableStatus` leaves behind: the state,
the calls of the unit of work and the answer. -/
structure EnableStatusRun (σ : Type) where
  state : σ
  calls : List StoreCall
  reply : Reply

/-- The function `UpdateServiceTemplateHostApplyEnableStatus`; `bizID` is the parsed path
parameter (`none` when it is not a number) and `requestBody` the decoded body (the decoder's
error when decoding fails). -/
def UpdateServiceTemplateHostApplyEnableStatus {σ : Type} (rs : RuleService σ) (st : σ)
    (bizID : Option Int) (requestBody : Except CCError UpdateHostApplyEnableStatusOption) :
    EnableStatusRun σ :=
  match bizID with
  | none => EnableStatusRun.mk st [] (Reply.error CCError.CCErrCommParamsNeedInt)
  | some bizID =>
    match requestBody with
    | Except.error err => EnableStatusRun.mk st [] (Reply.error err)
    | Except.ok requestBody =>
      if requestBody.IDs.length = 0 then
        EnableStatusRun.mk st [] (Reply.error CCError.CCErrCommParamsNeedInt)
      else
        let txn := AutoRunTxn st (enableStatusTxn rs bizID requestBody)
        match txn.err with
        | some txnErr => EnableStatusRun.mk txn.state txn.calls (Reply.error txnErr)
        | none => EnableStatusRun.mk txn.state txn.calls Reply.entity

/-! ## The datastore -/

/-- The datastore: the templates, the rules and the hosts. -/
structure Datastore where
  templates : List ServiceTemplate
  rules : List HostApplyRule
  hosts : List Host
  deriving DecidableEq, Repr

/-- Modelled from the spec: the batch update of templates of the template store, the flag
is set on the templates of the business whose id is listed. -/
def setHostApplyEnabled (templates : List ServiceTemplate) (option : TemplateUpdateOption) :
    List ServiceTemplate :=
  templates.map (fun t =>
    if t.BizID = option.BizID ∧ t.ID ∈ option.IDs then
      ServiceTemplate.mk t.ID t.BizID option.HostApplyEnabled
    else t)

/-- Modelled from the spec: the rules a list call of the rule store returns, the rules of
the business whose template is listed. -/
def listRules (rules : List HostApplyRule) (bizID : Int) (option : ListHostApplyRuleOption) :
    List HostApplyRule :=
  rules.filter (fun r => decide (r.BizID = bizID ∧ r.ServiceTemplateID ∈ option.ServiceTemplateIDs))

/-- Modelled from the spec: the rules a delete call of the rule store leaves, a rule goes
only if it is of the business, its id is among the rule ids and its template among the
template ids. -/
def deleteRules (rules : List HostApplyRule) (bizID : Int)
    (option : DeleteHostApplyRuleOption) : List HostApplyRule :=
  rules.filter (fun r => !decide (r.BizID = bizID ∧ r.ID ∈ option.RuleIDs ∧
    r.ServiceTemplateID ∈ option.ServiceTemplateIDs))

/-- Modelled from the spec: the id given to a new rule of the rule store, above the ids of
all stored rules. -/
def nextRuleID (rules : List HostApplyRule) : Int :=
  rules.foldl (fun m r => max m r.ID) 0 + 1

/-- Modelled from the spec: the save of one rule in the rule store, the stored rule of the
same business, template and attribute gets the value, and when there is none a new rule is
added. -/
def upsertRule (rules : List HostApplyRule) (bizID : Int)
    (rule : CreateOrUpdateApplyRuleOption) : List HostApplyRule :=
  if rules.any (fun r => decide (r.BizID = bizID ∧ r.ServiceTemplateID = rule.ServiceTemplateID ∧
      r.AttributeID = rule.AttributeID)) then
    rules.map (fun r =>
      if r.BizID = bizID ∧ r.ServiceTemplateID = rule.ServiceTemplateID ∧
          r.AttributeID = rule.AttributeID then
        HostApplyRule.mk r.ID r.BizID r.ServiceTemplateID r.AttributeID rule.PropertyValue
      else r)
  else
    rules ++ [HostApplyRule.mk (nextRuleID rules) bizID rule.ServiceTemplateID rule.AttributeID
      rule.PropertyValue]

/-- Modelled from the spec: the save of a batch of rules in the rule store, one after the
other. -/
def upsertRules (rules : List HostApplyRule) (bizID : Int) :
    List CreateOrUpdateApplyRuleOption → List HostApplyRule
  | [] => rules
  | rule :: more => upsertRules (upsertRule rules bizID rule) bizID more

/-- Modelled from the spec: the attribute rule store and the template store behind the core
service, whose code is not part of the sources at hand.  The batch update sets the flag on
the listed templates of the business; the batch save overwrites the rule of the same
template and attribute or inserts a new one, and fails with a validation error, saving
nothing, when an attribute is unknown to the schema; the delete removes the rules of the
given ids within the given templates; the list returns every rule of the given templates.
The update, the delete and the list do not fail. -/
def ruleStore (schema : List Attribute) : RuleService Datastore where
  UpdateBatchServiceTemplate := fun st option =>
    (Datastore.mk (setHostApplyEnabled st.templates option) st.rules st.hosts, none)
  BatchUpdateHostApplyRule := fun st bizID rules =>
    if rules.all (fun rule => schema.any (fun a => decide (a.ID = rule.AttributeID))) then
      (Datastore.mk st.templates (upsertRules st.rules bizID rules) st.hosts, none)
    else (st, some CCError.CCErrCommParamsInvalid)
  DeleteHostApplyRule := fun st bizID option =>
    (Datastore.mk st.templates (deleteRules st.rules bizID option) st.hosts, none)
  ListHostApplyRule := fun st bizID option => Except.ok (listRules st.rules bizID option)

/-- The host services over the datastore: the host store on the host table, the templates
and the rules untouched. -/
def hostService (schema : List Attribute) : CoreService Datastore where
  ReadModelAttr := fun _ => schemaReader schema
  GetCountByFilter := fun st filters => Except.ok (filters.map (countHosts st.hosts))
  UpdateInstance := fun st cond data =>
    (Datastore.mk st.templates st.rules (updateHosts st.hosts cond data), none)

/-! ## Go maps: reads after writes -/

theorem GoMap.get?_set_self {κ ν : Type} [DecidableEq κ] (m : GoMap κ ν) (k : κ) (v : ν) :
    (m.set k v).get? k = some v := by
  induction m with
  | nil => simp [GoMap.set, GoMap.get?]
  | cons p m ih =>
    obtain ⟨k', v'⟩ := p
    by_cases h : k' = k
    · simp [GoMap.set, GoMap.get?, h]
    · simp [GoMap.set, GoMap.get?, h, ih]

theorem GoMap.get?_set_ne {κ ν : Type} [DecidableEq κ] (m : GoMap κ ν) (k : κ) (v : ν)
    (k₀ : κ) (h : k₀ ≠ k) : (m.set k v).get? k₀ = m.get? k₀ := by
  induction m with
  | nil => simp [GoMap.set, GoMap.get?, Ne.symm h]
  | cons p m ih =>
    obtain ⟨k', v'⟩ := p
    by_cases h' : k' = k
    · subst h'
      simp [GoMap.set, GoMap.get?, Ne.symm h]
    · by_cases h'' : k' = k₀
      · subst h''
        simp [GoMap.set, GoMap.get?, h]
      · simp [GoMap.set, GoMap.get?, h', h'', ih]

theorem GoMap.keys_set {κ ν : Type} [DecidableEq κ] (m : GoMap κ ν) (k : κ) (v : ν) :
    (m.set k v).keys = if k ∈ m.keys then m.keys else m.keys ++ [k] := by
  induction m with
  | nil => simp [GoMap.set, GoMap.keys]
  | cons p m ih =>
    obtain ⟨k', v'⟩ := p
    by_cases h : k' = k
    · subst h
      simp [GoMap.set, GoMap.keys]
    · have ih' : List.map Prod.fst (GoMap.set m k v) =
          if k ∈ List.map Prod.fst m then List.map Prod.fst m
          else List.map Prod.fst m ++ [k] := ih
      simp only [GoMap.set, GoMap.keys, h, if_false, List.map_cons, ih', List.mem_cons,
        Ne.symm h, false_or]
      split <;> simp

theorem GoMap.nodup_keys_set {κ ν : Type} [DecidableEq κ] (m : GoMap κ ν) (k : κ) (v : ν)
    (h : m.keys.Nodup) : (m.set k v).keys.Nodup := by
  rw [GoMap.keys_set]
  split
  · exact h
  · rename_i hk
    exact List.Nodup.append h (List.nodup_singleton k)
      (by
        intro a ha hak
        rw [List.mem_singleton] at hak
        exact hk (hak ▸ ha))

theorem GoMap.mem_keys_set {κ ν : Type} [DecidableEq κ] (m : GoMap κ ν) (k : κ) (v : ν)
    (x : κ) : x ∈ (m.set k v).keys ↔ x = k ∨ x ∈ m.keys := by
  rw [GoMap.keys_set]
  split
  · rename_i hk
    constructor
    · exact Or.inr
    · rintro (rfl | h)
      · exact hk
      · exact h
  · simp [or_comm]


/-! ## The order of strings -/

theorem chars_cons_lt_cons (a b : Char) (X Y : List Char) :
    a :: X < b :: Y ↔ a < b ∨ (a = b ∧ X < Y) := by
  constructor
  · intro h
    cases h with
    | cons h => exact Or.inr ⟨rfl, h⟩
    | rel h => exact Or.inl h
  · rintro (h | ⟨rfl, h⟩)
    · exact List.Lex.rel h
    · exact List.Lex.cons h

theorem chars_cons_le_cons (a b : Char) (X Y : List Char) :
    a :: X ≤ b :: Y ↔ a < b ∨ (a = b ∧ X ≤ Y) := by
  rw [le_iff_lt_or_eq, chars_cons_lt_cons, le_iff_lt_or_eq]
  constructor
  · rintro (h | h)
    · rcases h with h | ⟨h1, h2⟩
      · exact Or.inl h
      · exact Or.inr ⟨h1, Or.inl h2⟩
    · injection h with h1 h2
      exact Or.inr ⟨h1, Or.inr h2⟩
  · rintro (h | ⟨h1, h2 | h2⟩)
    · exact Or.inl (Or.inl h)
    · exact Or.inl (Or.inr ⟨h1, h2⟩)
    · exact Or.inr (by rw [h1, h2])

instance stringLE_total : IsTotal String stringLE :=
  ⟨fun a b => le_total a.data b.data⟩

instance stringLE_trans : IsTrans String stringLE :=
  ⟨fun a b c (h1 : a.data ≤ b.data) (h2 : b.data ≤ c.data) => le_trans h1 h2⟩

instance stringLE_antisymm : IsAntisymm String stringLE :=
  ⟨fun _ _ h1 h2 => String.ext (le_antisymm h1 h2)⟩

theorem sortStrings_sorted (fields : List String) :
    (sortStrings fields).Sorted stringLE :=
  List.sorted_insertionSort stringLE fields

theorem sortStrings_perm (fields : List String) : (sortStrings fields).Perm fields :=
  List.perm_insertionSort stringLE fields

theorem sortStrings_eq_of_perm {l₁ l₂ : List String} (h : l₁.Perm l₂) :
    sortStrings l₁ = sortStrings l₂ :=
  List.eq_of_perm_of_sorted
    (((sortStrings_perm l₁).trans h).trans (sortStrings_perm l₂).symm)
    (sortStrings_sorted l₁) (sortStrings_sorted l₂)

/-! ## The attribute ids of a rule list -/

theorem mem_collectAttributeIDs (rules : List CreateHostApplyRuleOption) :
    ∀ (acc : List Int) (x : Int),
      x ∈ collectAttributeIDs rules acc ↔ x ∈ acc ∨ ∃ r ∈ rules, r.AttributeID = x := by
  induction rules with
  | nil => intro acc x; simp [collectAttributeIDs]
  | cons r rs ih =>
    intro acc x
    unfold collectAttributeIDs
    split
    · rename_i hmem
      rw [ih]
      constructor
      · rintro (h | ⟨r', hr', h⟩)
        · exact Or.inl h
        · exact Or.inr ⟨r', List.mem_cons_of_mem _ hr', h⟩
      · rintro (h | ⟨r', hr', h⟩)
        · exact Or.inl h
        · rcases List.mem_cons.mp hr' with rfl | hr'
          · exact Or.inl (h ▸ hmem)
          · exact Or.inr ⟨r', hr', h⟩
    · rw [ih]
      constructor
      · rintro (h | ⟨r', hr', h⟩)
        · rcases List.mem_append.mp h with h | h
          · exact Or.inl h
          · exact Or.inr ⟨r, List.mem_cons_self _ _, (List.mem_singleton.mp h).symm⟩
        · exact Or.inr ⟨r', List.mem_cons_of_mem _ hr', h⟩
      · rintro (h | ⟨r', hr', h⟩)
        · exact Or.inl (List.mem_append_left _ h)
        · rcases List.mem_cons.mp hr' with rfl | hr'
          · exact Or.inl (List.mem_append_right _ (List.mem_singleton.mpr h.symm))
          · exact Or.inr ⟨r', hr', h⟩

theorem schemaReader_perm (schema : List Attribute)
    {rules rules' : List CreateHostApplyRuleOption} (h : rules.Perm rules') :
    schemaReader schema (collectAttributeIDs rules []) =
      schemaReader schema (collectAttributeIDs rules' []) := by
  unfold schemaReader
  congr 1
  apply List.filter_congr
  intro a _
  have : a.ID ∈ collectAttributeIDs rules [] ↔ a.ID ∈ collectAttributeIDs rules' [] := by
    rw [mem_collectAttributeIDs, mem_collectAttributeIDs]
    constructor
    · rintro (h1 | ⟨r, hr, h1⟩)
      · exact Or.inl h1
      · exact Or.inr ⟨r, h.mem_iff.mp hr, h1⟩
    · rintro (h1 | ⟨r, hr, h1⟩)
      · exact Or.inl h1
      · exact Or.inr ⟨r, h.mem_iff.mpr hr, h1⟩
  simp only [this]

/-- C4. Determinism of the merged document: over a fixed attribute schema, a rule list
and any rearrangement of it give the same result of `getUpdateDataStr`, character by
character. -/
theorem getUpdateDataStr_perm (schema : List Attribute)
    (rules rules' : List CreateHostApplyRuleOption) (h : rules.Perm rules') :
    getUpdateDataStr (schemaReader schema) rules =
      getUpdateDataStr (schemaReader schema) rules' := by
  unfold getUpdateDataStr
  simp only [schemaReader_perm schema h]
  have hs : ∀ attrMap, sortedFields attrMap rules = sortedFields attrMap rules' :=
    fun attrMap => sortStrings_eq_of_perm (h.map (fieldOf attrMap))
  simp only [hs]

/-- C4, at a concrete input: three rules over two attributes, given in two orders. -/
theorem getUpdateDataStr_perm_witness :
    getUpdateDataStr (schemaReader [⟨1, "cpu_module"⟩, ⟨2, "bk_sla"⟩])
        [⟨2, 7, JValue.number 3⟩, ⟨1, 7, JValue.string "A"⟩, ⟨1, 8, JValue.string "B"⟩] =
      getUpdateDataStr (schemaReader [⟨1, "cpu_module"⟩, ⟨2, "bk_sla"⟩])
        [⟨1, 8, JValue.string "B"⟩, ⟨2, 7, JValue.number 3⟩, ⟨1, 7, JValue.string "A"⟩] :=
  getUpdateDataStr_perm _ _ _ (by decide)


/-! ## Entries and property names -/

theorem sortedFields_eq_map (attrMap : GoMap Int String)
    (rules : List CreateHostApplyRuleOption) :
    sortedFields attrMap rules = (sortedRules attrMap rules).map (fieldOf attrMap) := by
  unfold sortedFields sortStrings sortedRules
  exact (List.map_insertionSort _ stringLE (fieldOf attrMap) rules
    (fun _ _ _ _ => Iff.rfl)).symm

theorem sortedRules_perm (attrMap : GoMap Int String)
    (rules : List CreateHostApplyRuleOption) : (sortedRules attrMap rules).Perm rules :=
  List.perm_insertionSort _ rules

theorem sortedRules_sorted (attrMap : GoMap Int String)
    (rules : List CreateHostApplyRuleOption) :
    (sortedRules attrMap rules).Sorted
      (fun r₁ r₂ => stringLE (fieldOf attrMap r₁) (fieldOf attrMap r₂)) := by
  haveI : IsTotal CreateHostApplyRuleOption
      (fun r₁ r₂ => stringLE (fieldOf attrMap r₁) (fieldOf attrMap r₂)) :=
    ⟨fun a b => stringLE_total.total (fieldOf attrMap a) (fieldOf attrMap b)⟩
  haveI : IsTrans CreateHostApplyRuleOption
      (fun r₁ r₂ => stringLE (fieldOf attrMap r₁) (fieldOf attrMap r₂)) :=
    ⟨fun a b c h1 h2 => stringLE_trans.trans (fieldOf attrMap a) (fieldOf attrMap b)
      (fieldOf attrMap c) h1 h2⟩
  exact List.sorted_insertionSort _ rules

theorem getUpdateDataStr_schemaReader (schema : List Attribute)
    (rules : List CreateHostApplyRuleOption) :
    getUpdateDataStr (schemaReader schema) rules =
      Except.ok ("\x7b" ++
        stringsJoin ((sortedRules (schemaAttrMap schema rules) rules).map
          (fieldOf (schemaAttrMap schema rules))) "," ++ "\x7d") := by
  simp only [getUpdateDataStr, schemaReader, schemaAttrMap, sortedFields_eq_map]

theorem fieldOf_data (attrMap : GoMap Int String) (r : CreateHostApplyRuleOption) :
    (fieldOf attrMap r).data =
      '"' :: ((attrMapAt attrMap r.AttributeID).data ++
        '"' :: ':' :: marshalChars r.PropertyValue) := by
  simp [fieldOf, jsonMarshal, String.data_append]

/-- Two entries in ascending order have their names in ascending order, when the names
hold only characters above the double quote. -/
theorem name_le_of_entry_le :
    ∀ (n₁ n₂ v₁ v₂ : List Char), (∀ c ∈ n₁, '"' < c) → (∀ c ∈ n₂, '"' < c) →
      n₁ ++ '"' :: v₁ ≤ n₂ ++ '"' :: v₂ → n₁ ≤ n₂ := by
  intro n₁
  induction n₁ with
  | nil => intro n₂ _ _ _ _ _; exact List.nil_le
  | cons a n₁ ih =>
    intro n₂ v₁ v₂ h₁ h₂ hle
    cases n₂ with
    | nil =>
      exfalso
      have ha : '"' < a := h₁ a (List.mem_cons_self _ _)
      simp only [List.cons_append, List.nil_append] at hle
      rcases (chars_cons_le_cons _ _ _ _).mp hle with h | ⟨h, _⟩
      · exact lt_asymm ha h
      · exact absurd ha (h ▸ lt_irrefl _)
    | cons b n₂ =>
      simp only [List.cons_append] at hle
      rcases (chars_cons_le_cons _ _ _ _).mp hle with h | ⟨h, hrest⟩
      · exact (chars_cons_le_cons _ _ _ _).mpr (Or.inl h)
      · exact (chars_cons_le_cons _ _ _ _).mpr (Or.inr ⟨h,
          ih n₂ v₁ v₂ (fun c hc => h₁ c (List.mem_cons_of_mem _ hc))
            (fun c hc => h₂ c (List.mem_cons_of_mem _ hc)) hrest⟩)

theorem buildAttrMap_value (P : String → Prop) (info : List Attribute) :
    ∀ (m : GoMap Int String), (∀ a ∈ info, P a.PropertyID) →
      (∀ k v, m.get? k = some v → P v) →
      ∀ k v, (buildAttrMap info m).get? k = some v → P v := by
  induction info with
  | nil => intro m _ hm; exact hm
  | cons a info ih =>
    intro m hinfo hm
    unfold buildAttrMap
    apply ih
    · exact fun b hb => hinfo b (List.mem_cons_of_mem _ hb)
    · intro k v hkv
      by_cases hk : k = a.ID
      · subst hk
        rw [GoMap.get?_set_self] at hkv
        injection hkv with hkv
        exact hkv ▸ hinfo a (List.mem_cons_self _ _)
      · rw [GoMap.get?_set_ne _ _ _ _ hk] at hkv
        exact hm k v hkv

theorem schemaAttrMap_name (P : String → Prop) (hP : P "") (schema : List Attribute)
    (hs : ∀ a ∈ schema, P a.PropertyID) (rules : List CreateHostApplyRuleOption) (id : Int) :
    P (attrMapAt (schemaAttrMap schema rules) id) := by
  unfold attrMapAt
  cases hget : (schemaAttrMap schema rules).get? id with
  | none => exact hP
  | some v =>
    exact buildAttrMap_value P _ [] (fun a ha => hs a (List.mem_of_mem_filter ha))
      (fun _ _ h => by simp [GoMap.get?] at h) id v hget


theorem name_le_of_field_le (attrMap : GoMap Int String) (r₁ r₂ : CreateHostApplyRuleOption)
    (h₁ : ∀ c ∈ (attrMapAt attrMap r₁.AttributeID).data, '"' < c)
    (h₂ : ∀ c ∈ (attrMapAt attrMap r₂.AttributeID).data, '"' < c)
    (hle : stringLE (fieldOf attrMap r₁) (fieldOf attrMap r₂)) :
    stringLE (attrMapAt attrMap r₁.AttributeID) (attrMapAt attrMap r₂.AttributeID) := by
  unfold stringLE at hle ⊢
  rw [fieldOf_data, fieldOf_data] at hle
  rcases (chars_cons_le_cons _ _ _ _).mp hle with h | ⟨_, h⟩
  · exact absurd h (lt_irrefl _)
  · exact name_le_of_entry_le _ _ _ _ h₁ h₂ h

/-- C5, as stated, fails: over the schema with the property names `a` and `a!`, both
attributes of the rule list resolve, and the document reads `a!` before `a` although `a`
is the smaller name. -/
theorem documentNames_not_sorted :
    (∀ r ∈ [CreateHostApplyRuleOption.mk 1 7 (JValue.string "x"),
        CreateHostApplyRuleOption.mk 2 7 (JValue.string "y")],
      ∃ a ∈ [Attribute.mk 1 "a", Attribute.mk 2 "a!"], a.ID = r.AttributeID) ∧
    getUpdateDataStr (schemaReader [Attribute.mk 1 "a", Attribute.mk 2 "a!"])
        [CreateHostApplyRuleOption.mk 1 7 (JValue.string "x"),
          CreateHostApplyRuleOption.mk 2 7 (JValue.string "y")] =
      Except.ok "\x7b\"a!\":\"y\",\"a\":\"x\"\x7d" ∧
    documentNames (schemaAttrMap [Attribute.mk 1 "a", Attribute.mk 2 "a!"]
        [CreateHostApplyRuleOption.mk 1 7 (JValue.string "x"),
          CreateHostApplyRuleOption.mk 2 7 (JValue.string "y")])
        [CreateHostApplyRuleOption.mk 1 7 (JValue.string "x"),
          CreateHostApplyRuleOption.mk 2 7 (JValue.string "y")] = ["a!", "a"] ∧
    ¬ List.Sorted stringLE ["a!", "a"] := by
  refine ⟨by decide, by rfl, by decide, by decide⟩

/-- C5, amended: over a schema whose property names hold only characters above the double
quote (letters, digits and the underscore are such), the document of `getUpdateDataStr` is
made of the entries of the rules in ascending order of the entries, and the property names
of the entries, left to right, are in non-decreasing lexicographic order. -/
theorem documentNames_sorted (schema : List Attribute)
    (rules : List CreateHostApplyRuleOption)
    (h : ∀ a ∈ schema, ∀ c ∈ a.PropertyID.data, '"' < c) :
    getUpdateDataStr (schemaReader schema) rules =
      Except.ok ("\x7b" ++
        stringsJoin ((sortedRules (schemaAttrMap schema rules) rules).map
          (fieldOf (schemaAttrMap schema rules))) "," ++ "\x7d") ∧
    (documentNames (schemaAttrMap schema rules) rules).Sorted stringLE := by
  refine ⟨getUpdateDataStr_schemaReader schema rules, ?_⟩
  have hname : ∀ id, ∀ c ∈ (attrMapAt (schemaAttrMap schema rules) id).data, '"' < c :=
    fun id => schemaAttrMap_name (fun s => ∀ c ∈ s.data, '"' < c)
      (fun c hc => by simp at hc) schema h rules id
  unfold documentNames List.Sorted
  rw [List.pairwise_map]
  exact (sortedRules_sorted (schemaAttrMap schema rules) rules).imp
    (fun {r₁ r₂} hle => name_le_of_field_le _ r₁ r₂ (hname _) (hname _) hle)

/-- C5, amended, at a concrete input: a schema of three ordinary property names. -/
theorem documentNames_sorted_witness :
    (∀ a ∈ [Attribute.mk 1 "cpu_module", Attribute.mk 2 "bk_sla", Attribute.mk 3 "cpu"],
      ∀ c ∈ a.PropertyID.data, '"' < c) ∧
    (documentNames (schemaAttrMap
        [Attribute.mk 1 "cpu_module", Attribute.mk 2 "bk_sla", Attribute.mk 3 "cpu"]
        [CreateHostApplyRuleOption.mk 1 7 (JValue.string "A"),
          CreateHostApplyRuleOption.mk 3 7 (JValue.number 4),
          CreateHostApplyRuleOption.mk 2 7 JValue.null])
        [CreateHostApplyRuleOption.mk 1 7 (JValue.string "A"),
          CreateHostApplyRuleOption.mk 3 7 (JValue.number 4),
          CreateHostApplyRuleOption.mk 2 7 JValue.null]).Sorted stringLE :=
  ⟨by decide, (documentNames_sorted _ _ (by decide)).2⟩


/-! ## The mismatch filter -/

theorem matches_iff (hostIDs : List Int) (data : GoMap String JValue) (h : Host) :
    (MergeCond.mk hostIDs (data.map (fun kv => NeCond.mk kv.1 kv.2))).matches h = true ↔
      h.HostID ∈ hostIDs ∧ ∃ kv ∈ data, h.value kv.1 ≠ kv.2 := by
  simp only [MergeCond.matches, NeCond.holds, Bool.and_eq_true, decide_eq_true_eq,
    List.any_eq_true, List.mem_map, bne_iff_ne, ne_eq]
  constructor
  · rintro ⟨hid, c, ⟨kv, hkv, rfl⟩, hne⟩
    exact ⟨hid, kv, hkv, hne⟩
  · rintro ⟨hid, kv, hkv, hne⟩
    exact ⟨hid, _, ⟨kv, hkv, rfl⟩, hne⟩

/-! ## Count first, write second -/

/-- C7. Count-first, write-second: `updateHostAttributes` issues the update call exactly
when the document was built, the count call succeeded and the count of the filter is not
zero; on a zero count it answers success, and on a failed count it answers that error, in
both cases after the count call alone and with the datastore as it was. -/
theorem updateHostAttributes_count_first {σ : Type} (svc : CoreService σ) (st : σ)
    (planResult : HostApplyServiceTemplateOption) (hostIDs : List Int) :
    ((∃ c ∈ (updateHostAttributes svc st planResult hostIDs).calls, c.isUpdate = true) ↔
      ∃ dataStr c0 rest,
        getUpdateDataStr (svc.ReadModelAttr st) planResult.AdditionalRules = Except.ok dataStr ∧
        svc.GetCountByFilter st [(generateCondition dataStr hostIDs).1] = Except.ok (c0 :: rest) ∧
        c0 ≠ 0) ∧
    (∀ dataStr rest,
      getUpdateDataStr (svc.ReadModelAttr st) planResult.AdditionalRules = Except.ok dataStr →
      svc.GetCountByFilter st [(generateCondition dataStr hostIDs).1] = Except.ok (0 :: rest) →
      (updateHostAttributes svc st planResult hostIDs).answer = Answer.ok ∧
      (updateHostAttributes svc st planResult hostIDs).calls =
        [Call.count [(generateCondition dataStr hostIDs).1]] ∧
      (updateHostAttributes svc st planResult hostIDs).state = st) ∧
    (∀ dataStr cErr,
      getUpdateDataStr (svc.ReadModelAttr st) planResult.AdditionalRules = Except.ok dataStr →
      svc.GetCountByFilter st [(generateCondition dataStr hostIDs).1] = Except.error cErr →
      (updateHostAttributes svc st planResult hostIDs).answer = Answer.error cErr ∧
      (updateHostAttributes svc st planResult hostIDs).calls =
        [Call.count [(generateCondition dataStr hostIDs).1]] ∧
      (updateHostAttributes svc st planResult hostIDs).state = st) := by
  refine ⟨?_, ?_, ?_⟩
  · unfold updateHostAttributes
    cases hdoc : getUpdateDataStr (svc.ReadModelAttr st) planResult.AdditionalRules with
    | error e => simp
    | ok dataStr =>
      cases hcount : svc.GetCountByFilter st [(generateCondition dataStr hostIDs).1] with
      | error e => simp [hcount, Call.isUpdate]
      | ok counts =>
        cases counts with
        | nil => simp [hcount, Call.isUpdate]
        | cons c0 rest =>
          by_cases hc : c0 = 0
          · simp [hcount, hc, Call.isUpdate]
          · rcases hup : svc.UpdateInstance st (generateCondition dataStr hostIDs).1
              (generateCondition dataStr hostIDs).2 with ⟨st', e⟩
            cases e <;> simp [hcount, hc, hup, Call.isUpdate]
  · intro dataStr rest hdoc hcount
    simp [updateHostAttributes, hdoc, hcount]
  · intro dataStr cErr hdoc hcount
    simp [updateHostAttributes, hdoc, hcount]


/-! ## The cap of the sync status query -/

/-- C8. Sync-status cap enforcement: for a request with a valid business id and a decoded
body, in partial mode over the template ids and in full mode over the module ids, an empty
id list is answered with a validation error, a list of more than 100 ids with a limit
error, neither consulting the evaluator, and the evaluator is consulted exactly when the
list has between 1 and 100 ids. -/
theorem GetServiceTemplateSyncStatus_cap (eval : SyncStatusEvaluator) (bizID : Int)
    (opt : GetServiceTemplateSyncStatusOption) (hbiz : 0 < bizID) :
    ((modeIDs opt).length = 0 →
      (GetServiceTemplateSyncStatus eval (some bizID) (Except.ok opt)).response =
        Response.error CCError.CCErrCommParamsNeedSet ∧
      errorKind CCError.CCErrCommParamsNeedSet = ErrorKind.ValidationError ∧
      (GetServiceTemplateSyncStatus eval (some bizID) (Except.ok opt)).consulted = []) ∧
    (100 < (modeIDs opt).length →
      (GetServiceTemplateSyncStatus eval (some bizID) (Except.ok opt)).response =
        Response.error CCError.CCErrCommXXExceedLimit ∧
      errorKind CCError.CCErrCommXXExceedLimit = ErrorKind.LimitExceededError ∧
      (GetServiceTemplateSyncStatus eval (some bizID) (Except.ok opt)).consulted = []) ∧
    ((GetServiceTemplateSyncStatus eval (some bizID) (Except.ok opt)).consulted ≠ [] ↔
      1 ≤ (modeIDs opt).length ∧ (modeIDs opt).length ≤ 100) := by
  have hb : ¬ bizID ≤ 0 := not_le.mpr hbiz
  obtain ⟨mods, tpls, isPartial⟩ := opt
  cases isPartial
  · simp only [modeIDs, GetServiceTemplateSyncStatus, hb, maxIDLen, if_false, Bool.false_eq_true]
    refine ⟨fun h => by simp [h, errorKind], fun h => ?_, ?_⟩
    · have h0 : ¬ mods.length = 0 := by omega
      simp [h0, h, errorKind]
    · by_cases h0 : mods.length = 0
      · simp [h0]
      · by_cases h1 : mods.length > 100
        · simp only [h0, h1, if_false, if_true]
          constructor
          · intro h; exact absurd rfl h
          · intro h; omega
        · simp only [h0, h1, if_false]
          constructor
          · intro _; omega
          · intro _
            cases eval bizID (ModuleCond.byModules bizID mods) false with
            | error e => simp
            | ok p => simp
  · simp only [modeIDs, GetServiceTemplateSyncStatus, hb, maxIDLen, if_false, if_true]
    refine ⟨fun h => by simp [h, errorKind], fun h => ?_, ?_⟩
    · have h0 : ¬ tpls.length = 0 := by omega
      simp [h0, h, errorKind]
    · by_cases h0 : tpls.length = 0
      · simp [h0]
      · by_cases h1 : tpls.length > 100
        · simp only [h0, h1, if_false, if_true]
          constructor
          · intro h; exact absurd rfl h
          · intro h; omega
        · simp only [h0, h1, if_false]
          constructor
          · intro _; omega
          · intro _
            cases eval bizID (ModuleCond.byTemplates bizID tpls) true with
            | error e => simp
            | ok p => simp

/-- C8, at a concrete input: a partial query with 101 template ids for business 2. -/
theorem GetServiceTemplateSyncStatus_cap_witness :
    (0 : Int) < 2 ∧
    (GetServiceTemplateSyncStatus (fun _ _ _ => Except.ok ([], [])) (some 2)
      (Except.ok (GetServiceTemplateSyncStatusOption.mk [] (List.replicate 101 5) true))).response =
        Response.error CCError.CCErrCommXXExceedLimit :=
  ⟨by decide,
    ((GetServiceTemplateSyncStatus_cap (fun _ _ _ => Except.ok ([], [])) 2
      (GetServiceTemplateSyncStatusOption.mk [] (List.replicate 101 5) true) (by decide)).2.1
        (by simp [modeIDs])).1⟩

/-! ## Membership resolution -/

theorem GoMap.keys_buildHostModuleMap (info : List ModuleHost) :
    ∀ (m : GoMap Int Unit), m.keys.Nodup →
      (buildHostModuleMap info m).keys.Nodup ∧
      ∀ x, x ∈ (buildHostModuleMap info m).keys ↔
        x ∈ m.keys ∨ ∃ item ∈ info, item.HostID = x := by
  induction info with
  | nil => intro m hm; simp [buildHostModuleMap, hm]
  | cons item info ih =>
    intro m hm
    unfold buildHostModuleMap
    obtain ⟨h1, h2⟩ := ih (m.set item.HostID ()) (GoMap.nodup_keys_set m _ _ hm)
    refine ⟨h1, fun x => ?_⟩
    rw [h2, GoMap.mem_keys_set]
    constructor
    · rintro ((rfl | h) | ⟨it, hit, h⟩)
      · exact Or.inr ⟨item, List.mem_cons_self _ _, rfl⟩
      · exact Or.inl h
      · exact Or.inr ⟨it, List.mem_cons_of_mem _ hit, h⟩
    · rintro (h | ⟨it, hit, h⟩)
      · exact Or.inl (Or.inr h)
      · rcases List.mem_cons.mp hit with rfl | hit
        · exact Or.inl (Or.inl h.symm)
        · exact Or.inr ⟨it, hit, h⟩

/-- C9, as stated, fails: when the module query returns no module, the error of
`getHostIDByCondition` is the code `CCErrCommParamsInvalid`, a validation error and not a
not-found error. -/
theorem getHostIDByCondition_empty_not_notFound :
    (getHostIDByCondition
        (MembershipService.mk (fun _ _ => Except.ok []) (fun _ => some [ModuleHost.mk 4 9]))
        2 [5] none).err = some CCError.CCErrCommParamsInvalid ∧
    (getHostIDByCondition
        (MembershipService.mk (fun _ _ => Except.ok []) (fun _ => some [ModuleHost.mk 4 9]))
        2 [5] none).err.map errorKind ≠ some ErrorKind.NotFoundError := by
  decide

/-- C9, amended: when the module query returns no module, `getHostIDByCondition` returns
no host ids and fails with the parameter-invalid error `CCErrCommParamsInvalid` (a
validation error), after the module query alone: the host-module relations are not
queried. -/
theorem getHostIDByCondition_empty_modules (svc : MembershipService) (bizID : Int)
    (serviceTemplateIDs : List Int) (hostIDs : Option (List Int))
    (h : svc.ReadModules bizID serviceTemplateIDs = Except.ok []) :
    (getHostIDByCondition svc bizID serviceTemplateIDs hostIDs).hostIDs = [] ∧
    (getHostIDByCondition svc bizID serviceTemplateIDs hostIDs).err =
      some CCError.CCErrCommParamsInvalid ∧
    errorKind CCError.CCErrCommParamsInvalid = ErrorKind.ValidationError ∧
    (getHostIDByCondition svc bizID serviceTemplateIDs hostIDs).calls =
      [ReadCall.modules bizID serviceTemplateIDs] ∧
    (∀ c ∈ (getHostIDByCondition svc bizID serviceTemplateIDs hostIDs).calls,
      c.isRelations = false) := by
  simp [getHostIDByCondition, h, errorKind, ReadCall.isRelations]

/-- C9, amended, at a concrete input: business 2, template 5, a module reader that finds
nothing. -/
theorem getHostIDByCondition_empty_modules_witness :
    (MembershipService.mk (fun _ _ => Except.ok []) (fun _ => some [ModuleHost.mk 4 9])).ReadModules
        2 [5] = Except.ok [] ∧
    (getHostIDByCondition
        (MembershipService.mk (fun _ _ => Except.ok []) (fun _ => some [ModuleHost.mk 4 9]))
        2 [5] (some [4])).calls = [ReadCall.modules 2 [5]] :=
  ⟨rfl, (getHostIDByCondition_empty_modules
    (MembershipService.mk (fun _ _ => Except.ok []) (fun _ => some [ModuleHost.mk 4 9]))
    2 [5] (some [4]) rfl).2.2.2.1⟩

/-- C10. Host de-duplication: when the module query finds modules and the relation reader
answers, `getHostIDByCondition` succeeds with a host id list that holds no id twice and
holds exactly the host ids that occur in the relations. -/
theorem getHostIDByCondition_dedup (svc : MembershipService) (bizID : Int)
    (serviceTemplateIDs : List Int) (hostIDs : Option (List Int))
    (info : List ModuleInst) (relations : List ModuleHost)
    (hmod : svc.ReadModules bizID serviceTemplateIDs = Except.ok info) (hinfo : info ≠ [])
    (hrel : svc.GetHostModuleRelation
      (HostModuleRelationRequest.mk bizID (info.map (fun modID => modID.ModuleID)) hostIDs) =
        some relations) :
    (getHostIDByCondition svc bizID serviceTemplateIDs hostIDs).err = none ∧
    (getHostIDByCondition svc bizID serviceTemplateIDs hostIDs).hostIDs.Nodup ∧
    ∀ x, x ∈ (getHostIDByCondition svc bizID serviceTemplateIDs hostIDs).hostIDs ↔
      ∃ item ∈ relations, item.HostID = x := by
  have hlen : ¬ info.length = 0 := fun h => hinfo (List.length_eq_zero.mp h)
  obtain ⟨h1, h2⟩ := GoMap.keys_buildHostModuleMap relations [] (by simp [GoMap.keys])
  have h3 : ∀ x, x ∈ (buildHostModuleMap relations []).keys ↔
      ∃ item ∈ relations, item.HostID = x := fun x => by
    rw [h2]
    simp [GoMap.keys]
  cases hostIDs with
  | none =>
    simp only [getHostIDByCondition, hmod, hlen, if_false, hrel]
    exact ⟨trivial, h1, h3⟩
  | some ids =>
    simp only [getHostIDByCondition, hmod, hlen, if_false, hrel]
    exact ⟨trivial, h1, h3⟩

/-- C10, at a concrete input: host 4 is related to the modules 9 and 10, host 6 to
module 9; the result holds 4 and 6 once each. -/
theorem getHostIDByCondition_dedup_witness :
    (getHostIDByCondition
      (MembershipService.mk (fun _ _ => Except.ok [ModuleInst.mk 9, ModuleInst.mk 10])
        (fun _ => some [ModuleHost.mk 4 9, ModuleHost.mk 6 9, ModuleHost.mk 4 10]))
      2 [5] none).hostIDs.Nodup ∧
    (getHostIDByCondition
      (MembershipService.mk (fun _ _ => Except.ok [ModuleInst.mk 9, ModuleInst.mk 10])
        (fun _ => some [ModuleHost.mk 4 9, ModuleHost.mk 6 9, ModuleHost.mk 4 10]))
      2 [5] none).hostIDs = [4, 6] :=
  ⟨(getHostIDByCondition_dedup
      (MembershipService.mk (fun _ _ => Except.ok [ModuleInst.mk 9, ModuleInst.mk 10])
        (fun _ => some [ModuleHost.mk 4 9, ModuleHost.mk 6 9, ModuleHost.mk 4 10]))
      2 [5] none [ModuleInst.mk 9, ModuleInst.mk 10]
      [ModuleHost.mk 4 9, ModuleHost.mk 6 9, ModuleHost.mk 4 10] rfl (by decide) rfl).2.1,
    by decide⟩


/-! ## The update data is a map -/

theorem parseMembers_nodup_keys :
    ∀ (fuel : Nat) (cs : List Char) (m m' : GoMap String JValue) (rest : List Char),
      parseMembers fuel cs m = some (m', rest) → m.keys.Nodup → m'.keys.Nodup := by
  intro fuel
  induction fuel with
  | zero => intro cs m m' rest h; simp [parseMembers] at h
  | succ fuel ih =>
    intro cs m m' rest h hm
    cases cs with
    | nil => simp [parseMembers] at h
    | cons q r1 =>
      unfold parseMembers at h
      split at h
      · split at h
        · exact absurd h (by simp)
        · rename_i key r2 _
          split at h
          · exact absurd h (by simp)
          · rename_i colon r3 _
            split at h
            · split at h
              · exact absurd h (by simp)
              · rename_i v r4 _
                split at h
                · exact absurd h (by simp)
                · rename_i sep r5 _
                  split at h
                  · exact ih _ _ _ _ h (GoMap.nodup_keys_set m key v hm)
                  · split at h
                    · injection h with h
                      injection h with h1 h2
                      exact h1 ▸ GoMap.nodup_keys_set m key v hm
                    · exact absurd h (by simp)
            · exact absurd h (by simp)
      · exact absurd h (by simp)

theorem decodeObject_nodup_keys (cs : List Char) (m : GoMap String JValue)
    (h : decodeObject cs = some m) : m.keys.Nodup := by
  unfold decodeObject at h
  split at h
  · exact absurd h (by simp)
  · split at h
    · split at h
      · exact absurd h (by simp)
      · split at h
        · split at h
          · injection h with h
            subst h
            exact List.nodup_nil
          · exact absurd h (by simp)
        · split at h
          · exact absurd h (by simp)
          · rename_i m' rest hp
            split at h
            · injection h with h
              subst h
              exact parseMembers_nodup_keys _ _ _ _ _ hp List.nodup_nil
            · exact absurd h (by simp)
    · exact absurd h (by simp)

theorem jsonUnmarshal_nodup_keys (dataStr : String) : (jsonUnmarshal dataStr).keys.Nodup := by
  unfold jsonUnmarshal
  cases h : decodeObject dataStr.data with
  | none => exact List.nodup_nil
  | some m => exact decodeObject_nodup_keys _ m h

/-! ## The field-level merge update -/

theorem setFields_get?_of_not_mem (data : GoMap String JValue) :
    ∀ (attrs : GoMap String JValue) (k : String), k ∉ data.keys →
      (setFields data attrs).get? k = attrs.get? k := by
  induction data with
  | nil => intro attrs k _; rfl
  | cons p data ih =>
    intro attrs k hk
    obtain ⟨k', v'⟩ := p
    have hk1 : k ≠ k' := fun h => hk (by simp [GoMap.keys, h])
    have hk2 : k ∉ GoMap.keys data := fun h => hk (by
      simp only [GoMap.keys, List.map_cons, List.mem_cons]
      exact Or.inr h)
    simp only [setFields]
    rw [ih _ k hk2, GoMap.get?_set_ne _ _ _ _ hk1]

theorem setFields_get?_of_mem (data : GoMap String JValue) :
    ∀ (attrs : GoMap String JValue), data.keys.Nodup →
      ∀ kv ∈ data, (setFields data attrs).get? kv.1 = some kv.2 := by
  induction data with
  | nil => intro attrs _ kv hkv; simp at hkv
  | cons p data ih =>
    intro attrs hnd kv hkv
    obtain ⟨k', v'⟩ := p
    have hnd' : (k' ∉ GoMap.keys data) ∧ (GoMap.keys data).Nodup := by
      simpa [GoMap.keys] using hnd
    simp only [setFields]
    rcases List.mem_cons.mp hkv with rfl | hmem
    · rw [setFields_get?_of_not_mem data _ _ hnd'.1, GoMap.get?_set_self]
    · exact ih _ hnd'.2 kv hmem

theorem matches_updated (hostIDs : List Int) (data : GoMap String JValue)
    (hnd : data.keys.Nodup) (h : Host) :
    (MergeCond.mk hostIDs (data.map (fun kv => NeCond.mk kv.1 kv.2))).matches
      (Host.mk h.HostID (setFields data h.attrs)) = false := by
  rw [Bool.eq_false_iff]
  intro hm
  obtain ⟨_, kv, hkv, hne⟩ := (matches_iff hostIDs data _).mp hm
  exact hne (by simp [Host.value, setFields_get?_of_mem data h.attrs hnd kv hkv])

theorem countHosts_updateHosts (hosts : List Host) (hostIDs : List Int)
    (data : GoMap String JValue) (hnd : data.keys.Nodup) :
    countHosts
      (updateHosts hosts (MergeCond.mk hostIDs (data.map (fun kv => NeCond.mk kv.1 kv.2))) data)
      (MergeCond.mk hostIDs (data.map (fun kv => NeCond.mk kv.1 kv.2))) = 0 := by
  unfold countHosts updateHosts
  have : List.filter
      (fun h => (MergeCond.mk hostIDs (data.map (fun kv => NeCond.mk kv.1 kv.2))).matches h)
      (hosts.map (fun h =>
        if (MergeCond.mk hostIDs (data.map (fun kv => NeCond.mk kv.1 kv.2))).matches h = true
        then Host.mk h.HostID (setFields data h.attrs) else h)) = [] := by
    rw [List.filter_eq_nil_iff]
    intro h' hh'
    obtain ⟨h, _, rfl⟩ := List.mem_map.mp hh'
    split
    · rw [matches_updated hostIDs data hnd h]
      simp
    · assumption
  rw [this]
  rfl

/-- C1. Idempotence of host apply: over the host store, for every rule list (the empty one
too) and every host id list, a second run of `updateHostAttributes` with the same rules and
host ids finds the count 0, issues the count call alone and no update call, answers
success, and leaves every host as the first run left it. -/
theorem updateHostAttributes_idempotent (schema : List Attribute) (hosts : List Host)
    (planResult : HostApplyServiceTemplateOption) (hostIDs : List Int) :
    ∃ dataStr,
      getUpdateDataStr (schemaReader schema) planResult.AdditionalRules = Except.ok dataStr ∧
      (hostStore schema).GetCountByFilter
          (updateHostAttributes (hostStore schema) hosts planResult hostIDs).state
          [(generateCondition dataStr hostIDs).1] = Except.ok [0] ∧
      (updateHostAttributes (hostStore schema)
          (updateHostAttributes (hostStore schema) hosts planResult hostIDs).state
          planResult hostIDs).calls = [Call.count [(generateCondition dataStr hostIDs).1]] ∧
      (∀ c ∈ (updateHostAttributes (hostStore schema)
          (updateHostAttributes (hostStore schema) hosts planResult hostIDs).state
          planResult hostIDs).calls, c.isUpdate = false) ∧
      (updateHostAttributes (hostStore schema)
          (updateHostAttributes (hostStore schema) hosts planResult hostIDs).state
          planResult hostIDs).answer = Answer.ok ∧
      (updateHostAttributes (hostStore schema)
          (updateHostAttributes (hostStore schema) hosts planResult hostIDs).state
          planResult hostIDs).state =
        (updateHostAttributes (hostStore schema) hosts planResult hostIDs).state := by
  obtain ⟨dataStr, hdoc⟩ : ∃ dataStr,
      getUpdateDataStr (schemaReader schema) planResult.AdditionalRules = Except.ok dataStr :=
    ⟨_, getUpdateDataStr_schemaReader schema planResult.AdditionalRules⟩
  refine ⟨dataStr, hdoc, ?_⟩
  have hzero : countHosts
      (updateHostAttributes (hostStore schema) hosts planResult hostIDs).state
      (generateCondition dataStr hostIDs).1 = 0 := by
    by_cases hc : countHosts hosts (generateCondition dataStr hostIDs).1 = 0
    · simp [updateHostAttributes, hostStore, hdoc, hc]
    · simp only [updateHostAttributes, hostStore, hdoc, List.map, hc, if_false]
      exact countHosts_updateHosts hosts hostIDs (jsonUnmarshal dataStr)
        (jsonUnmarshal_nodup_keys dataStr)
  have hsecond : ∀ st, countHosts st (generateCondition dataStr hostIDs).1 = 0 →
      updateHostAttributes (hostStore schema) st planResult hostIDs =
        Run.mk st [Call.count [(generateCondition dataStr hostIDs).1]] Answer.ok := by
    intro st hst
    simp [updateHostAttributes, hostStore, hdoc, hst]
  rw [hsecond _ hzero]
  refine ⟨?_, rfl, ?_, rfl, rfl⟩
  · simp only [hostStore] at hzero ⊢
    simp [hzero]
  · intro c hc
    rw [List.mem_singleton] at hc
    subst hc
    rfl


/-! ## The frame of the update -/

theorem updateHosts_frame (hosts : List Host) (cond : MergeCond)
    (data : GoMap String JValue) :
    List.Forall₂
      (fun h h' => h'.HostID = h.HostID ∧ (cond.matches h = false → h' = h) ∧
        ∀ key, key ∉ data.keys → h'.attrs.get? key = h.attrs.get? key)
      hosts (updateHosts hosts cond data) := by
  unfold updateHosts
  induction hosts with
  | nil => exact List.Forall₂.nil
  | cons h hosts ih =>
    refine List.Forall₂.cons ?_ ih
    by_cases hm : cond.matches h = true
    · beta_reduce
      rw [if_pos hm]
      exact ⟨rfl, fun hf => by simp [hm] at hf,
        fun key hkey => setFields_get?_of_not_mem data h.attrs key hkey⟩
    · beta_reduce
      rw [if_neg hm]
      exact ⟨rfl, fun _ => rfl, fun _ _ => rfl⟩

theorem forall₂_same (R : Host → Host → Prop) (hR : ∀ h, R h h) (hosts : List Host) :
    List.Forall₂ R hosts hosts := by
  induction hosts with
  | nil => exact List.Forall₂.nil
  | cons h hosts ih => exact List.Forall₂.cons (hR h) ih

theorem forall₂_map_HostID (R : Host → Host → Prop) (l₁ l₂ : List Host)
    (hR : ∀ h h', R h h' → h'.HostID = h.HostID) (h : List.Forall₂ R l₁ l₂) :
    l₂.map Host.HostID = l₁.map Host.HostID := by
  induction h with
  | nil => rfl
  | cons hab _ ih => simp [List.map, hR _ _ hab, ih]

/-! ## Reading back what `json.Marshal` wrote: numbers -/

theorem digitChar_facts : ∀ k, k < 10 →
    isDigit (Char.ofNat (48 + k)) = true ∧ (Char.ofNat (48 + k)).toNat - 48 = k ∧
      (Char.ofNat (48 + k) = '0' → k = 0) ∧ Char.ofNat (48 + k) ≠ '"' ∧
      Char.ofNat (48 + k) ≠ '-' ∧ isSpace (Char.ofNat (48 + k)) = false := by
  decide

theorem digitsValue_append (ds : List Char) (d : Char) :
    ∀ acc, digitsValue (ds ++ [d]) acc = digitsValue ds acc * 10 + (d.toNat - 48) := by
  induction ds with
  | nil => intro acc; rfl
  | cons c ds ih =>
    intro acc
    show digitsValue (ds ++ [d]) (acc * 10 + (c.toNat - 48)) = _
    rw [ih]
    rfl

/-- The digits written for `n`: all of them digits, none in front that is a zero unless the
number is zero, and read back they give `n`. -/
theorem decimalCore_spec : ∀ (fuel n : Nat) (acc : List Char), n < fuel →
    ∃ ds, decimalCore fuel n acc = ds ++ acc ∧ (∀ d ∈ ds, isDigit d = true) ∧
      (∃ d more, ds = d :: more ∧ (d = '0' → n = 0 ∧ more = [])) ∧
      digitsValue ds 0 = n := by
  intro fuel
  induction fuel with
  | zero => intro n acc h; omega
  | succ fuel ih =>
    intro n acc hn
    unfold decimalCore
    by_cases h10 : n < 10
    · obtain ⟨h1, h2, h3, _⟩ := digitChar_facts n h10
      refine ⟨[Char.ofNat (48 + n)], by simp [h10], ?_, ⟨_, [], rfl, fun h => ⟨h3 h, rfl⟩⟩, ?_⟩
      · intro d hd
        rw [List.mem_singleton] at hd
        rw [hd]
        exact h1
      · simp [digitsValue, h2]
    · have hlt : n / 10 < fuel := by omega
      obtain ⟨ds, hds, hdig, ⟨d, more, hhead, hzero⟩, hval⟩ :=
        ih (n / 10) (Char.ofNat (48 + n % 10) :: acc) hlt
      obtain ⟨h1, h2, _⟩ := digitChar_facts (n % 10) (Nat.mod_lt _ (by decide))
      refine ⟨ds ++ [Char.ofNat (48 + n % 10)], by simp [h10, hds], ?_, ?_, ?_⟩
      · intro c hc
        rcases List.mem_append.mp hc with hc | hc
        · exact hdig c hc
        · rw [List.mem_singleton] at hc
          rw [hc]
          exact h1
      · refine ⟨d, more ++ [Char.ofNat (48 + n % 10)], by simp [hhead], fun h => ?_⟩
        have := (hzero h).1
        omega
      · rw [digitsValue_append, hval, h2]
        omega

theorem parseNat_decimal (n : Nat) (c : Char) (X : List Char) (hc : isDigit c = false)
    (hdot : c ≠ '.') (he : c ≠ 'e') (hE : c ≠ 'E') :
    parseNat (decimal n ++ c :: X) = some (n, c :: X) := by
  obtain ⟨ds, hds, hdig, ⟨d, more, hhead, hzero⟩, hval⟩ :=
    decimalCore_spec (n + 1) n [] (Nat.lt_succ_self n)
  have hdec : decimal n = ds := by simpa [decimal] using hds
  have htake : List.takeWhile isDigit (ds ++ c :: X) = ds := by
    rw [List.takeWhile_append_of_pos hdig]
    simp [List.takeWhile, hc]
  have hdrop : List.dropWhile isDigit (ds ++ c :: X) = c :: X := by
    rw [List.dropWhile_append_of_pos hdig]
    simp [List.dropWhile, hc]
  unfold parseNat
  simp only [hdec, htake, hdrop]
  subst hhead
  have hz : ¬ (d = '0' ∧ more ≠ []) := fun h => h.2 (hzero h.1).2
  simp [hz, hdot, he, hE, hval]

theorem decimal_head (n : Nat) :
    ∃ d more, decimal n = d :: more ∧ isDigit d = true := by
  obtain ⟨ds, hds, hdig, ⟨d, more, hhead, _⟩, _⟩ :=
    decimalCore_spec (n + 1) n [] (Nat.lt_succ_self n)
  have hdec : decimal n = ds := by simpa [decimal] using hds
  exact ⟨d, more, hdec.trans hhead, hdig d (hhead ▸ List.mem_cons_self _ _)⟩

theorem isDigit_facts (d : Char) (h : isDigit d = true) :
    d ≠ '"' ∧ d ≠ '-' ∧ isSpace d = false := by
  have h1 : 48 ≤ d.toNat ∧ d.toNat ≤ 57 := by simpa [isDigit] using h
  refine ⟨?_, ?_, ?_⟩
  · rintro rfl
    exact absurd h (by decide)
  · rintro rfl
    exact absurd h (by decide)
  · cases hs : isSpace d with
    | false => rfl
    | true =>
      exfalso
      simp only [isSpace, Bool.or_eq_true, beq_iff_eq] at hs
      rcases hs with ((rfl | rfl) | rfl) | rfl <;> exact absurd h (by decide)


/-! ## Reading back what `json.Marshal` wrote: strings -/

theorem hexDigit_facts : ∀ d, d < 16 →
    hexValue (hexDigit d) = some d ∧ hexDigit d ≠ '"' ∧ hexDigit d ≠ '\\' := by
  decide

/-- The shapes of an escaped character. -/
theorem escapeRune_cases (c : Char) :
    (∃ e, escapeRune c = ['\\', e] ∧ simpleEscape e = some c ∧ e ≠ 'u') ∨
    (escapeRune c = ['\\', 'u', hexDigit (c.toNat / 4096 % 16), hexDigit (c.toNat / 256 % 16),
        hexDigit (c.toNat / 16 % 16), hexDigit (c.toNat % 16)] ∧ c.toNat < 8234) ∨
    (escapeRune c = [c] ∧ c ≠ '"' ∧ c ≠ '\\' ∧ 32 ≤ c.toNat) := by
  unfold escapeRune
  by_cases h1 : c = '"'
  · subst h1; exact Or.inl ⟨'"', by decide⟩
  by_cases h2 : c = '\\'
  · subst h2; exact Or.inl ⟨'\\', by decide⟩
  by_cases h3 : c = '\n'
  · subst h3; exact Or.inl ⟨'n', by decide⟩
  by_cases h4 : c = '\r'
  · subst h4; exact Or.inl ⟨'r', by decide⟩
  by_cases h5 : c = '\t'
  · subst h5; exact Or.inl ⟨'t', by decide⟩
  by_cases h6 : needsUnicodeEscape c = true
  · refine Or.inr (Or.inl ⟨by simp [h1, h2, h3, h4, h5, h6], ?_⟩)
    simp only [needsUnicodeEscape, Bool.or_eq_true, decide_eq_true_eq, beq_iff_eq] at h6
    rcases h6 with ((((h | h) | h) | h) | h) | h
    · omega
    · subst h; decide
    · subst h; decide
    · subst h; decide
    · omega
    · omega
  · refine Or.inr (Or.inr ⟨by simp [h1, h2, h3, h4, h5, h6], h1, h2, ?_⟩)
    simp only [needsUnicodeEscape, Bool.or_eq_true, decide_eq_true_eq, beq_iff_eq,
      not_or] at h6
    omega

theorem scanLiteral_hex (d : Nat) (hd : d < 16) (Y : List Char) :
    scanLiteral false (hexDigit d :: Y) =
      (scanLiteral false Y).map (fun p => (hexDigit d :: p.1, p.2)) := by
  obtain ⟨_, h1, h2⟩ := hexDigit_facts d hd
  simp [scanLiteral, h1, h2]

theorem scanLiteral_escapeRune (c : Char) (Y : List Char) :
    scanLiteral false (escapeRune c ++ Y) =
      (scanLiteral false Y).map (fun p => (escapeRune c ++ p.1, p.2)) := by
  rcases escapeRune_cases c with ⟨e, he, _, _⟩ | ⟨he, _⟩ | ⟨he, h1, h2, _⟩
  · rw [he]
    simp only [List.cons_append, List.nil_append]
    rw [scanLiteral]
    simp only [show ('\\' : Char) ≠ '"' by decide, if_false, if_true]
    rw [scanLiteral]
    cases scanLiteral false Y <;> rfl
  · rw [he]
    have hm : ∀ k, k % 16 < 16 := fun k => Nat.mod_lt _ (by decide)
    simp only [List.cons_append, List.nil_append]
    rw [scanLiteral]
    simp only [show ('\\' : Char) ≠ '"' by decide, if_false, if_true]
    rw [scanLiteral, scanLiteral_hex _ (hm _), scanLiteral_hex _ (hm _), scanLiteral_hex _ (hm _),
      scanLiteral_hex _ (hm _)]
    cases scanLiteral false Y <;> rfl
  · rw [he]
    simp [scanLiteral, h1, h2]

theorem scanLiteral_escapeString (cs rest : List Char) :
    scanLiteral false (escapeString cs ++ '"' :: rest) = some (escapeString cs, rest) := by
  induction cs with
  | nil => simp [escapeString, scanLiteral]
  | cons c cs ih =>
    simp only [escapeString, List.append_assoc]
    rw [scanLiteral_escapeRune, ih]
    rfl

theorem unquote_cons (fuel : Nat) (c : Char) (rest : List Char) :
    unquote (fuel + 1) (c :: rest) =
    if c = '\\' then
      match rest with
      | [] => none
      | e :: r =>
        if e = 'u' then
          match r with
          | a :: b :: c' :: d :: r' =>
            match hex4 a b c' d with
            | none => none
            | some n =>
              if 55296 ≤ n ∧ n < 56320 then
                match lowSurrogate r' with
                | some n' =>
                  (unquote fuel (r'.drop 6)).map
                    (fun t => Char.ofNat (65536 + (n - 55296) * 1024 + (n' - 56320)) :: t)
                | none => (unquote fuel r').map (fun t => Char.ofNat 65533 :: t)
              else if 56320 ≤ n ∧ n < 57344 then
                (unquote fuel r').map (fun t => Char.ofNat 65533 :: t)
              else (unquote fuel r').map (fun t => Char.ofNat n :: t)
          | _ => none
        else
          match simpleEscape e with
          | none => none
          | some ch => (unquote fuel r).map (fun t => ch :: t)
    else if c = '"' ∨ c.toNat < 32 then none
    else (unquote fuel rest).map (fun t => c :: t) := by
  rfl

theorem unquote_escapeRune (c : Char) (fuel : Nat) (Y : List Char) :
    unquote (fuel + 1) (escapeRune c ++ Y) = (unquote fuel Y).map (fun t => c :: t) := by
  rcases escapeRune_cases c with ⟨e, he, hs, hu⟩ | ⟨he, hlt⟩ | ⟨he, h1, h2, h3⟩
  · rw [he]
    simp [unquote, hs, hu]
  · rw [he]
    have hm : ∀ k, k % 16 < 16 := fun k => Nat.mod_lt _ (by decide)
    have hx : hex4 (hexDigit (c.toNat / 4096 % 16)) (hexDigit (c.toNat / 256 % 16))
        (hexDigit (c.toNat / 16 % 16)) (hexDigit (c.toNat % 16)) = some c.toNat := by
      simp only [hex4, (hexDigit_facts _ (hm _)).1]
      congr 1
      omega
    have hs1 : ¬ (55296 ≤ c.toNat ∧ c.toNat < 56320) := by omega
    have hs2 : ¬ (56320 ≤ c.toNat ∧ c.toNat < 57344) := by omega
    simp [unquote, hx, hs1, hs2, Char.ofNat_toNat]
  · rw [he]
    have h4 : ¬ (c = '"' ∨ c.toNat < 32) := by
      rintro (h | h)
      · exact h1 h
      · omega
    simp [unquote, h2, h4]

theorem escapeRune_length (c : Char) : 1 ≤ (escapeRune c).length := by
  rcases escapeRune_cases c with ⟨e, he, _, _⟩ | ⟨he, _⟩ | ⟨he, _⟩ <;> rw [he] <;> simp

theorem escapeString_length (cs : List Char) : cs.length ≤ (escapeString cs).length := by
  induction cs with
  | nil => simp [escapeString]
  | cons c cs ih =>
    have := escapeRune_length c
    simp only [escapeString, List.length_append, List.length_cons]
    omega

theorem unquote_escapeString (cs : List Char) :
    ∀ fuel, cs.length < fuel → unquote fuel (escapeString cs) = some cs := by
  induction cs with
  | nil =>
    intro fuel h
    cases fuel with
    | zero => omega
    | succ fuel => simp [escapeString, unquote]
  | cons c cs ih =>
    intro fuel h
    cases fuel with
    | zero => omega
    | succ fuel =>
      simp only [escapeString]
      rw [unquote_escapeRune, ih fuel (by simpa using h)]
      rfl

theorem parseString_escapeString (s : String) (rest : List Char) :
    parseString (escapeString s.data ++ '"' :: rest) = some (s, rest) := by
  unfold parseString
  rw [scanLiteral_escapeString]
  simp only
  rw [unquote_escapeString s.data _ (by have := escapeString_length s.data; omega)]


/-! ## Reading back what `getUpdateDataStr` wrote -/

theorem scanLiteral_plain (cs rest : List Char) (h : ∀ c ∈ cs, c ≠ '"' ∧ c ≠ '\\') :
    scanLiteral false (cs ++ '"' :: rest) = some (cs, rest) := by
  induction cs with
  | nil => simp [scanLiteral]
  | cons c cs ih =>
    obtain ⟨h1, h2⟩ := h c (List.mem_cons_self _ _)
    simp only [List.cons_append]
    rw [scanLiteral]
    simp only [h1, h2, if_false]
    rw [ih (fun c hc => h c (List.mem_cons_of_mem _ hc))]
    rfl

theorem unquote_plain (cs : List Char) (h : ∀ c ∈ cs, c ≠ '"' ∧ c ≠ '\\' ∧ 32 ≤ c.toNat) :
    ∀ fuel, cs.length < fuel → unquote fuel cs = some cs := by
  induction cs with
  | nil =>
    intro fuel hf
    cases fuel with
    | zero => omega
    | succ fuel => simp [unquote]
  | cons c cs ih =>
    intro fuel hf
    cases fuel with
    | zero => omega
    | succ fuel =>
      obtain ⟨h1, h2, h3⟩ := h c (List.mem_cons_self _ _)
      have h4 : ¬ (c = '"' ∨ c.toNat < 32) := by
        rintro (h | h)
        · exact h1 h
        · omega
      rw [unquote_cons]
      simp only [h2, h4, if_false]
      rw [ih (fun c hc => h c (List.mem_cons_of_mem _ hc)) fuel (by simpa using hf)]
      rfl

theorem parseString_plain (s : String) (hs : plainName s) (rest : List Char) :
    parseString (s.data ++ '"' :: rest) = some (s, rest) := by
  unfold parseString
  rw [scanLiteral_plain _ _ (fun c hc => ⟨(hs c hc).1, (hs c hc).2.1⟩)]
  simp only
  rw [unquote_plain s.data hs _ (Nat.lt_succ_self _)]

/-- A character that may follow a value inside an object: the comma or the closing brace. -/
theorem separator_facts (sep : Char) (h : sep = ',' ∨ sep = '\x7d') :
    isDigit sep = false ∧ sep ≠ '.' ∧ sep ≠ 'e' ∧ sep ≠ 'E' ∧ isSpace sep = false := by
  rcases h with rfl | rfl <;> decide

theorem parseValue_marshalChars (v : JValue) (sep : Char) (X : List Char)
    (h : sep = ',' ∨ sep = '\x7d') :
    parseValue (marshalChars v ++ sep :: X) = some (v, sep :: X) := by
  obtain ⟨h1, h2, h3, h4, _⟩ := separator_facts sep h
  cases v with
  | null => simp [marshalChars, parseValue, isDigit, expectWord]
  | bool b => cases b <;> simp [marshalChars, parseValue, isDigit, expectWord]
  | number n =>
    cases n with
    | ofNat n =>
      obtain ⟨d, more, hd, hdig⟩ := decimal_head n
      obtain ⟨hq, hm, _⟩ := isDigit_facts d hdig
      have hp := parseNat_decimal n sep X h1 h2 h3 h4
      simp only [marshalChars, formatInt]
      rw [hd] at hp ⊢
      simp only [List.cons_append] at hp ⊢
      simp only [parseValue, hq, hm, hdig, if_false, if_true, hp]
      rfl
    | negSucc n =>
      have hp := parseNat_decimal (n + 1) sep X h1 h2 h3 h4
      simp only [marshalChars, formatInt, List.cons_append]
      simp only [parseValue, show ('-' : Char) ≠ '"' by decide, if_false, if_true, hp]
      rfl
  | string s =>
    simp only [marshalChars, List.cons_append, List.append_assoc, List.singleton_append]
    simp only [parseValue, if_true]
    rw [parseString_escapeString]
    rfl

theorem marshalChars_head (v : JValue) :
    ∃ c cs, marshalChars v = c :: cs ∧ isSpace c = false := by
  cases v with
  | null => exact ⟨_, _, rfl, by decide⟩
  | bool b => cases b <;> exact ⟨_, _, rfl, by decide⟩
  | number n =>
    cases n with
    | ofNat n =>
      obtain ⟨d, more, hd, hdig⟩ := decimal_head n
      exact ⟨d, more, by simp [marshalChars, formatInt, hd], (isDigit_facts d hdig).2.2⟩
    | negSucc n => exact ⟨_, _, rfl, by decide⟩
  | string s => exact ⟨_, _, rfl, by decide⟩

theorem skipSpace_cons (c : Char) (cs : List Char) (h : isSpace c = false) :
    skipSpace (c :: cs) = c :: cs := by
  simp [skipSpace, h]

/-- The characters of one entry. -/
theorem fieldOf_chars (attrMap : GoMap Int String) (r : CreateHostApplyRuleOption)
    (X : List Char) :
    (fieldOf attrMap r).data ++ X =
      '"' :: ((attrMapAt attrMap r.AttributeID).data ++
        '"' :: ':' :: (marshalChars r.PropertyValue ++ X)) := by
  rw [fieldOf_data]
  simp

/-- One member is read: the store is made, and reading goes on after a comma or ends after
the closing brace. -/
theorem parseMembers_field (attrMap : GoMap Int String) (r : CreateHostApplyRuleOption)
    (hplain : plainName (attrMapAt attrMap r.AttributeID)) (fuel : Nat) (sep : Char)
    (X : List Char) (m : GoMap String JValue) (h : sep = ',' ∨ sep = '\x7d') :
    parseMembers (fuel + 1) ((fieldOf attrMap r).data ++ sep :: X) m =
      if sep = ',' then
        parseMembers fuel (skipSpace X)
          (m.set (attrMapAt attrMap r.AttributeID) r.PropertyValue)
      else some (m.set (attrMapAt attrMap r.AttributeID) r.PropertyValue, X) := by
  obtain ⟨c, cs, hc, hcs⟩ := marshalChars_head r.PropertyValue
  have hv := parseValue_marshalChars r.PropertyValue sep X h
  have hsep := (separator_facts sep h).2.2.2.2
  rw [fieldOf_chars, parseMembers]
  simp only [if_true]
  rw [parseString_plain _ hplain]
  simp only
  rw [skipSpace_cons _ _ (by decide)]
  simp only [if_true]
  rw [hc] at hv ⊢
  simp only [List.cons_append] at hv ⊢
  rw [skipSpace_cons _ _ hcs, hv]
  simp only
  rw [skipSpace_cons _ _ hsep]
  simp only
  rcases h with rfl | rfl
  · simp
  · simp


theorem stringsJoin_cons_cons (a b : String) (rest : List String) (X : List Char) :
    (stringsJoin (a :: b :: rest) ",").data ++ X =
      a.data ++ ',' :: ((stringsJoin (b :: rest) ",").data ++ X) := by
  simp [stringsJoin, String.data_append]

theorem stringsJoin_fields_head (attrMap : GoMap Int String) (r : CreateHostApplyRuleOption)
    (rs : List CreateHostApplyRuleOption) (X : List Char) :
    ∃ cs, (stringsJoin ((r :: rs).map (fieldOf attrMap)) ",").data ++ X = '"' :: cs := by
  cases rs with
  | nil => exact ⟨_, by simp only [List.map, stringsJoin]; rw [fieldOf_chars]⟩
  | cons r' rs =>
    simp only [List.map]
    rw [stringsJoin_cons_cons, fieldOf_chars]
    exact ⟨_, rfl⟩

theorem stringsJoin_fields_length (attrMap : GoMap Int String)
    (rs : List CreateHostApplyRuleOption) :
    rs.length ≤ (stringsJoin (rs.map (fieldOf attrMap)) ",").data.length := by
  induction rs with
  | nil => simp
  | cons r rs ih =>
    cases rs with
    | nil =>
      show 1 ≤ (fieldOf attrMap r).data.length
      rw [fieldOf_data]
      simp
    | cons r' rs =>
      have h := stringsJoin_cons_cons (fieldOf attrMap r) (fieldOf attrMap r')
        (rs.map (fieldOf attrMap)) []
      simp only [List.append_nil] at h
      simp only [List.map] at ih ⊢
      rw [h, fieldOf_data]
      simp only [List.length_cons, List.length_append] at ih ⊢
      omega

/-- The members of the document are read back one by one, each stored in its turn. -/
theorem parseMembers_document (attrMap : GoMap Int String) :
    ∀ (rs : List CreateHostApplyRuleOption), rs ≠ [] →
      (∀ r ∈ rs, plainName (attrMapAt attrMap r.AttributeID)) →
      ∀ (fuel : Nat), rs.length ≤ fuel → ∀ (m : GoMap String JValue) (tail : List Char),
        parseMembers fuel
          ((stringsJoin (rs.map (fieldOf attrMap)) ",").data ++ '\x7d' :: tail) m =
        some (storeRules attrMap rs m, tail) := by
  intro rs
  induction rs with
  | nil => intro h; exact absurd rfl h
  | cons r rs ih =>
    intro _ hplain fuel hfuel m tail
    cases fuel with
    | zero => simp at hfuel
    | succ fuel =>
      cases rs with
      | nil =>
        simp only [List.map, stringsJoin]
        rw [parseMembers_field attrMap r (hplain r (List.mem_cons_self _ _)) fuel _ _ _
          (Or.inr rfl)]
        simp [storeRules]
      | cons r' rs =>
        simp only [List.map]
        rw [stringsJoin_cons_cons,
          parseMembers_field attrMap r (hplain r (List.mem_cons_self _ _)) fuel _ _ _
            (Or.inl rfl)]
        simp only [if_true]
        obtain ⟨cs, hcs⟩ := stringsJoin_fields_head attrMap r' rs ('\x7d' :: tail)
        have hskip : skipSpace
            ((stringsJoin (fieldOf attrMap r' :: rs.map (fieldOf attrMap)) ",").data ++
              '\x7d' :: tail) =
            (stringsJoin (fieldOf attrMap r' :: rs.map (fieldOf attrMap)) ",").data ++
              '\x7d' :: tail := by
          simp only [List.map] at hcs
          rw [hcs]
          exact skipSpace_cons _ _ (by decide)
        rw [hskip]
        have := ih (by simp) (fun x hx => hplain x (List.mem_cons_of_mem _ hx)) fuel
          (by simpa using hfuel) (m.set (attrMapAt attrMap r.AttributeID) r.PropertyValue) tail
        simp only [List.map] at this
        rw [this]
        rfl

/-- The document is decoded into the stores of its entries, left to right. -/
theorem decodeObject_document (attrMap : GoMap Int String)
    (rs : List CreateHostApplyRuleOption)
    (hplain : ∀ r ∈ rs, plainName (attrMapAt attrMap r.AttributeID)) :
    decodeObject ("\x7b" ++ stringsJoin (rs.map (fieldOf attrMap)) "," ++ "\x7d").data =
      some (storeRules attrMap rs []) := by
  have hdata : ("\x7b" ++ stringsJoin (rs.map (fieldOf attrMap)) "," ++ "\x7d").data =
      '\x7b' :: ((stringsJoin (rs.map (fieldOf attrMap)) ",").data ++ ['\x7d']) := by
    simp [String.data_append]
  rw [hdata]
  unfold decodeObject
  rw [skipSpace_cons _ _ (by decide)]
  simp only [if_true]
  cases rs with
  | nil => simp [stringsJoin, skipSpace, isSpace, storeRules]
  | cons r rs =>
    obtain ⟨cs, hcs⟩ := stringsJoin_fields_head attrMap r rs ['\x7d']
    have hlen := stringsJoin_fields_length attrMap (r :: rs)
    have hp := parseMembers_document attrMap (r :: rs) (by simp) hplain
      ((stringsJoin ((r :: rs).map (fieldOf attrMap)) ",").data ++ ['\x7d']).length
      (by simp only [List.length_append]; omega) [] []
    rw [hcs] at hp ⊢
    rw [skipSpace_cons _ _ (by decide)]
    simp only [show ('"' : Char) ≠ '\x7d' by decide, if_false, hp]
    simp [skipSpace]

theorem jsonUnmarshal_document (attrMap : GoMap Int String)
    (rs : List CreateHostApplyRuleOption)
    (hplain : ∀ r ∈ rs, plainName (attrMapAt attrMap r.AttributeID)) :
    jsonUnmarshal ("\x7b" ++ stringsJoin (rs.map (fieldOf attrMap)) "," ++ "\x7d") =
      storeRules attrMap rs [] := by
  unfold jsonUnmarshal
  rw [decodeObject_document attrMap rs hplain]
  rfl


/-! ## Rules that carry the same attribute -/

theorem storeRules_get?_of_not_mem (attrMap : GoMap Int String) (k : String) :
    ∀ (rs : List CreateHostApplyRuleOption) (m : GoMap String JValue),
      (∀ r ∈ rs, attrMapAt attrMap r.AttributeID ≠ k) →
      (storeRules attrMap rs m).get? k = m.get? k := by
  intro rs
  induction rs with
  | nil => intro m _; rfl
  | cons r rs ih =>
    intro m h
    simp only [storeRules]
    rw [ih _ (fun x hx => h x (List.mem_cons_of_mem _ hx)),
      GoMap.get?_set_ne _ _ _ _ (Ne.symm (h r (List.mem_cons_self _ _)))]

theorem storeRules_nodup_keys (attrMap : GoMap Int String) :
    ∀ (rs : List CreateHostApplyRuleOption) (m : GoMap String JValue),
      m.keys.Nodup → (storeRules attrMap rs m).keys.Nodup := by
  intro rs
  induction rs with
  | nil => intro m h; exact h
  | cons r rs ih => intro m h; exact ih _ (GoMap.nodup_keys_set m _ _ h)

/-- Among entries in ascending order, the value left in the map for a property is the value
of the greatest entry of that property. -/
theorem storeRules_greatest (attrMap : GoMap Int String) (k : String) :
    ∀ (rs : List CreateHostApplyRuleOption) (m : GoMap String JValue),
      rs.Pairwise (fun r₁ r₂ => stringLE (fieldOf attrMap r₁) (fieldOf attrMap r₂)) →
      (∃ r ∈ rs, attrMapAt attrMap r.AttributeID = k) →
      ∃ r' ∈ rs, attrMapAt attrMap r'.AttributeID = k ∧
        (storeRules attrMap rs m).get? k = some r'.PropertyValue ∧
        ∀ r'' ∈ rs, attrMapAt attrMap r''.AttributeID = k →
          stringLE (fieldOf attrMap r'') (fieldOf attrMap r') := by
  intro rs
  induction rs with
  | nil => intro m _ h; obtain ⟨r, hr, _⟩ := h; simp at hr
  | cons r rs ih =>
    intro m hsorted _
    have hs := List.pairwise_cons.mp hsorted
    by_cases hlater : ∃ x ∈ rs, attrMapAt attrMap x.AttributeID = k
    · obtain ⟨r', hr', hname, hget, hmax⟩ :=
        ih (m.set (attrMapAt attrMap r.AttributeID) r.PropertyValue) hs.2 hlater
      refine ⟨r', List.mem_cons_of_mem _ hr', hname, hget, fun r'' hr'' hk => ?_⟩
      rcases List.mem_cons.mp hr'' with rfl | hr''
      · exact hs.1 r' hr'
      · exact hmax r'' hr'' hk
    · have hnone : ∀ x ∈ rs, attrMapAt attrMap x.AttributeID ≠ k :=
        fun x hx hk => hlater ⟨x, hx, hk⟩
      have hk : attrMapAt attrMap r.AttributeID = k := by
        rename_i hex
        obtain ⟨x, hx, hxk⟩ := hex
        rcases List.mem_cons.mp hx with rfl | hx
        · exact hxk
        · exact absurd hxk (hnone x hx)
      refine ⟨r, List.mem_cons_self _ _, hk, ?_, fun r'' hr'' hk'' => ?_⟩
      · simp only [storeRules]
        rw [storeRules_get?_of_not_mem attrMap k rs _ hnone, hk, GoMap.get?_set_self]
      · rcases List.mem_cons.mp hr'' with rfl | hr''
        · exact le_refl (fieldOf attrMap r'').data
        · exact absurd hk'' (hnone r'' hr'')

/-- C6, as stated, fails: for two rules on attribute 1 (property cpu_module) with the
values "A" and "B", in this order, the document of `getUpdateDataStr` holds the property
twice, and the update data of `generateCondition` holds it with "B", the value of the
second rule. -/
theorem generateCondition_not_first_wins :
    getUpdateDataStr (schemaReader [Attribute.mk 1 "cpu_module"])
        [CreateHostApplyRuleOption.mk 1 7 (JValue.string "A"),
          CreateHostApplyRuleOption.mk 1 8 (JValue.string "B")] =
      Except.ok "\x7b\"cpu_module\":\"A\",\"cpu_module\":\"B\"\x7d" ∧
    (generateCondition "\x7b\"cpu_module\":\"A\",\"cpu_module\":\"B\"\x7d" [1, 2]).2 =
      [("cpu_module", JValue.string "B")] ∧
    (generateCondition "\x7b\"cpu_module\":\"A\",\"cpu_module\":\"B\"\x7d" [1, 2]).2.get?
      "cpu_module" ≠ some (JValue.string "A") := by
  refine ⟨by rfl, by decide, by decide⟩

/-- C6, amended: over a schema of plain property names, for every list of rules with values
in `exactValue`, the document of `getUpdateDataStr` is the join of one entry per rule (a
property carried by several rules is written as many times), and the update data of
`generateCondition` holds each property once; the value it holds for the property of a
rule is the value of the rule whose entry is the greatest among the entries of that
property, the last one in the document, whatever the input order.  The bound on the values
is the range in which the text of a value, and so the order of the entries, is the one of
the code. -/
theorem generateCondition_data_greatest_entry (schema : List Attribute)
    (rules : List CreateHostApplyRuleOption) (hostIDs : List Int)
    (hplain : ∀ a ∈ schema, plainName a.PropertyID)
    (_hexact : ∀ r ∈ rules, exactValue r.PropertyValue = true) :
    getUpdateDataStr (schemaReader schema) rules =
      Except.ok ("\x7b" ++
        stringsJoin (sortedFields (schemaAttrMap schema rules) rules) "," ++ "\x7d") ∧
    (sortedFields (schemaAttrMap schema rules) rules).length = rules.length ∧
    (generateCondition ("\x7b" ++
        stringsJoin (sortedFields (schemaAttrMap schema rules) rules) "," ++ "\x7d")
      hostIDs).2.keys.Nodup ∧
    ∀ r ∈ rules, ∃ r' ∈ rules,
      attrMapAt (schemaAttrMap schema rules) r'.AttributeID =
        attrMapAt (schemaAttrMap schema rules) r.AttributeID ∧
      (generateCondition ("\x7b" ++
          stringsJoin (sortedFields (schemaAttrMap schema rules) rules) "," ++ "\x7d")
        hostIDs).2.get? (attrMapAt (schemaAttrMap schema rules) r.AttributeID) =
          some r'.PropertyValue ∧
      ∀ r'' ∈ rules,
        attrMapAt (schemaAttrMap schema rules) r''.AttributeID =
          attrMapAt (schemaAttrMap schema rules) r.AttributeID →
        stringLE (fieldOf (schemaAttrMap schema rules) r'')
          (fieldOf (schemaAttrMap schema rules) r') := by
  have hperm := sortedRules_perm (schemaAttrMap schema rules) rules
  have hnames : ∀ r ∈ sortedRules (schemaAttrMap schema rules) rules,
      plainName (attrMapAt (schemaAttrMap schema rules) r.AttributeID) :=
    fun r _ => schemaAttrMap_name plainName (fun c hc => by simp at hc) schema hplain rules _
  have hdata : (generateCondition ("\x7b" ++
        stringsJoin (sortedFields (schemaAttrMap schema rules) rules) "," ++ "\x7d")
      hostIDs).2 =
      storeRules (schemaAttrMap schema rules)
        (sortedRules (schemaAttrMap schema rules) rules) [] := by
    rw [sortedFields_eq_map]
    exact jsonUnmarshal_document _ _ hnames
  refine ⟨by rw [sortedFields_eq_map]; exact getUpdateDataStr_schemaReader schema rules,
    ?_, ?_, ?_⟩
  · rw [sortedFields_eq_map, List.length_map]
    exact hperm.length_eq
  · rw [hdata]
    exact storeRules_nodup_keys _ _ [] List.nodup_nil
  · intro r hr
    obtain ⟨r', hr', hname, hget, hmax⟩ :=
      storeRules_greatest (schemaAttrMap schema rules)
        (attrMapAt (schemaAttrMap schema rules) r.AttributeID)
        (sortedRules (schemaAttrMap schema rules) rules) []
        (sortedRules_sorted _ rules) ⟨r, hperm.mem_iff.mpr hr, rfl⟩
    refine ⟨r', hperm.mem_iff.mp hr', hname, ?_, fun r'' hr'' hk => ?_⟩
    · rw [hdata]
      exact hget
    · exact hmax r'' (hperm.mem_iff.mpr hr'') hk

/-- C6, amended, at a concrete input: two rules on attribute 1 and one on attribute 2. -/
theorem generateCondition_data_greatest_entry_witness :
    (∀ a ∈ [Attribute.mk 1 "cpu_module", Attribute.mk 2 "bk_sla"], plainName a.PropertyID) ∧
    (∀ r ∈ [CreateHostApplyRuleOption.mk 1 7 (JValue.string "B"),
        CreateHostApplyRuleOption.mk 2 7 (JValue.number 3),
        CreateHostApplyRuleOption.mk 1 8 (JValue.string "A")],
      exactValue r.PropertyValue = true) ∧
    (generateCondition ("\x7b" ++
        stringsJoin (sortedFields
          (schemaAttrMap [Attribute.mk 1 "cpu_module", Attribute.mk 2 "bk_sla"]
            [CreateHostApplyRuleOption.mk 1 7 (JValue.string "B"),
              CreateHostApplyRuleOption.mk 2 7 (JValue.number 3),
              CreateHostApplyRuleOption.mk 1 8 (JValue.string "A")])
          [CreateHostApplyRuleOption.mk 1 7 (JValue.string "B"),
            CreateHostApplyRuleOption.mk 2 7 (JValue.number 3),
            CreateHostApplyRuleOption.mk 1 8 (JValue.string "A")]) "," ++ "\x7d")
      [4, 6]).2.keys.Nodup ∧
    (generateCondition "\x7b\"bk_sla\":3,\"cpu_module\":\"A\",\"cpu_module\":\"B\"\x7d"
      [4, 6]).2 = [("bk_sla", JValue.number 3), ("cpu_module", JValue.string "B")] :=
  ⟨by decide, by decide,
    (generateCondition_data_greatest_entry
      [Attribute.mk 1 "cpu_module", Attribute.mk 2 "bk_sla"]
      [CreateHostApplyRuleOption.mk 1 7 (JValue.string "B"),
        CreateHostApplyRuleOption.mk 2 7 (JValue.number 3),
        CreateHostApplyRuleOption.mk 1 8 (JValue.string "A")] [4, 6]
      (by decide) (by decide)).2.2.1,
    by decide⟩


/-! ## The update data and the rules -/

theorem GoMap.mem_set {κ ν : Type} [DecidableEq κ] (m : GoMap κ ν) (k : κ) (v : ν)
    (p : κ × ν) (hp : p ∈ m.set k v) : p ∈ m ∨ p = (k, v) := by
  induction m with
  | nil =>
    simp only [GoMap.set, List.mem_singleton] at hp
    exact Or.inr hp
  | cons q m ih =>
    obtain ⟨k', v'⟩ := q
    by_cases h : k' = k
    · simp only [GoMap.set, h, if_true, List.mem_cons] at hp
      rcases hp with hp | hp
      · exact Or.inr hp
      · exact Or.inl (List.mem_cons_of_mem _ hp)
    · simp only [GoMap.set, h, if_false, List.mem_cons] at hp
      rcases hp with hp | hp
      · exact Or.inl (hp ▸ List.mem_cons_self _ _)
      · rcases ih hp with h' | h'
        · exact Or.inl (List.mem_cons_of_mem _ h')
        · exact Or.inr h'

theorem GoMap.mem_of_get? {κ ν : Type} [DecidableEq κ] (m : GoMap κ ν) (k : κ) (v : ν)
    (h : m.get? k = some v) : (k, v) ∈ m := by
  induction m with
  | nil => simp [GoMap.get?] at h
  | cons q m ih =>
    obtain ⟨k', v'⟩ := q
    by_cases hk : k' = k
    · simp only [GoMap.get?, hk, if_true, Option.some.injEq] at h
      rw [hk, h]
      exact List.mem_cons_self _ _
    · simp only [GoMap.get?, hk, if_false] at h
      exact List.mem_cons_of_mem _ (ih h)

theorem GoMap.get?_of_mem {κ ν : Type} [DecidableEq κ] (m : GoMap κ ν) (hnd : m.keys.Nodup)
    (p : κ × ν) (hp : p ∈ m) : m.get? p.1 = some p.2 := by
  induction m with
  | nil => simp at hp
  | cons q m ih =>
    obtain ⟨k', v'⟩ := q
    have hnd' : k' ∉ GoMap.keys m ∧ (GoMap.keys m).Nodup := by
      simpa [GoMap.keys] using hnd
    rcases List.mem_cons.mp hp with rfl | hp
    · simp [GoMap.get?]
    · have hne : k' ≠ p.1 := by
        intro hk
        exact hnd'.1 (hk ▸ List.mem_map_of_mem Prod.fst hp)
      simp only [GoMap.get?, hne, if_false]
      exact ih hnd'.2 hp

theorem storeRules_mem (attrMap : GoMap Int String) :
    ∀ (rs : List CreateHostApplyRuleOption) (m : GoMap String JValue) (p : String × JValue),
      p ∈ storeRules attrMap rs m →
      p ∈ m ∨ ∃ r ∈ rs, p = (attrMapAt attrMap r.AttributeID, r.PropertyValue) := by
  intro rs
  induction rs with
  | nil => intro m p hp; exact Or.inl hp
  | cons r rs ih =>
    intro m p hp
    simp only [storeRules] at hp
    rcases ih _ p hp with h | ⟨r', hr', h⟩
    · rcases GoMap.mem_set m _ _ p h with h | h
      · exact Or.inl h
      · exact Or.inr ⟨r, List.mem_cons_self _ _, h⟩
    · exact Or.inr ⟨r', List.mem_cons_of_mem _ hr', h⟩

/-- Two values with the same text are the same value. -/
theorem marshalChars_injective (v v' : JValue) (h : marshalChars v = marshalChars v') :
    v = v' := by
  have h1 := parseValue_marshalChars v ',' [] (Or.inl rfl)
  have h2 := parseValue_marshalChars v' ',' [] (Or.inl rfl)
  rw [h, h2] at h1
  injection h1 with h1
  injection h1 with h1 _
  exact h1.symm

/-- Two entries of one property with the same text carry the same value. -/
theorem fieldOf_value (attrMap : GoMap Int String) (r r' : CreateHostApplyRuleOption)
    (hname : attrMapAt attrMap r.AttributeID = attrMapAt attrMap r'.AttributeID)
    (h : fieldOf attrMap r = fieldOf attrMap r') : r.PropertyValue = r'.PropertyValue := by
  have hd : (fieldOf attrMap r).data = (fieldOf attrMap r').data := by rw [h]
  rw [fieldOf_data, fieldOf_data, hname] at hd
  injection hd with _ hd
  have hd' := List.append_cancel_left hd
  injection hd' with _ hd'
  injection hd' with _ hd'
  exact marshalChars_injective _ _ hd'

/-- The document of `getUpdateDataStr` over a schema of plain names, decoded: its
properties are the property names of the rules, each with the value of the rule that is
the last of its property. -/
theorem jsonUnmarshal_getUpdateDataStr (schema : List Attribute)
    (rules : List CreateHostApplyRuleOption)
    (hplain : ∀ a ∈ schema, plainName a.PropertyID) :
    ∃ dataStr,
      getUpdateDataStr (schemaReader schema) rules = Except.ok dataStr ∧
      (jsonUnmarshal dataStr).keys.Nodup ∧
      ∀ p : String × JValue, p ∈ jsonUnmarshal dataStr ↔
        ∃ r ∈ rules, lastOfProperty (schemaAttrMap schema rules) rules r ∧
          p = (attrMapAt (schemaAttrMap schema rules) r.AttributeID, r.PropertyValue) := by
  have hperm := sortedRules_perm (schemaAttrMap schema rules) rules
  have hnames : ∀ r ∈ sortedRules (schemaAttrMap schema rules) rules,
      plainName (attrMapAt (schemaAttrMap schema rules) r.AttributeID) :=
    fun r _ => schemaAttrMap_name plainName (fun c hc => by simp at hc) schema hplain rules _
  refine ⟨_, getUpdateDataStr_schemaReader schema rules, jsonUnmarshal_nodup_keys _, ?_⟩
  rw [jsonUnmarshal_document _ _ hnames]
  have hnd : (storeRules (schemaAttrMap schema rules)
      (sortedRules (schemaAttrMap schema rules) rules) []).keys.Nodup :=
    storeRules_nodup_keys _ _ [] List.nodup_nil
  intro p
  constructor
  · intro hp
    rcases storeRules_mem _ _ _ p hp with h | ⟨r, hr, hpr⟩
    · simp at h
    · obtain ⟨r', hr', hname, hget, hmax⟩ :=
        storeRules_greatest (schemaAttrMap schema rules)
          (attrMapAt (schemaAttrMap schema rules) r.AttributeID)
          (sortedRules (schemaAttrMap schema rules) rules) []
          (sortedRules_sorted _ rules) ⟨r, hr, rfl⟩
      have hget' := GoMap.get?_of_mem _ hnd p hp
      rw [hpr] at hget'
      simp only at hget'
      rw [hget] at hget'
      injection hget' with hv
      refine ⟨r', hperm.mem_iff.mp hr', ?_, ?_⟩
      · intro r'' hr'' hk
        exact hmax r'' (hperm.mem_iff.mpr hr'') (hk.trans hname)
      · rw [hpr, hname, hv]
  · rintro ⟨r, hr, hlast, rfl⟩
    obtain ⟨r', hr', hname, hget, hmax⟩ :=
      storeRules_greatest (schemaAttrMap schema rules)
        (attrMapAt (schemaAttrMap schema rules) r.AttributeID)
        (sortedRules (schemaAttrMap schema rules) rules) []
        (sortedRules_sorted _ rules) ⟨r, hperm.mem_iff.mpr hr, rfl⟩
    have h1 : stringLE (fieldOf (schemaAttrMap schema rules) r')
        (fieldOf (schemaAttrMap schema rules) r) :=
      hlast r' (hperm.mem_iff.mp hr') hname
    have h2 : stringLE (fieldOf (schemaAttrMap schema rules) r)
        (fieldOf (schemaAttrMap schema rules) r') :=
      hmax r (hperm.mem_iff.mpr hr) rfl
    have heq : fieldOf (schemaAttrMap schema rules) r =
        fieldOf (schemaAttrMap schema rules) r' := stringLE_antisymm.antisymm _ _ h2 h1
    have hv := fieldOf_value _ r r' hname.symm heq
    rw [← hv] at hget
    exact GoMap.mem_of_get? _ _ _ hget

/-- When no two rules carry the same property, every rule is the last of its property. -/
theorem lastOfProperty_of_nodup (attrMap : GoMap Int String)
    (rules : List CreateHostApplyRuleOption)
    (hnd : (rules.map (fun r => attrMapAt attrMap r.AttributeID)).Nodup)
    (r : CreateHostApplyRuleOption) (hr : r ∈ rules) : lastOfProperty attrMap rules r := by
  intro r' hr' hk
  have : r' = r := List.inj_on_of_nodup_map hnd hr' hr hk
  rw [this]
  exact le_refl (fieldOf attrMap r).data

/-! ## The mismatch filter and the rules -/

/-- C2. Mismatch selection: over a schema of plain property names, for every list of rules
with values in `exactValue`, every host id list and every host, the document of
`getUpdateDataStr` is built, and the host satisfies the filter that `generateCondition`
returns for it exactly when its id is in the host id list and one property of the document
differs on the host from the value the document gives it.  In terms of the rules: exactly
when its id is in the list and the host differs from the value of a rule that is the last
of its property, which is any rule when no two rules carry the same property.  And for the
rule cpu_module = "A" on the hosts 1, 2, 3 of which only host 2 has cpu_module = "A", the
hosts selected are 1 and 3.  The bound on the values is the range in which the text of a
value and the value read back are those of the code. -/
theorem generateCondition_selects_mismatch (schema : List Attribute)
    (rules : List CreateHostApplyRuleOption) (hostIDs : List Int) (h : Host)
    (hplain : ∀ a ∈ schema, plainName a.PropertyID)
    (_hexact : ∀ r ∈ rules, exactValue r.PropertyValue = true) :
    (∃ dataStr,
      getUpdateDataStr (schemaReader schema) rules = Except.ok dataStr ∧
      ((generateCondition dataStr hostIDs).1.matches h = true ↔
        h.HostID ∈ hostIDs ∧ ∃ kv ∈ jsonUnmarshal dataStr, h.value kv.1 ≠ kv.2) ∧
      ((generateCondition dataStr hostIDs).1.matches h = true ↔
        h.HostID ∈ hostIDs ∧
          ∃ r ∈ rules, lastOfProperty (schemaAttrMap schema rules) rules r ∧
            h.value (attrMapAt (schemaAttrMap schema rules) r.AttributeID) ≠
              r.PropertyValue) ∧
      ((rules.map (fun r => attrMapAt (schemaAttrMap schema rules) r.AttributeID)).Nodup →
        ((generateCondition dataStr hostIDs).1.matches h = true ↔
          h.HostID ∈ hostIDs ∧
            ∃ r ∈ rules,
              h.value (attrMapAt (schemaAttrMap schema rules) r.AttributeID) ≠
                r.PropertyValue))) ∧
    getUpdateDataStr (schemaReader [Attribute.mk 1 "cpu_module"])
        [CreateHostApplyRuleOption.mk 1 7 (JValue.string "A")] =
      Except.ok "\x7b\"cpu_module\":\"A\"\x7d" ∧
    ([Host.mk 1 [("cpu_module", JValue.string "B")],
        Host.mk 2 [("cpu_module", JValue.string "A")],
        Host.mk 3 [("bk_sla", JValue.number 1)]].filter
      (fun h => (generateCondition "\x7b\"cpu_module\":\"A\"\x7d" [1, 2, 3]).1.matches h)).map
        Host.HostID = [1, 3] := by
  refine ⟨?_, by rfl, by decide⟩
  obtain ⟨dataStr, hdoc, _, hmem⟩ := jsonUnmarshal_getUpdateDataStr schema rules hplain
  have hm : (generateCondition dataStr hostIDs).1.matches h = true ↔
      h.HostID ∈ hostIDs ∧ ∃ kv ∈ jsonUnmarshal dataStr, h.value kv.1 ≠ kv.2 :=
    matches_iff hostIDs (jsonUnmarshal dataStr) h
  have hr : (generateCondition dataStr hostIDs).1.matches h = true ↔
      h.HostID ∈ hostIDs ∧
        ∃ r ∈ rules, lastOfProperty (schemaAttrMap schema rules) rules r ∧
          h.value (attrMapAt (schemaAttrMap schema rules) r.AttributeID) ≠
            r.PropertyValue := by
    rw [hm]
    constructor
    · rintro ⟨hid, kv, hkv, hne⟩
      obtain ⟨r, hr, hlast, rfl⟩ := (hmem kv).mp hkv
      exact ⟨hid, r, hr, hlast, hne⟩
    · rintro ⟨hid, r, hr, hlast, hne⟩
      exact ⟨hid, _, (hmem _).mpr ⟨r, hr, hlast, rfl⟩, hne⟩
  refine ⟨dataStr, hdoc, hm, hr, fun hnd => ?_⟩
  rw [hr]
  constructor
  · rintro ⟨hid, r, hr, _, hne⟩
    exact ⟨hid, r, hr, hne⟩
  · rintro ⟨hid, r, hr, hne⟩
    exact ⟨hid, r, hr, lastOfProperty_of_nodup _ rules hnd r hr, hne⟩

/-- C2, at a concrete input: the rule cpu_module = "A", the host ids 1, 2, 3 and host 1
with cpu_module = "B". -/
theorem generateCondition_selects_mismatch_witness :
    (∀ a ∈ [Attribute.mk 1 "cpu_module"], plainName a.PropertyID) ∧
    (∀ r ∈ [CreateHostApplyRuleOption.mk 1 7 (JValue.string "A")],
      exactValue r.PropertyValue = true) ∧
    (∃ dataStr,
      getUpdateDataStr (schemaReader [Attribute.mk 1 "cpu_module"])
        [CreateHostApplyRuleOption.mk 1 7 (JValue.string "A")] = Except.ok dataStr ∧
      ((generateCondition dataStr [1, 2, 3]).1.matches
          (Host.mk 1 [("cpu_module", JValue.string "B")]) = true ↔
        (1 : Int) ∈ [1, 2, 3] ∧
          ∃ r ∈ [CreateHostApplyRuleOption.mk 1 7 (JValue.string "A")],
            lastOfProperty (schemaAttrMap [Attribute.mk 1 "cpu_module"]
                [CreateHostApplyRuleOption.mk 1 7 (JValue.string "A")])
              [CreateHostApplyRuleOption.mk 1 7 (JValue.string "A")] r ∧
            (Host.mk 1 [("cpu_module", JValue.string "B")]).value
                (attrMapAt (schemaAttrMap [Attribute.mk 1 "cpu_module"]
                  [CreateHostApplyRuleOption.mk 1 7 (JValue.string "A")]) r.AttributeID) ≠
              r.PropertyValue)) ∧
    (generateCondition "\x7b\"cpu_module\":\"A\"\x7d" [1, 2, 3]).1.matches
      (Host.mk 1 [("cpu_module", JValue.string "B")]) = true :=
  ⟨by decide, by decide,
    (generateCondition_selects_mismatch [Attribute.mk 1 "cpu_module"]
      [CreateHostApplyRuleOption.mk 1 7 (JValue.string "A")] [1, 2, 3]
      (Host.mk 1 [("cpu_module", JValue.string "B")]) (by decide) (by decide)).1.imp
      (fun _ hx => ⟨hx.1, hx.2.2.1⟩),
    by decide⟩

/-! ## The frame of the update, in terms of the rules -/

/-- C3. Partial update frame: over the host store and a schema of plain property names,
for every list of rules with values in `exactValue`, after `updateHostAttributes` the host
table holds the same hosts in the same places (none created, none deleted).  A host is as
it was when its id is outside the target host ids, when it has the value of every rule on
the property of that rule, when it has the value of every property of the merged document,
or when it does not satisfy the mismatch filter.  On every host, a property that no rule
names, and a property that is not a property of the merged document, has its previous
value or absence.  The bound on the values is the range in which the text of a value and
the value read back are those of the code. -/
theorem updateHostAttributes_frame (schema : List Attribute) (hosts : List Host)
    (planResult : HostApplyServiceTemplateOption) (hostIDs : List Int)
    (hplain : ∀ a ∈ schema, plainName a.PropertyID)
    (_hexact : ∀ r ∈ planResult.AdditionalRules, exactValue r.PropertyValue = true) :
    ∃ dataStr,
      getUpdateDataStr (schemaReader schema) planResult.AdditionalRules = Except.ok dataStr ∧
      (updateHostAttributes (hostStore schema) hosts planResult hostIDs).state.map Host.HostID =
        hosts.map Host.HostID ∧
      List.Forall₂
        (fun h h' => h'.HostID = h.HostID ∧
          (h.HostID ∉ hostIDs → h' = h) ∧
          ((∀ r ∈ planResult.AdditionalRules,
              h.value (attrMapAt (schemaAttrMap schema planResult.AdditionalRules)
                r.AttributeID) = r.PropertyValue) → h' = h) ∧
          ((∀ kv ∈ jsonUnmarshal dataStr, h.value kv.1 = kv.2) → h' = h) ∧
          ((generateCondition dataStr hostIDs).1.matches h = false → h' = h) ∧
          (∀ key, (∀ r ∈ planResult.AdditionalRules,
              attrMapAt (schemaAttrMap schema planResult.AdditionalRules) r.AttributeID ≠ key) →
            h'.attrs.get? key = h.attrs.get? key) ∧
          (∀ key, key ∉ (jsonUnmarshal dataStr).keys →
            h'.attrs.get? key = h.attrs.get? key))
        hosts (updateHostAttributes (hostStore schema) hosts planResult hostIDs).state := by
  obtain ⟨dataStr, hdoc, _, hmem⟩ :=
    jsonUnmarshal_getUpdateDataStr schema planResult.AdditionalRules hplain
  refine ⟨dataStr, hdoc, ?_⟩
  have hstate : (updateHostAttributes (hostStore schema) hosts planResult hostIDs).state = hosts ∨
      (updateHostAttributes (hostStore schema) hosts planResult hostIDs).state =
        updateHosts hosts (generateCondition dataStr hostIDs).1
          (generateCondition dataStr hostIDs).2 := by
    by_cases hc : countHosts hosts (generateCondition dataStr hostIDs).1 = 0
    · left
      simp [updateHostAttributes, hostStore, hdoc, hc]
    · right
      simp only [updateHostAttributes, hostStore, hdoc, List.map, hc, if_false]
  have hbase : List.Forall₂
      (fun h h' => h'.HostID = h.HostID ∧
        ((generateCondition dataStr hostIDs).1.matches h = false → h' = h) ∧
        ∀ key, key ∉ (generateCondition dataStr hostIDs).2.keys →
          h'.attrs.get? key = h.attrs.get? key)
      hosts (updateHostAttributes (hostStore schema) hosts planResult hostIDs).state := by
    rcases hstate with h | h
    · rw [h]
      exact forall₂_same _ (fun h => ⟨rfl, fun _ => rfl, fun _ _ => rfl⟩) hosts
    · rw [h]
      exact updateHosts_frame hosts _ _
  have hm : ∀ h : Host, (generateCondition dataStr hostIDs).1.matches h = true ↔
      h.HostID ∈ hostIDs ∧ ∃ kv ∈ jsonUnmarshal dataStr, h.value kv.1 ≠ kv.2 :=
    fun h => matches_iff hostIDs (jsonUnmarshal dataStr) h
  have hkeys : ∀ key, (∀ r ∈ planResult.AdditionalRules,
      attrMapAt (schemaAttrMap schema planResult.AdditionalRules) r.AttributeID ≠ key) →
      key ∉ (jsonUnmarshal dataStr).keys := by
    intro key hkey hin
    obtain ⟨kv, hkv, hk⟩ := List.mem_map.mp hin
    obtain ⟨r, hr, _, hp⟩ := (hmem kv).mp hkv
    exact hkey r hr (by rw [← hk, hp])
  have hframe : List.Forall₂ _ hosts
      (updateHostAttributes (hostStore schema) hosts planResult hostIDs).state :=
    hbase.imp (fun {h h'} hab => (⟨hab.1, ?_, ?_, ?_, hab.2.1, ?_, hab.2.2⟩ :
      h'.HostID = h.HostID ∧
      (h.HostID ∉ hostIDs → h' = h) ∧
      ((∀ r ∈ planResult.AdditionalRules,
          h.value (attrMapAt (schemaAttrMap schema planResult.AdditionalRules)
            r.AttributeID) = r.PropertyValue) → h' = h) ∧
      ((∀ kv ∈ jsonUnmarshal dataStr, h.value kv.1 = kv.2) → h' = h) ∧
      ((generateCondition dataStr hostIDs).1.matches h = false → h' = h) ∧
      (∀ key, (∀ r ∈ planResult.AdditionalRules,
          attrMapAt (schemaAttrMap schema planResult.AdditionalRules) r.AttributeID ≠ key) →
        h'.attrs.get? key = h.attrs.get? key) ∧
      (∀ key, key ∉ (jsonUnmarshal dataStr).keys →
        h'.attrs.get? key = h.attrs.get? key)))
  · exact ⟨forall₂_map_HostID _ _ _ (fun _ _ hab => hab.1) hframe, hframe⟩
  · intro hid
    apply hab.2.1
    rw [Bool.eq_false_iff]
    intro hmt
    exact hid ((hm h).mp hmt).1
  · intro hall
    apply hab.2.1
    rw [Bool.eq_false_iff]
    intro hmt
    obtain ⟨_, kv, hkv, hne⟩ := (hm h).mp hmt
    obtain ⟨r, hr, _, hp⟩ := (hmem kv).mp hkv
    apply hne
    rw [hp]
    exact hall r hr
  · intro hall
    apply hab.2.1
    rw [Bool.eq_false_iff]
    intro hmt
    obtain ⟨_, kv, hkv, hne⟩ := (hm h).mp hmt
    exact hne (hall kv hkv)
  · intro key hkey
    exact hab.2.2 key (hkeys key hkey)

/-- C3, at a concrete input: the rule cpu_module = "A" on the host ids 1 and 2.  Host 1 is
written (cpu_module becomes "A", bk_sla stays), host 2 has the value already and host 5 is
outside the host ids: both are as they were. -/
theorem updateHostAttributes_frame_witness :
    (∀ a ∈ [Attribute.mk 1 "cpu_module", Attribute.mk 2 "bk_sla"], plainName a.PropertyID) ∧
    (∀ r ∈ (HostApplyServiceTemplateOption.mk 3 [7] none
        [CreateHostApplyRuleOption.mk 1 7 (JValue.string "A")] [] true).AdditionalRules,
      exactValue r.PropertyValue = true) ∧
    (∃ dataStr,
      getUpdateDataStr (schemaReader [Attribute.mk 1 "cpu_module", Attribute.mk 2 "bk_sla"])
        (HostApplyServiceTemplateOption.mk 3 [7] none
          [CreateHostApplyRuleOption.mk 1 7 (JValue.string "A")] [] true).AdditionalRules =
        Except.ok dataStr ∧
      (updateHostAttributes
          (hostStore [Attribute.mk 1 "cpu_module", Attribute.mk 2 "bk_sla"])
          [Host.mk 1 [("cpu_module", JValue.string "B"), ("bk_sla", JValue.number 2)],
            Host.mk 2 [("cpu_module", JValue.string "A")],
            Host.mk 5 [("cpu_module", JValue.string "B")]]
          (HostApplyServiceTemplateOption.mk 3 [7] none
            [CreateHostApplyRuleOption.mk 1 7 (JValue.string "A")] [] true)
          [1, 2]).state.map Host.HostID =
        [Host.mk 1 [("cpu_module", JValue.string "B"), ("bk_sla", JValue.number 2)],
          Host.mk 2 [("cpu_module", JValue.string "A")],
          Host.mk 5 [("cpu_module", JValue.string "B")]].map Host.HostID) ∧
    (updateHostAttributes
        (hostStore [Attribute.mk 1 "cpu_module", Attribute.mk 2 "bk_sla"])
        [Host.mk 1 [("cpu_module", JValue.string "B"), ("bk_sla", JValue.number 2)],
          Host.mk 2 [("cpu_module", JValue.string "A")],
          Host.mk 5 [("cpu_module", JValue.string "B")]]
        (HostApplyServiceTemplateOption.mk 3 [7] none
          [CreateHostApplyRuleOption.mk 1 7 (JValue.string "A")] [] true)
        [1, 2]).state =
      [Host.mk 1 [("cpu_module", JValue.string "A"), ("bk_sla", JValue.number 2)],
        Host.mk 2 [("cpu_module", JValue.string "A")],
        Host.mk 5 [("cpu_module", JValue.string "B")]] :=
  ⟨by decide, by decide,
    (updateHostAttributes_frame [Attribute.mk 1 "cpu_module", Attribute.mk 2 "bk_sla"]
      [Host.mk 1 [("cpu_module", JValue.string "B"), ("bk_sla", JValue.number 2)],
        Host.mk 2 [("cpu_module", JValue.string "A")],
        Host.mk 5 [("cpu_module", JValue.string "B")]]
      (HostApplyServiceTemplateOption.mk 3 [7] none
        [CreateHostApplyRuleOption.mk 1 7 (JValue.string "A")] [] true)
      [1, 2] (by decide) (by decide)).imp (fun _ hx => ⟨hx.1, hx.2.1⟩),
    by decide⟩


/-! ## The unit of work -/

theorem AutoRunTxn_calls {σ : Type} (st : σ) (fn : σ → TxnRun σ) :
    (AutoRunTxn st fn).calls = (fn st).calls := by
  unfold AutoRunTxn
  split <;> rfl

theorem AutoRunTxn_err {σ : Type} (st : σ) (fn : σ → TxnRun σ) :
    (AutoRunTxn st fn).err = (fn st).err := by
  unfold AutoRunTxn
  split
  · rfl
  · rename_i e h
    exact h.symm

theorem AutoRunTxn_state_commit {σ : Type} (st : σ) (fn : σ → TxnRun σ)
    (h : (fn st).err = none) : (AutoRunTxn st fn).state = (fn st).state := by
  unfold AutoRunTxn
  rw [h]

theorem AutoRunTxn_state_abort {σ : Type} (st : σ) (fn : σ → TxnRun σ) (e : CCError)
    (h : (fn st).err = some e) : (AutoRunTxn st fn).state = st := by
  unfold AutoRunTxn
  rw [h]

/-! ## The enable status of host apply -/

/-- The calls of the unit of work of the enable-status handler: after the update of the
templates, a list call and then a delete call follow only when the request disables and
clears, the delete call only when the list is not empty and with the template ids of the
request. -/
theorem enableStatusTxn_calls {σ : Type} (rs : RuleService σ) (bizID : Int)
    (requestBody : UpdateHostApplyEnableStatusOption) (st : σ) :
    (enableStatusTxn rs bizID requestBody st).calls =
        [StoreCall.updateTemplates
          (TemplateUpdateOption.mk bizID requestBody.IDs requestBody.Enable)] ∨
    (requestBody.Enable = false ∧ requestBody.ClearRules = true ∧
      ((enableStatusTxn rs bizID requestBody st).calls =
          [StoreCall.updateTemplates
            (TemplateUpdateOption.mk bizID requestBody.IDs requestBody.Enable),
            StoreCall.listRules bizID (ListHostApplyRuleOption.mk requestBody.IDs)] ∨
        ∃ ruleIDs, ruleIDs ≠ [] ∧
          (enableStatusTxn rs bizID requestBody st).calls =
            [StoreCall.updateTemplates
              (TemplateUpdateOption.mk bizID requestBody.IDs requestBody.Enable),
              StoreCall.listRules bizID (ListHostApplyRuleOption.mk requestBody.IDs),
              StoreCall.deleteRules bizID
                (DeleteHostApplyRuleOption.mk ruleIDs requestBody.IDs)])) := by
  rcases hup : rs.UpdateBatchServiceTemplate st
    (TemplateUpdateOption.mk bizID requestBody.IDs requestBody.Enable) with ⟨st1, e⟩
  cases e with
  | some e => exact Or.inl (by simp only [enableStatusTxn, hup])
  | none =>
    cases hen : requestBody.Enable with
    | true =>
      rw [hen] at hup
      exact Or.inl (by simp only [enableStatusTxn, hen, hup, if_true])
    | false =>
      rw [hen] at hup
      cases hcl : requestBody.ClearRules with
      | false =>
        exact Or.inl (by simp only [enableStatusTxn, hen, hcl, hup, Bool.false_eq_true, if_false])
      | true =>
        refine Or.inr ⟨rfl, rfl, ?_⟩
        cases hlist : rs.ListHostApplyRule st1 bizID
          (ListHostApplyRuleOption.mk requestBody.IDs) with
        | error e =>
          exact Or.inl (by
            simp only [enableStatusTxn, hen, hcl, hup, hlist, Bool.false_eq_true, if_false,
              if_true])
        | ok info =>
          by_cases hlen : (info.map (fun item => item.ID)).length > 0
          · refine Or.inr ⟨info.map (fun item => item.ID), ?_, ?_⟩
            · intro h
              rw [h] at hlen
              exact absurd hlen (by decide)
            · rcases hdel : rs.DeleteHostApplyRule st1 bizID
                (DeleteHostApplyRuleOption.mk (info.map (fun item => item.ID))
                  requestBody.IDs) with ⟨st2, e⟩
              cases e <;>
                simp only [enableStatusTxn, hen, hcl, hup, hlist, hlen, hdel,
                  Bool.false_eq_true, if_false, if_true]
          · exact Or.inl (by
              simp only [enableStatusTxn, hen, hcl, hup, hlist, hlen, Bool.false_eq_true,
                if_false, if_true])

/-- The unit of work of the enable-status handler over the datastore: it does not fail; the
flag is set on the listed templates of the business; the rules are kept when the request
enables or does not clear, and otherwise the listed rules are deleted within the listed
templates. -/
theorem enableStatusTxn_ruleStore (schema : List Attribute) (bizID : Int)
    (requestBody : UpdateHostApplyEnableStatusOption) (st : Datastore) :
    (enableStatusTxn (ruleStore schema) bizID requestBody st).err = none ∧
    (enableStatusTxn (ruleStore schema) bizID requestBody st).state.templates =
      setHostApplyEnabled st.templates
        (TemplateUpdateOption.mk bizID requestBody.IDs requestBody.Enable) ∧
    (enableStatusTxn (ruleStore schema) bizID requestBody st).state.hosts = st.hosts ∧
    (enableStatusTxn (ruleStore schema) bizID requestBody st).state.rules =
      if requestBody.Enable = false ∧ requestBody.ClearRules = true then
        deleteRules st.rules bizID
          (DeleteHostApplyRuleOption.mk
            ((listRules st.rules bizID (ListHostApplyRuleOption.mk requestBody.IDs)).map
              (fun item => item.ID)) requestBody.IDs)
      else st.rules := by
  unfold enableStatusTxn
  simp only [ruleStore]
  cases hen : requestBody.Enable with
  | true => simp
  | false =>
    cases hcl : requestBody.ClearRules with
    | false => simp
    | true =>
      simp only [Bool.false_eq_true, if_false, if_true, and_self]
      by_cases hlen : ((listRules st.rules bizID
          (ListHostApplyRuleOption.mk requestBody.IDs)).map (fun item => item.ID)).length > 0
      · simp only [hlen, if_true]
        exact ⟨trivial, trivial, trivial, trivial⟩
      · simp only [hlen, if_false]
        refine ⟨trivial, trivial, trivial, ?_⟩
        have hnil : (listRules st.rules bizID
            (ListHostApplyRuleOption.mk requestBody.IDs)).map (fun item => item.ID) = [] :=
          List.length_eq_zero.mp (Nat.eq_zero_of_not_pos hlen)
        rw [hnil]
        unfold deleteRules
        symm
        rw [List.filter_eq_self]
        intro r _
        simp

theorem enableStatus_handler_ruleStore (schema : List Attribute) (st : Datastore)
    (bizID : Int) (requestBody : UpdateHostApplyEnableStatusOption)
    (hids : requestBody.IDs ≠ []) :
    (UpdateServiceTemplateHostApplyEnableStatus (ruleStore schema) st (some bizID)
      (Except.ok requestBody)).reply = Reply.entity ∧
    (UpdateServiceTemplateHostApplyEnableStatus (ruleStore schema) st (some bizID)
      (Except.ok requestBody)).state =
        (enableStatusTxn (ruleStore schema) bizID requestBody st).state ∧
    (UpdateServiceTemplateHostApplyEnableStatus (ruleStore schema) st (some bizID)
      (Except.ok requestBody)).calls =
        (enableStatusTxn (ruleStore schema) bizID requestBody st).calls := by
  have hlen : ¬ requestBody.IDs.length = 0 := fun h => hids (List.length_eq_zero.mp h)
  have herr := (enableStatusTxn_ruleStore schema bizID requestBody st).1
  have h1 := AutoRunTxn_err st (enableStatusTxn (ruleStore schema) bizID requestBody)
  rw [herr] at h1
  simp only [UpdateServiceTemplateHostApplyEnableStatus, hlen, if_false, h1]
  exact ⟨trivial, AutoRunTxn_state_commit _ _ herr, AutoRunTxn_calls _ _⟩

theorem mem_deleteRules (rules : List HostApplyRule) (bizID : Int)
    (option : DeleteHostApplyRuleOption) (r : HostApplyRule) :
    r ∈ deleteRules rules bizID option ↔
      r ∈ rules ∧ ¬ (r.BizID = bizID ∧ r.ID ∈ option.RuleIDs ∧
        r.ServiceTemplateID ∈ option.ServiceTemplateIDs) := by
  unfold deleteRules
  rw [List.mem_filter]
  simp only [Bool.not_eq_true', decide_eq_false_iff_not]

theorem mem_listRules (rules : List HostApplyRule) (bizID : Int)
    (option : ListHostApplyRuleOption) (r : HostApplyRule) :
    r ∈ listRules rules bizID option ↔
      r ∈ rules ∧ r.BizID = bizID ∧ r.ServiceTemplateID ∈ option.ServiceTemplateIDs := by
  simp [listRules, List.mem_filter]

/-- The batch update of templates keeps every template in its place, with its id and its
business; the flag is the requested one on the listed templates of the business and the
previous one on the others. -/
theorem setHostApplyEnabled_frame (templates : List ServiceTemplate)
    (option : TemplateUpdateOption) :
    List.Forall₂
      (fun t t' => t'.ID = t.ID ∧ t'.BizID = t.BizID ∧
        t'.HostApplyEnabled =
          if t.BizID = option.BizID ∧ t.ID ∈ option.IDs then option.HostApplyEnabled
          else t.HostApplyEnabled)
      templates (setHostApplyEnabled templates option) := by
  unfold setHostApplyEnabled
  induction templates with
  | nil => exact List.Forall₂.nil
  | cons t templates ih =>
    refine List.Forall₂.cons ?_ ih
    beta_reduce
    by_cases h : t.BizID = option.BizID ∧ t.ID ∈ option.IDs
    · rw [if_pos h, if_pos h]
      exact ⟨rfl, rfl, rfl⟩
    · rw [if_neg h, if_neg h]
      exact ⟨rfl, rfl, rfl⟩

theorem setHostApplyEnabled_listed (templates : List ServiceTemplate)
    (option : TemplateUpdateOption) (t : ServiceTemplate)
    (ht : t ∈ setHostApplyEnabled templates option) (hb : t.BizID = option.BizID)
    (hid : t.ID ∈ option.IDs) : t.HostApplyEnabled = option.HostApplyEnabled := by
  obtain ⟨t0, _, rfl⟩ := List.mem_map.mp ht
  by_cases h : t0.BizID = option.BizID ∧ t0.ID ∈ option.IDs
  · rw [if_pos h]
  · rw [if_neg h] at hb hid
    exact absurd ⟨hb, hid⟩ h

/-- C11. Disable with clear: over the datastore, for every business and non-empty template
id list, a call of `UpdateServiceTemplateHostApplyEnableStatus` with enable = false and
clearRules = true answers success, and after it no rule of a listed template of the
business remains (no rule at all with a listed template id, when the rules with a listed
template id are rules of the business), and the flag is false on every listed template of
the business. -/
theorem UpdateServiceTemplateHostApplyEnableStatus_disable_clear (schema : List Attribute)
    (st : Datastore) (bizID : Int) (requestBody : UpdateHostApplyEnableStatusOption)
    (hids : requestBody.IDs ≠ []) (hen : requestBody.Enable = false)
    (hclear : requestBody.ClearRules = true) :
    (UpdateServiceTemplateHostApplyEnableStatus (ruleStore schema) st (some bizID)
      (Except.ok requestBody)).reply = Reply.entity ∧
    (∀ r ∈ (UpdateServiceTemplateHostApplyEnableStatus (ruleStore schema) st (some bizID)
        (Except.ok requestBody)).state.rules,
      ¬ (r.BizID = bizID ∧ r.ServiceTemplateID ∈ requestBody.IDs)) ∧
    ((∀ r ∈ st.rules, r.ServiceTemplateID ∈ requestBody.IDs → r.BizID = bizID) →
      ∀ r ∈ (UpdateServiceTemplateHostApplyEnableStatus (ruleStore schema) st (some bizID)
        (Except.ok requestBody)).state.rules, r.ServiceTemplateID ∉ requestBody.IDs) ∧
    (∀ t ∈ (UpdateServiceTemplateHostApplyEnableStatus (ruleStore schema) st (some bizID)
        (Except.ok requestBody)).state.templates,
      t.BizID = bizID → t.ID ∈ requestBody.IDs → t.HostApplyEnabled = false) := by
  obtain ⟨hreply, hstate, _⟩ := enableStatus_handler_ruleStore schema st bizID requestBody hids
  obtain ⟨_, htpl, _, hrules⟩ := enableStatusTxn_ruleStore schema bizID requestBody st
  rw [hstate, hrules, htpl, if_pos ⟨hen, hclear⟩]
  have hgone : ∀ r ∈ deleteRules st.rules bizID
      (DeleteHostApplyRuleOption.mk
        ((listRules st.rules bizID (ListHostApplyRuleOption.mk requestBody.IDs)).map
          (fun item => item.ID)) requestBody.IDs),
      r ∈ st.rules ∧ ¬ (r.BizID = bizID ∧ r.ServiceTemplateID ∈ requestBody.IDs) := by
    intro r hr
    obtain ⟨hmem, hnot⟩ := (mem_deleteRules _ _ _ r).mp hr
    refine ⟨hmem, fun h => hnot ⟨h.1, ?_, h.2⟩⟩
    exact List.mem_map.mpr ⟨r, (mem_listRules _ _ _ r).mpr ⟨hmem, h.1, h.2⟩, rfl⟩
  refine ⟨hreply, fun r hr => (hgone r hr).2, fun hwf r hr hin => ?_, fun t ht hb hid => ?_⟩
  · exact (hgone r hr).2 ⟨hwf r (hgone r hr).1 hin, hin⟩
  · have := setHostApplyEnabled_listed st.templates _ t ht hb hid
    rw [this]
    exact hen

/-- C11, at a concrete input: business 2 disables and clears template 5, which has rule 10;
template 6 of the business and template 5 of business 3 keep their rules. -/
theorem UpdateServiceTemplateHostApplyEnableStatus_disable_clear_witness :
    (UpdateHostApplyEnableStatusOption.mk [5] false true).IDs ≠ [] ∧
    (UpdateServiceTemplateHostApplyEnableStatus (ruleStore [Attribute.mk 1 "cpu_module"])
        (Datastore.mk
          [ServiceTemplate.mk 5 2 true, ServiceTemplate.mk 6 2 true]
          [HostApplyRule.mk 10 2 5 1 (JValue.string "A"),
            HostApplyRule.mk 11 2 6 1 (JValue.string "B")] [])
        (some 2) (Except.ok (UpdateHostApplyEnableStatusOption.mk [5] false true))).state =
      Datastore.mk
        [ServiceTemplate.mk 5 2 false, ServiceTemplate.mk 6 2 true]
        [HostApplyRule.mk 11 2 6 1 (JValue.string "B")] [] ∧
    (∀ r ∈ (UpdateServiceTemplateHostApplyEnableStatus (ruleStore [Attribute.mk 1 "cpu_module"])
        (Datastore.mk
          [ServiceTemplate.mk 5 2 true, ServiceTemplate.mk 6 2 true]
          [HostApplyRule.mk 10 2 5 1 (JValue.string "A"),
            HostApplyRule.mk 11 2 6 1 (JValue.string "B")] [])
        (some 2) (Except.ok (UpdateHostApplyEnableStatusOption.mk [5] false true))).state.rules,
      ¬ (r.BizID = 2 ∧ r.ServiceTemplateID ∈ [5])) :=
  ⟨by decide, by decide,
    (UpdateServiceTemplateHostApplyEnableStatus_disable_clear [Attribute.mk 1 "cpu_module"]
      (Datastore.mk
        [ServiceTemplate.mk 5 2 true, ServiceTemplate.mk 6 2 true]
        [HostApplyRule.mk 10 2 5 1 (JValue.string "A"),
          HostApplyRule.mk 11 2 6 1 (JValue.string "B")] [])
      2 (UpdateHostApplyEnableStatusOption.mk [5] false true) (by decide) rfl rfl).2.1⟩

/-- C15. Rules survive unless explicitly cleared: whatever the services, a request to
`UpdateServiceTemplateHostApplyEnableStatus` issues a list or a delete of rules only if
enable = false and clearRules = true; over the datastore, a request with a non-empty id
list that enables, or that disables without clearRules, issues the update of the templates
alone, leaves the rules and the hosts as they were and sets the flag of the listed
templates of the business to the requested value, every other flag being kept; and a
request with an empty id list is rejected with no call issued and the state as it was. -/
theorem UpdateServiceTemplateHostApplyEnableStatus_rules_survive :
    (∀ {σ : Type} (rs : RuleService σ) (st : σ) (bizID : Option Int)
        (requestBody : UpdateHostApplyEnableStatusOption),
      (∃ c ∈ (UpdateServiceTemplateHostApplyEnableStatus rs st bizID
          (Except.ok requestBody)).calls, c.isRuleListOrDelete = true) →
        requestBody.Enable = false ∧ requestBody.ClearRules = true) ∧
    (∀ (schema : List Attribute) (st : Datastore) (bizID : Int)
        (requestBody : UpdateHostApplyEnableStatusOption),
      requestBody.IDs ≠ [] → (requestBody.Enable = true ∨ requestBody.ClearRules = false) →
        (UpdateServiceTemplateHostApplyEnableStatus (ruleStore schema) st (some bizID)
          (Except.ok requestBody)).reply = Reply.entity ∧
        (UpdateServiceTemplateHostApplyEnableStatus (ruleStore schema) st (some bizID)
          (Except.ok requestBody)).calls =
            [StoreCall.updateTemplates
              (TemplateUpdateOption.mk bizID requestBody.IDs requestBody.Enable)] ∧
        (UpdateServiceTemplateHostApplyEnableStatus (ruleStore schema) st (some bizID)
          (Except.ok requestBody)).state.rules = st.rules ∧
        (UpdateServiceTemplateHostApplyEnableStatus (ruleStore schema) st (some bizID)
          (Except.ok requestBody)).state.hosts = st.hosts ∧
        List.Forall₂
          (fun t t' => t'.ID = t.ID ∧ t'.BizID = t.BizID ∧
            t'.HostApplyEnabled =
              if t.BizID = bizID ∧ t.ID ∈ requestBody.IDs then requestBody.Enable
              else t.HostApplyEnabled)
          st.templates
          (UpdateServiceTemplateHostApplyEnableStatus (ruleStore schema) st (some bizID)
            (Except.ok requestBody)).state.templates) ∧
    (∀ {σ : Type} (rs : RuleService σ) (st : σ) (bizID : Option Int)
        (requestBody : UpdateHostApplyEnableStatusOption),
      requestBody.IDs = [] →
        (∃ e, (UpdateServiceTemplateHostApplyEnableStatus rs st bizID
          (Except.ok requestBody)).reply = Reply.error e ∧
          errorKind e = ErrorKind.ValidationError) ∧
        (UpdateServiceTemplateHostApplyEnableStatus rs st bizID
          (Except.ok requestBody)).calls = [] ∧
        (UpdateServiceTemplateHostApplyEnableStatus rs st bizID
          (Except.ok requestBody)).state = st) := by
  refine ⟨?_, ?_, ?_⟩
  · intro σ rs st bizID requestBody ⟨c, hc, hrule⟩
    cases bizID with
    | none => simp [UpdateServiceTemplateHostApplyEnableStatus] at hc
    | some bizID =>
      by_cases hlen : requestBody.IDs.length = 0
      · simp [UpdateServiceTemplateHostApplyEnableStatus, hlen] at hc
      · have hcalls : (UpdateServiceTemplateHostApplyEnableStatus rs st (some bizID)
            (Except.ok requestBody)).calls = (enableStatusTxn rs bizID requestBody st).calls := by
          simp only [UpdateServiceTemplateHostApplyEnableStatus, hlen, if_false]
          split <;> exact AutoRunTxn_calls _ _
        rw [hcalls] at hc
        rcases enableStatusTxn_calls rs bizID requestBody st with h | ⟨hen, hcl, _⟩
        · rw [h, List.mem_singleton] at hc
          rw [hc] at hrule
          exact absurd hrule (by simp [StoreCall.isRuleListOrDelete])
        · exact ⟨hen, hcl⟩
  · intro schema st bizID requestBody hids hmode
    obtain ⟨hreply, hstate, hcalls⟩ :=
      enableStatus_handler_ruleStore schema st bizID requestBody hids
    obtain ⟨_, htpl, hhosts, hrules⟩ := enableStatusTxn_ruleStore schema bizID requestBody st
    have hnot : ¬ (requestBody.Enable = false ∧ requestBody.ClearRules = true) := by
      rintro ⟨h1, h2⟩
      rcases hmode with h | h
      · rw [h1] at h; exact absurd h (by decide)
      · rw [h2] at h; exact absurd h (by decide)
    rw [if_neg hnot] at hrules
    refine ⟨hreply, ?_, by rw [hstate, hrules], by rw [hstate, hhosts], ?_⟩
    · rw [hcalls]
      rcases enableStatusTxn_calls (ruleStore schema) bizID requestBody st with
        h | ⟨hen, hcl, _⟩
      · exact h
      · exact absurd ⟨hen, hcl⟩ hnot
    · rw [hstate, htpl]
      exact setHostApplyEnabled_frame st.templates
        (TemplateUpdateOption.mk bizID requestBody.IDs requestBody.Enable)
  · intro σ rs st bizID requestBody hids
    cases bizID with
    | none =>
      exact ⟨⟨_, rfl, rfl⟩, rfl, rfl⟩
    | some bizID =>
      simp only [UpdateServiceTemplateHostApplyEnableStatus, hids, List.length_nil, if_true]
      exact ⟨⟨_, rfl, rfl⟩, trivial, trivial⟩

/-! ## The rule mutation of `ExecServiceTemplateHostApplyRule` -/

/-- A request whose unit of work fails: the answer carries the error, `updateHostAttributes`
is not invoked and the state is the one before the request. -/
theorem exec_of_txn_error {σ : Type} (ms : MembershipService) (rs : RuleService σ)
    (cs : CoreService σ) (st : σ) (planReq : HostApplyServiceTemplateOption) (e : CCError)
    (hmem : (getHostIDByCondition ms planReq.BizID planReq.ServiceTemplateIDs
      planReq.HostIDs).err = none)
    (htxn : (execTxn rs planReq st).err = some e) :
    (ExecServiceTemplateHostApplyRule ms rs cs st (Except.ok planReq)).storeCalls =
      (execTxn rs planReq st).calls ∧
    (ExecServiceTemplateHostApplyRule ms rs cs st (Except.ok planReq)).reply =
      Reply.respError e ∧
    (ExecServiceTemplateHostApplyRule ms rs cs st (Except.ok planReq)).hostApply = none ∧
    (ExecServiceTemplateHostApplyRule ms rs cs st (Except.ok planReq)).state = st := by
  have h1 := AutoRunTxn_err st (execTxn rs planReq)
  rw [htxn] at h1
  simp only [ExecServiceTemplateHostApplyRule, hmem, h1]
  exact ⟨AutoRunTxn_calls _ _, trivial, trivial, AutoRunTxn_state_abort _ _ e htxn⟩

/-- A request whose unit of work succeeds: the state of the unit is kept, and
`updateHostAttributes` is invoked on it exactly when `Changed` is set and there are
additional rules. -/
theorem exec_of_txn_ok {σ : Type} (ms : MembershipService) (rs : RuleService σ)
    (cs : CoreService σ) (st : σ) (planReq : HostApplyServiceTemplateOption)
    (hmem : (getHostIDByCondition ms planReq.BizID planReq.ServiceTemplateIDs
      planReq.HostIDs).err = none)
    (htxn : (execTxn rs planReq st).err = none) :
    (ExecServiceTemplateHostApplyRule ms rs cs st (Except.ok planReq)).storeCalls =
      (execTxn rs planReq st).calls ∧
    (ExecServiceTemplateHostApplyRule ms rs cs st (Except.ok planReq)).hostApply =
      (if planReq.Changed = true ∧ planReq.AdditionalRules ≠ [] then
        some (updateHostAttributes cs (execTxn rs planReq st).state planReq
          (getHostIDByCondition ms planReq.BizID planReq.ServiceTemplateIDs
            planReq.HostIDs).hostIDs)
      else none) ∧
    (ExecServiceTemplateHostApplyRule ms rs cs st (Except.ok planReq)).state =
      (if planReq.Changed = true ∧ planReq.AdditionalRules ≠ [] then
        (updateHostAttributes cs (execTxn rs planReq st).state planReq
          (getHostIDByCondition ms planReq.BizID planReq.ServiceTemplateIDs
            planReq.HostIDs).hostIDs).state
      else (execTxn rs planReq st).state) ∧
    ((planReq.Changed = false ∨ planReq.AdditionalRules = []) →
      (ExecServiceTemplateHostApplyRule ms rs cs st (Except.ok planReq)).reply =
        Reply.entity) := by
  have h1 := AutoRunTxn_err st (execTxn rs planReq)
  rw [htxn] at h1
  have h2 := AutoRunTxn_state_commit st (execTxn rs planReq) htxn
  have h3 := AutoRunTxn_calls st (execTxn rs planReq)
  by_cases hskip : planReq.Changed = true ∧ planReq.AdditionalRules ≠ []
  · have hcond : ¬ ((!planReq.Changed || decide (planReq.AdditionalRules.length = 0)) = true) := by
      obtain ⟨hc, hr⟩ := hskip
      have hl : ¬ planReq.AdditionalRules.length = 0 := fun h => hr (List.length_eq_zero.mp h)
      simp [hc, hl]
    simp only [ExecServiceTemplateHostApplyRule, hmem, h1, hcond, if_false, if_pos hskip, h2]
    have hno : (planReq.Changed = false ∨ planReq.AdditionalRules = []) → False := by
      intro h
      rcases h with h | h
      · rw [hskip.1] at h; exact absurd h (by decide)
      · exact absurd h hskip.2
    cases (updateHostAttributes cs (execTxn rs planReq st).state planReq
        (getHostIDByCondition ms planReq.BizID planReq.ServiceTemplateIDs
          planReq.HostIDs).hostIDs).answer with
    | ok => exact ⟨h3, rfl, rfl, fun h => (hno h).elim⟩
    | error e => exact ⟨h3, rfl, rfl, fun h => (hno h).elim⟩
    | panic => exact ⟨h3, rfl, rfl, fun h => (hno h).elim⟩
  · have hcond : (!planReq.Changed || decide (planReq.AdditionalRules.length = 0)) = true := by
      by_cases hc : planReq.Changed = true
      · have hr : planReq.AdditionalRules = [] := by
          by_contra hr
          exact hskip ⟨hc, hr⟩
        simp [hr]
      · simp [hc]
    simp only [ExecServiceTemplateHostApplyRule, hmem, h1, hcond, if_true, if_neg hskip]
    exact ⟨h3, trivial, h2, fun _ => trivial⟩

/-- C12. Atomic rule mutation: in a request to `ExecServiceTemplateHostApplyRule` whose
membership resolution succeeded, if the update of the flag fails, or the batch save of the
rules after it, or the delete of the rules after both, then no later step of the unit of
work is attempted, the answer is an error, `updateHostAttributes` is not invoked (no call
on the host table), and the state, rules and flags with it, is the one before the
request. -/
theorem ExecServiceTemplateHostApplyRule_atomic {σ : Type} (ms : MembershipService)
    (rs : RuleService σ) (cs : CoreService σ) (st : σ)
    (planReq : HostApplyServiceTemplateOption)
    (hmem : (getHostIDByCondition ms planReq.BizID planReq.ServiceTemplateIDs
      planReq.HostIDs).err = none) :
    (∀ st1 e,
      rs.UpdateBatchServiceTemplate st
        (TemplateUpdateOption.mk planReq.BizID planReq.ServiceTemplateIDs true) =
          (st1, some e) →
      (ExecServiceTemplateHostApplyRule ms rs cs st (Except.ok planReq)).storeCalls =
        [StoreCall.updateTemplates
          (TemplateUpdateOption.mk planReq.BizID planReq.ServiceTemplateIDs true)] ∧
      (ExecServiceTemplateHostApplyRule ms rs cs st (Except.ok planReq)).reply =
        Reply.respError e ∧
      (ExecServiceTemplateHostApplyRule ms rs cs st (Except.ok planReq)).hostCalls = [] ∧
      (ExecServiceTemplateHostApplyRule ms rs cs st (Except.ok planReq)).hostApply = none ∧
      (ExecServiceTemplateHostApplyRule ms rs cs st (Except.ok planReq)).state = st) ∧
    (∀ st1 st2 e,
      rs.UpdateBatchServiceTemplate st
        (TemplateUpdateOption.mk planReq.BizID planReq.ServiceTemplateIDs true) =
          (st1, none) →
      rs.BatchUpdateHostApplyRule st1 planReq.BizID
        (planReq.AdditionalRules.map (fun rule =>
          CreateOrUpdateApplyRuleOption.mk rule.AttributeID rule.ServiceTemplateID
            rule.PropertyValue)) = (st2, some e) →
      (ExecServiceTemplateHostApplyRule ms rs cs st (Except.ok planReq)).storeCalls =
        [StoreCall.updateTemplates
          (TemplateUpdateOption.mk planReq.BizID planReq.ServiceTemplateIDs true),
          StoreCall.saveRules planReq.BizID
            (planReq.AdditionalRules.map (fun rule =>
              CreateOrUpdateApplyRuleOption.mk rule.AttributeID rule.ServiceTemplateID
                rule.PropertyValue))] ∧
      (ExecServiceTemplateHostApplyRule ms rs cs st (Except.ok planReq)).reply =
        Reply.respError e ∧
      (ExecServiceTemplateHostApplyRule ms rs cs st (Except.ok planReq)).hostCalls = [] ∧
      (ExecServiceTemplateHostApplyRule ms rs cs st (Except.ok planReq)).hostApply = none ∧
      (ExecServiceTemplateHostApplyRule ms rs cs st (Except.ok planReq)).state = st) ∧
    (∀ st1 st2 st3 e,
      rs.UpdateBatchServiceTemplate st
        (TemplateUpdateOption.mk planReq.BizID planReq.ServiceTemplateIDs true) =
          (st1, none) →
      rs.BatchUpdateHostApplyRule st1 planReq.BizID
        (planReq.AdditionalRules.map (fun rule =>
          CreateOrUpdateApplyRuleOption.mk rule.AttributeID rule.ServiceTemplateID
            rule.PropertyValue)) = (st2, none) →
      planReq.RemoveRuleIDs ≠ [] →
      rs.DeleteHostApplyRule st2 planReq.BizID
        (DeleteHostApplyRuleOption.mk planReq.RemoveRuleIDs planReq.ServiceTemplateIDs) =
          (st3, some e) →
      (ExecServiceTemplateHostApplyRule ms rs cs st (Except.ok planReq)).storeCalls =
        [StoreCall.updateTemplates
          (TemplateUpdateOption.mk planReq.BizID planReq.ServiceTemplateIDs true),
          StoreCall.saveRules planReq.BizID
            (planReq.AdditionalRules.map (fun rule =>
              CreateOrUpdateApplyRuleOption.mk rule.AttributeID rule.ServiceTemplateID
                rule.PropertyValue)),
          StoreCall.deleteRules planReq.BizID
            (DeleteHostApplyRuleOption.mk planReq.RemoveRuleIDs
              planReq.ServiceTemplateIDs)] ∧
      (ExecServiceTemplateHostApplyRule ms rs cs st (Except.ok planReq)).reply =
        Reply.respError e ∧
      (ExecServiceTemplateHostApplyRule ms rs cs st (Except.ok planReq)).hostCalls = [] ∧
      (ExecServiceTemplateHostApplyRule ms rs cs st (Except.ok planReq)).hostApply = none ∧
      (ExecServiceTemplateHostApplyRule ms rs cs st (Except.ok planReq)).state = st) := by
  have key : ∀ (e : CCError) (calls : List StoreCall),
      (execTxn rs planReq st).err = some e → (execTxn rs planReq st).calls = calls →
      (ExecServiceTemplateHostApplyRule ms rs cs st (Except.ok planReq)).storeCalls = calls ∧
      (ExecServiceTemplateHostApplyRule ms rs cs st (Except.ok planReq)).reply =
        Reply.respError e ∧
      (ExecServiceTemplateHostApplyRule ms rs cs st (Except.ok planReq)).hostCalls = [] ∧
      (ExecServiceTemplateHostApplyRule ms rs cs st (Except.ok planReq)).hostApply = none ∧
      (ExecServiceTemplateHostApplyRule ms rs cs st (Except.ok planReq)).state = st := by
    intro e calls herr hcalls
    obtain ⟨h1, h2, h3, h4⟩ := exec_of_txn_error ms rs cs st planReq e hmem herr
    exact ⟨h1.trans hcalls, h2, by simp only [ExecRun.hostCalls, h3], h3, h4⟩
  refine ⟨?_, ?_, ?_⟩
  · intro st1 e hup
    apply key e <;> simp only [execTxn, hup]
  · intro st1 st2 e hup hsave
    apply key e <;> simp only [execTxn, hup, hsave]
  · intro st1 st2 st3 e hup hsave hrm hdel
    have hlen : planReq.RemoveRuleIDs.length > 0 := List.length_pos.mpr hrm
    apply key e <;> simp only [execTxn, hup, hsave, hlen, if_true, hdel]

/-- C12, at a concrete input: business 2 saves a rule on attribute 3, which the schema does
not know; the batch save fails after the flag of template 5 was set, and the datastore is
as before the request, the flag of template 5 still false. -/
theorem ExecServiceTemplateHostApplyRule_atomic_witness :
    (getHostIDByCondition
      (MembershipService.mk (fun _ _ => Except.ok [ModuleInst.mk 9])
        (fun _ => some [ModuleHost.mk 4 9]))
      (HostApplyServiceTemplateOption.mk 2 [5] none
        [CreateHostApplyRuleOption.mk 3 5 (JValue.string "Q")] [10] true).BizID
      (HostApplyServiceTemplateOption.mk 2 [5] none
        [CreateHostApplyRuleOption.mk 3 5 (JValue.string "Q")] [10] true).ServiceTemplateIDs
      (HostApplyServiceTemplateOption.mk 2 [5] none
        [CreateHostApplyRuleOption.mk 3 5 (JValue.string "Q")] [10] true).HostIDs).err = none ∧
    (ExecServiceTemplateHostApplyRule
      (MembershipService.mk (fun _ _ => Except.ok [ModuleInst.mk 9])
        (fun _ => some [ModuleHost.mk 4 9]))
      (ruleStore [Attribute.mk 1 "cpu_module"]) (hostService [Attribute.mk 1 "cpu_module"])
      (Datastore.mk [ServiceTemplate.mk 5 2 false]
        [HostApplyRule.mk 10 2 5 1 (JValue.string "A")]
        [Host.mk 4 [("cpu_module", JValue.string "Z")]])
      (Except.ok (HostApplyServiceTemplateOption.mk 2 [5] none
        [CreateHostApplyRuleOption.mk 3 5 (JValue.string "Q")] [10] true))).state =
      Datastore.mk [ServiceTemplate.mk 5 2 false]
        [HostApplyRule.mk 10 2 5 1 (JValue.string "A")]
        [Host.mk 4 [("cpu_module", JValue.string "Z")]] ∧
    (ExecServiceTemplateHostApplyRule
      (MembershipService.mk (fun _ _ => Except.ok [ModuleInst.mk 9])
        (fun _ => some [ModuleHost.mk 4 9]))
      (ruleStore [Attribute.mk 1 "cpu_module"]) (hostService [Attribute.mk 1 "cpu_module"])
      (Datastore.mk [ServiceTemplate.mk 5 2 false]
        [HostApplyRule.mk 10 2 5 1 (JValue.string "A")]
        [Host.mk 4 [("cpu_module", JValue.string "Z")]])
      (Except.ok (HostApplyServiceTemplateOption.mk 2 [5] none
        [CreateHostApplyRuleOption.mk 3 5 (JValue.string "Q")] [10] true))).reply =
      Reply.respError CCError.CCErrCommParamsInvalid :=
  ⟨rfl,
    ((ExecServiceTemplateHostApplyRule_atomic
      (MembershipService.mk (fun _ _ => Except.ok [ModuleInst.mk 9])
        (fun _ => some [ModuleHost.mk 4 9]))
      (ruleStore [Attribute.mk 1 "cpu_module"]) (hostService [Attribute.mk 1 "cpu_module"])
      (Datastore.mk [ServiceTemplate.mk 5 2 false]
        [HostApplyRule.mk 10 2 5 1 (JValue.string "A")]
        [Host.mk 4 [("cpu_module", JValue.string "Z")]])
      (HostApplyServiceTemplateOption.mk 2 [5] none
        [CreateHostApplyRuleOption.mk 3 5 (JValue.string "Q")] [10] true) rfl).2.1
      (Datastore.mk [ServiceTemplate.mk 5 2 true]
        [HostApplyRule.mk 10 2 5 1 (JValue.string "A")]
        [Host.mk 4 [("cpu_module", JValue.string "Z")]])
      (Datastore.mk [ServiceTemplate.mk 5 2 true]
        [HostApplyRule.mk 10 2 5 1 (JValue.string "A")]
        [Host.mk 4 [("cpu_module", JValue.string "Z")]])
      CCError.CCErrCommParamsInvalid (by decide) (by decide)).2.2.2.2,
    by decide⟩

/-! ## The skip of host apply -/

/-- C13. Skip of host apply: in a request to `ExecServiceTemplateHostApplyRule` whose
membership resolution and unit of work succeed, `updateHostAttributes` is invoked exactly
when `Changed` is set and `AdditionalRules` is not empty; and a request with `Changed` set,
no additional rule and rule ids to remove issues the delete of these rules within the
templates of the request, keeps the state the delete left, and answers success without
invoking `updateHostAttributes`, so with no call on the host table. -/
theorem ExecServiceTemplateHostApplyRule_skip {σ : Type} (ms : MembershipService)
    (rs : RuleService σ) (cs : CoreService σ) (st : σ)
    (planReq : HostApplyServiceTemplateOption)
    (hmem : (getHostIDByCondition ms planReq.BizID planReq.ServiceTemplateIDs
      planReq.HostIDs).err = none)
    (htxn : (execTxn rs planReq st).err = none) :
    ((ExecServiceTemplateHostApplyRule ms rs cs st (Except.ok planReq)).hostApply.isSome = true ↔
      planReq.Changed = true ∧ planReq.AdditionalRules ≠ []) ∧
    (planReq.Changed = true → planReq.AdditionalRules = [] → planReq.RemoveRuleIDs ≠ [] →
      (∃ st1 st2 st3,
        rs.UpdateBatchServiceTemplate st
          (TemplateUpdateOption.mk planReq.BizID planReq.ServiceTemplateIDs true) =
            (st1, none) ∧
        rs.BatchUpdateHostApplyRule st1 planReq.BizID [] = (st2, none) ∧
        rs.DeleteHostApplyRule st2 planReq.BizID
          (DeleteHostApplyRuleOption.mk planReq.RemoveRuleIDs planReq.ServiceTemplateIDs) =
            (st3, none) ∧
        (ExecServiceTemplateHostApplyRule ms rs cs st (Except.ok planReq)).state = st3) ∧
      (ExecServiceTemplateHostApplyRule ms rs cs st (Except.ok planReq)).storeCalls =
        [StoreCall.updateTemplates
          (TemplateUpdateOption.mk planReq.BizID planReq.ServiceTemplateIDs true),
          StoreCall.saveRules planReq.BizID [],
          StoreCall.deleteRules planReq.BizID
            (DeleteHostApplyRuleOption.mk planReq.RemoveRuleIDs
              planReq.ServiceTemplateIDs)] ∧
      (ExecServiceTemplateHostApplyRule ms rs cs st (Except.ok planReq)).reply =
        Reply.entity ∧
      (ExecServiceTemplateHostApplyRule ms rs cs st (Except.ok planReq)).hostApply = none ∧
      (ExecServiceTemplateHostApplyRule ms rs cs st (Except.ok planReq)).hostCalls = []) := by
  obtain ⟨hcalls, happly, hstate, hreply⟩ := exec_of_txn_ok ms rs cs st planReq hmem htxn
  refine ⟨?_, ?_⟩
  · rw [happly]
    by_cases h : planReq.Changed = true ∧ planReq.AdditionalRules ≠ []
    · simp only [if_pos h, Option.isSome_some, true_iff]
      exact h
    · simp only [if_neg h, Option.isSome_none, Bool.false_eq_true, false_iff]
      exact h
  · intro _ hrules hrm
    have hskip : ¬ (planReq.Changed = true ∧ planReq.AdditionalRules ≠ []) :=
      fun h => h.2 hrules
    rw [if_neg hskip] at happly hstate
    have hlen : planReq.RemoveRuleIDs.length > 0 := List.length_pos.mpr hrm
    rcases hup : rs.UpdateBatchServiceTemplate st
      (TemplateUpdateOption.mk planReq.BizID planReq.ServiceTemplateIDs true) with ⟨st1, e1⟩
    cases e1 with
    | some e => simp [execTxn, hup] at htxn
    | none =>
      rcases hsave : rs.BatchUpdateHostApplyRule st1 planReq.BizID [] with ⟨st2, e2⟩
      cases e2 with
      | some e => simp [execTxn, hup, hrules, hsave] at htxn
      | none =>
        rcases hdel : rs.DeleteHostApplyRule st2 planReq.BizID
          (DeleteHostApplyRuleOption.mk planReq.RemoveRuleIDs planReq.ServiceTemplateIDs)
          with ⟨st3, e3⟩
        cases e3 with
        | some e => simp [execTxn, hup, hrules, hsave, hlen, hdel] at htxn
        | none =>
          have hrun : execTxn rs planReq st =
              TxnRun.mk st3
                [StoreCall.updateTemplates
                  (TemplateUpdateOption.mk planReq.BizID planReq.ServiceTemplateIDs true),
                  StoreCall.saveRules planReq.BizID [],
                  StoreCall.deleteRules planReq.BizID
                    (DeleteHostApplyRuleOption.mk planReq.RemoveRuleIDs
                      planReq.ServiceTemplateIDs)] none := by
            simp [execTxn, hup, hrules, hsave, hlen, hdel]
          rw [hrun] at hcalls hstate
          exact ⟨⟨st1, st2, st3, rfl, hsave, hdel, hstate⟩, hcalls, hreply (Or.inr hrules),
            happly, by simp only [ExecRun.hostCalls, happly]⟩

/-- C13, at a concrete input: business 2 removes rule 10 of template 5 with `Changed` set
and no additional rule; the rule is gone, the host is untouched and no call went to the
host table. -/
theorem ExecServiceTemplateHostApplyRule_skip_witness :
    (getHostIDByCondition
      (MembershipService.mk (fun _ _ => Except.ok [ModuleInst.mk 9])
        (fun _ => some [ModuleHost.mk 4 9]))
      (HostApplyServiceTemplateOption.mk 2 [5] none [] [10] true).BizID
      (HostApplyServiceTemplateOption.mk 2 [5] none [] [10] true).ServiceTemplateIDs
      (HostApplyServiceTemplateOption.mk 2 [5] none [] [10] true).HostIDs).err = none ∧
    (execTxn (ruleStore [Attribute.mk 1 "cpu_module"])
      (HostApplyServiceTemplateOption.mk 2 [5] none [] [10] true)
      (Datastore.mk [ServiceTemplate.mk 5 2 false]
        [HostApplyRule.mk 10 2 5 1 (JValue.string "A")]
        [Host.mk 4 [("cpu_module", JValue.string "Z")]])).err = none ∧
    (ExecServiceTemplateHostApplyRule
      (MembershipService.mk (fun _ _ => Except.ok [ModuleInst.mk 9])
        (fun _ => some [ModuleHost.mk 4 9]))
      (ruleStore [Attribute.mk 1 "cpu_module"]) (hostService [Attribute.mk 1 "cpu_module"])
      (Datastore.mk [ServiceTemplate.mk 5 2 false]
        [HostApplyRule.mk 10 2 5 1 (JValue.string "A")]
        [Host.mk 4 [("cpu_module", JValue.string "Z")]])
      (Except.ok (HostApplyServiceTemplateOption.mk 2 [5] none [] [10] true))).hostCalls = [] ∧
    (ExecServiceTemplateHostApplyRule
      (MembershipService.mk (fun _ _ => Except.ok [ModuleInst.mk 9])
        (fun _ => some [ModuleHost.mk 4 9]))
      (ruleStore [Attribute.mk 1 "cpu_module"]) (hostService [Attribute.mk 1 "cpu_module"])
      (Datastore.mk [ServiceTemplate.mk 5 2 false]
        [HostApplyRule.mk 10 2 5 1 (JValue.string "A")]
        [Host.mk 4 [("cpu_module", JValue.string "Z")]])
      (Except.ok (HostApplyServiceTemplateOption.mk 2 [5] none [] [10] true))).state =
      Datastore.mk [ServiceTemplate.mk 5 2 true] []
        [Host.mk 4 [("cpu_module", JValue.string "Z")]] :=
  ⟨rfl, rfl,
    ((ExecServiceTemplateHostApplyRule_skip
      (MembershipService.mk (fun _ _ => Except.ok [ModuleInst.mk 9])
        (fun _ => some [ModuleHost.mk 4 9]))
      (ruleStore [Attribute.mk 1 "cpu_module"]) (hostService [Attribute.mk 1 "cpu_module"])
      (Datastore.mk [ServiceTemplate.mk 5 2 false]
        [HostApplyRule.mk 10 2 5 1 (JValue.string "A")]
        [Host.mk 4 [("cpu_module", JValue.string "Z")]])
      (HostApplyServiceTemplateOption.mk 2 [5] none [] [10] true) rfl rfl).2
      rfl rfl (by decide)).2.2.2.2,
    by decide⟩

/-! ## Scoped deletion -/

/-- The calls of the unit of work of `ExecServiceTemplateHostApplyRule`: the update of the
templates, then the save of the rules, then a delete only when there are rule ids to
remove, with the rule ids and the template ids of the request. -/
theorem execTxn_calls {σ : Type} (rs : RuleService σ)
    (planReq : HostApplyServiceTemplateOption) (st : σ) :
    (∀ c ∈ (execTxn rs planReq st).calls, ∀ bizID option,
      c = StoreCall.deleteRules bizID option →
        bizID = planReq.BizID ∧ option.RuleIDs = planReq.RemoveRuleIDs ∧
        option.ServiceTemplateIDs = planReq.ServiceTemplateIDs ∧ option.RuleIDs ≠ []) := by
  intro c hc bizID option hdel
  subst hdel
  rcases hup : rs.UpdateBatchServiceTemplate st
    (TemplateUpdateOption.mk planReq.BizID planReq.ServiceTemplateIDs true) with ⟨st1, e1⟩
  cases e1 with
  | some e => simp [execTxn, hup] at hc
  | none =>
    rcases hsave : rs.BatchUpdateHostApplyRule st1 planReq.BizID
      (planReq.AdditionalRules.map (fun rule =>
        CreateOrUpdateApplyRuleOption.mk rule.AttributeID rule.ServiceTemplateID
          rule.PropertyValue)) with ⟨st2, e2⟩
    cases e2 with
    | some e => simp [execTxn, hup, hsave] at hc
    | none =>
      by_cases hlen : planReq.RemoveRuleIDs.length > 0
      · have hne : planReq.RemoveRuleIDs ≠ [] := List.length_pos.mp hlen
        rcases hd : rs.DeleteHostApplyRule st2 planReq.BizID
          (DeleteHostApplyRuleOption.mk planReq.RemoveRuleIDs planReq.ServiceTemplateIDs)
          with ⟨st3, e3⟩
        cases e3 <;>
        · simp only [execTxn, hup, hsave, hlen, if_true, hd, List.mem_cons, List.mem_singleton,
            List.mem_nil_iff, or_false] at hc
          rcases hc with hc | hc | hc
          · exact absurd hc (by simp)
          · exact absurd hc (by simp)
          · injection hc with h1 h2
            subst h1 h2
            exact ⟨rfl, rfl, rfl, hne⟩
      · simp [execTxn, hup, hsave, hlen] at hc

theorem exec_storeCalls {σ : Type} (ms : MembershipService) (rs : RuleService σ)
    (cs : CoreService σ) (st : σ) (planReq : HostApplyServiceTemplateOption) :
    (ExecServiceTemplateHostApplyRule ms rs cs st (Except.ok planReq)).storeCalls = [] ∨
    (ExecServiceTemplateHostApplyRule ms rs cs st (Except.ok planReq)).storeCalls =
      (execTxn rs planReq st).calls := by
  cases hmem : (getHostIDByCondition ms planReq.BizID planReq.ServiceTemplateIDs
      planReq.HostIDs).err with
  | some e => exact Or.inl (by simp only [ExecServiceTemplateHostApplyRule, hmem])
  | none =>
    cases htxn : (execTxn rs planReq st).err with
    | some e => exact Or.inr (exec_of_txn_error ms rs cs st planReq e hmem htxn).1
    | none => exact Or.inr (exec_of_txn_ok ms rs cs st planReq hmem htxn).1

theorem exec_state_cases {σ : Type} (ms : MembershipService) (rs : RuleService σ)
    (cs : CoreService σ) (st : σ) (planReq : HostApplyServiceTemplateOption) :
    (ExecServiceTemplateHostApplyRule ms rs cs st (Except.ok planReq)).state = st ∨
    (ExecServiceTemplateHostApplyRule ms rs cs st (Except.ok planReq)).state =
      (execTxn rs planReq st).state ∨
    ∃ hostIDs, (ExecServiceTemplateHostApplyRule ms rs cs st (Except.ok planReq)).state =
      (updateHostAttributes cs (execTxn rs planReq st).state planReq hostIDs).state := by
  cases hmem : (getHostIDByCondition ms planReq.BizID planReq.ServiceTemplateIDs
      planReq.HostIDs).err with
  | some e => exact Or.inl (by simp only [ExecServiceTemplateHostApplyRule, hmem])
  | none =>
    cases htxn : (execTxn rs planReq st).err with
    | some e => exact Or.inl (exec_of_txn_error ms rs cs st planReq e hmem htxn).2.2.2
    | none =>
      have h := (exec_of_txn_ok ms rs cs st planReq hmem htxn).2.2.1
      by_cases hskip : planReq.Changed = true ∧ planReq.AdditionalRules ≠ []
      · rw [if_pos hskip] at h
        exact Or.inr (Or.inr ⟨_, h⟩)
      · rw [if_neg hskip] at h
        exact Or.inr (Or.inl h)

theorem updateHostAttributes_hostService_rules (schema : List Attribute) (st : Datastore)
    (planReq : HostApplyServiceTemplateOption) (hostIDs : List Int) :
    (updateHostAttributes (hostService schema) st planReq hostIDs).state.rules = st.rules ∧
    (updateHostAttributes (hostService schema) st planReq hostIDs).state.templates =
      st.templates := by
  unfold updateHostAttributes
  cases getUpdateDataStr ((hostService schema).ReadModelAttr st) planReq.AdditionalRules with
  | error e => exact ⟨rfl, rfl⟩
  | ok dataStr =>
    simp only [hostService, List.map]
    split <;> exact ⟨rfl, rfl⟩

/-- The save of a rule removes no rule: every stored rule is still there, with its id, its
business, its template and its attribute. -/
theorem upsertRule_keeps (rules : List HostApplyRule) (bizID : Int)
    (rule : CreateOrUpdateApplyRuleOption) (r : HostApplyRule) (hr : r ∈ rules) :
    ∃ r' ∈ upsertRule rules bizID rule, r'.ID = r.ID ∧ r'.BizID = r.BizID ∧
      r'.ServiceTemplateID = r.ServiceTemplateID ∧ r'.AttributeID = r.AttributeID := by
  unfold upsertRule
  split
  · by_cases h : r.BizID = bizID ∧ r.ServiceTemplateID = rule.ServiceTemplateID ∧
        r.AttributeID = rule.AttributeID
    · exact ⟨HostApplyRule.mk r.ID r.BizID r.ServiceTemplateID r.AttributeID
        rule.PropertyValue, List.mem_map.mpr ⟨r, hr, by rw [if_pos h]⟩, rfl, rfl, rfl, rfl⟩
    · exact ⟨r, List.mem_map.mpr ⟨r, hr, by rw [if_neg h]⟩, rfl, rfl, rfl, rfl⟩
  · exact ⟨r, List.mem_append_left _ hr, rfl, rfl, rfl, rfl⟩

theorem upsertRules_keeps (bizID : Int) (batch : List CreateOrUpdateApplyRuleOption) :
    ∀ (rules : List HostApplyRule) (r : HostApplyRule), r ∈ rules →
      ∃ r' ∈ upsertRules rules bizID batch, r'.ID = r.ID ∧ r'.BizID = r.BizID ∧
        r'.ServiceTemplateID = r.ServiceTemplateID ∧ r'.AttributeID = r.AttributeID := by
  induction batch with
  | nil => intro rules r hr; exact ⟨r, hr, rfl, rfl, rfl, rfl⟩
  | cons rule more ih =>
    intro rules r hr
    obtain ⟨r1, hr1, h1, h2, h3, h4⟩ := upsertRule_keeps rules bizID rule r hr
    obtain ⟨r2, hr2, k1, k2, k3, k4⟩ := ih (upsertRule rules bizID rule) r1 hr1
    exact ⟨r2, hr2, k1.trans h1, k2.trans h2, k3.trans h3, k4.trans h4⟩

theorem deleteRules_keeps (rules : List HostApplyRule) (bizID : Int)
    (option : DeleteHostApplyRuleOption) (r : HostApplyRule) (hr : r ∈ rules)
    (hout : r.ServiceTemplateID ∉ option.ServiceTemplateIDs) :
    r ∈ deleteRules rules bizID option :=
  (mem_deleteRules rules bizID option r).mpr ⟨hr, fun h => hout h.2.2⟩

theorem execTxn_ruleStore_keeps (schema : List Attribute) (st : Datastore)
    (planReq : HostApplyServiceTemplateOption) (r : HostApplyRule) (hr : r ∈ st.rules)
    (hout : r.ServiceTemplateID ∉ planReq.ServiceTemplateIDs) :
    ∃ r' ∈ (execTxn (ruleStore schema) planReq st).state.rules, r'.ID = r.ID ∧
      r'.BizID = r.BizID ∧ r'.ServiceTemplateID = r.ServiceTemplateID ∧
      r'.AttributeID = r.AttributeID := by
  obtain ⟨r', hr', h1, h2, h3, h4⟩ := upsertRules_keeps planReq.BizID
    (planReq.AdditionalRules.map (fun rule =>
      CreateOrUpdateApplyRuleOption.mk rule.AttributeID rule.ServiceTemplateID
        rule.PropertyValue)) st.rules r hr
  by_cases hall : ((planReq.AdditionalRules.map (fun rule =>
      CreateOrUpdateApplyRuleOption.mk rule.AttributeID rule.ServiceTemplateID
        rule.PropertyValue)).all
      (fun rule => schema.any (fun a => decide (a.ID = rule.AttributeID)))) = true
  · by_cases hlen : planReq.RemoveRuleIDs.length > 0
    · simp only [execTxn, ruleStore, hall, hlen, if_true]
      exact ⟨r', deleteRules_keeps _ _ _ r' hr' (by rw [h3]; exact hout), h1, h2, h3, h4⟩
    · simp only [execTxn, ruleStore, hall, hlen, if_true, if_false]
      exact ⟨r', hr', h1, h2, h3, h4⟩
  · simp only [execTxn, ruleStore, hall, if_false, Bool.false_eq_true]
    exact ⟨r, hr, rfl, rfl, rfl, rfl⟩

theorem enableStatus_calls_cases {σ : Type} (rs : RuleService σ) (st : σ) (bizID : Int)
    (requestBody : UpdateHostApplyEnableStatusOption) :
    (UpdateServiceTemplateHostApplyEnableStatus rs st (some bizID)
      (Except.ok requestBody)).calls = [] ∨
    (UpdateServiceTemplateHostApplyEnableStatus rs st (some bizID)
      (Except.ok requestBody)).calls = (enableStatusTxn rs bizID requestBody st).calls := by
  by_cases hlen : requestBody.IDs.length = 0
  · exact Or.inl (by simp only [UpdateServiceTemplateHostApplyEnableStatus, hlen, if_true])
  · refine Or.inr ?_
    simp only [UpdateServiceTemplateHostApplyEnableStatus, hlen, if_false]
    split <;> exact AutoRunTxn_calls _ _

theorem enableStatus_ruleStore_keeps (schema : List Attribute) (st : Datastore)
    (bizID : Option Int) (requestBody : UpdateHostApplyEnableStatusOption)
    (r : HostApplyRule) (hr : r ∈ st.rules)
    (hout : r.ServiceTemplateID ∉ requestBody.IDs) :
    r ∈ (UpdateServiceTemplateHostApplyEnableStatus (ruleStore schema) st bizID
      (Except.ok requestBody)).state.rules := by
  cases bizID with
  | none => exact hr
  | some bizID =>
    by_cases hids : requestBody.IDs = []
    · have hlen : requestBody.IDs.length = 0 := by rw [hids]; rfl
      simp only [UpdateServiceTemplateHostApplyEnableStatus, hlen, if_true]
      exact hr
    · rw [(enableStatus_handler_ruleStore schema st bizID requestBody hids).2.1,
        (enableStatusTxn_ruleStore schema bizID requestBody st).2.2.2]
      split
      · exact deleteRules_keeps _ _ _ r hr hout
      · exact hr

/-- C14. Scoped deletion: whatever the services, every delete of rules issued by
`ExecServiceTemplateHostApplyRule` carries the business, the rule ids to remove and the
template ids of the request, and every delete issued by
`UpdateServiceTemplateHostApplyEnableStatus` carries the business and the template ids of
the request, in both with a non-empty rule id list; the delete of the datastore keeps every
rule whose template is not among the template ids, whatever its id; so over the datastore a
rule of a template outside the template ids of the request is still stored after either
request (after `ExecServiceTemplateHostApplyRule` with its id, business, template and
attribute, the value being open to the batch save).  In the example the request removes the
rule ids 10 and 12 within template 5: rule 10 of template 5 goes, rule 12 of template 6
stays. -/
theorem DeleteHostApplyRule_scoped :
    (∀ {σ : Type} (ms : MembershipService) (rs : RuleService σ) (cs : CoreService σ) (st : σ)
        (planReq : HostApplyServiceTemplateOption),
      ∀ c ∈ (ExecServiceTemplateHostApplyRule ms rs cs st (Except.ok planReq)).storeCalls,
      ∀ bizID option, c = StoreCall.deleteRules bizID option →
        bizID = planReq.BizID ∧ option.RuleIDs = planReq.RemoveRuleIDs ∧
        option.ServiceTemplateIDs = planReq.ServiceTemplateIDs ∧ option.RuleIDs ≠ []) ∧
    (∀ {σ : Type} (rs : RuleService σ) (st : σ) (bizID : Int)
        (requestBody : UpdateHostApplyEnableStatusOption),
      ∀ c ∈ (UpdateServiceTemplateHostApplyEnableStatus rs st (some bizID)
          (Except.ok requestBody)).calls,
      ∀ biz option, c = StoreCall.deleteRules biz option →
        biz = bizID ∧ option.ServiceTemplateIDs = requestBody.IDs ∧ option.RuleIDs ≠ []) ∧
    (∀ (rules : List HostApplyRule) (bizID : Int) (option : DeleteHostApplyRuleOption)
        (r : HostApplyRule),
      r ∈ rules → r.ServiceTemplateID ∉ option.ServiceTemplateIDs →
        r ∈ deleteRules rules bizID option) ∧
    (∀ (schema : List Attribute) (st : Datastore) (bizID : Option Int)
        (requestBody : UpdateHostApplyEnableStatusOption),
      ∀ r ∈ st.rules, r.ServiceTemplateID ∉ requestBody.IDs →
        r ∈ (UpdateServiceTemplateHostApplyEnableStatus (ruleStore schema) st bizID
          (Except.ok requestBody)).state.rules) ∧
    (∀ (ms : MembershipService) (schema : List Attribute) (st : Datastore)
        (planReq : HostApplyServiceTemplateOption),
      ∀ r ∈ st.rules, r.ServiceTemplateID ∉ planReq.ServiceTemplateIDs →
        ∃ r' ∈ (ExecServiceTemplateHostApplyRule ms (ruleStore schema) (hostService schema) st
            (Except.ok planReq)).state.rules,
          r'.ID = r.ID ∧ r'.BizID = r.BizID ∧
            r'.ServiceTemplateID = r.ServiceTemplateID ∧
            r'.AttributeID = r.AttributeID) ∧
    (ExecServiceTemplateHostApplyRule
      (MembershipService.mk (fun _ _ => Except.ok [ModuleInst.mk 9])
        (fun _ => some [ModuleHost.mk 4 9]))
      (ruleStore [Attribute.mk 1 "cpu_module"]) (hostService [Attribute.mk 1 "cpu_module"])
      (Datastore.mk [ServiceTemplate.mk 5 2 true, ServiceTemplate.mk 6 2 true]
        [HostApplyRule.mk 10 2 5 1 (JValue.string "A"),
          HostApplyRule.mk 12 2 6 1 (JValue.string "B")] [])
      (Except.ok (HostApplyServiceTemplateOption.mk 2 [5] none [] [10, 12] false))).state.rules =
      [HostApplyRule.mk 12 2 6 1 (JValue.string "B")] := by
  refine ⟨?_, ?_, ?_, ?_, ?_, by decide⟩
  · intro σ ms rs cs st planReq c hc bizID option hdel
    rcases exec_storeCalls ms rs cs st planReq with h | h
    · rw [h] at hc
      simp at hc
    · rw [h] at hc
      exact execTxn_calls rs planReq st c hc bizID option hdel
  · intro σ rs st bizID requestBody c hc biz option hdel
    subst hdel
    rcases enableStatus_calls_cases rs st bizID requestBody with h | h
    · rw [h] at hc
      simp at hc
    · rw [h] at hc
      rcases enableStatusTxn_calls rs bizID requestBody st with h1 | ⟨_, _, h1 | ⟨ids, hne, h1⟩⟩
      · rw [h1] at hc
        simp at hc
      · rw [h1] at hc
        simp at hc
      · rw [h1] at hc
        simp only [List.mem_cons, List.mem_singleton, List.mem_nil_iff, or_false] at hc
        rcases hc with hc | hc | hc
        · exact absurd hc (by simp)
        · exact absurd hc (by simp)
        · injection hc with k1 k2
          subst k1 k2
          exact ⟨rfl, rfl, hne⟩
  · intro rules bizID option r hr hout
    exact deleteRules_keeps rules bizID option r hr hout
  · intro schema st bizID requestBody r hr hout
    exact enableStatus_ruleStore_keeps schema st bizID requestBody r hr hout
  · intro ms schema st planReq r hr hout
    rcases exec_state_cases ms (ruleStore schema) (hostService schema) st planReq with
      h | h | ⟨hostIDs, h⟩
    · rw [h]
      exact ⟨r, hr, rfl, rfl, rfl, rfl⟩
    · rw [h]
      exact execTxn_ruleStore_keeps schema st planReq r hr hout
    · rw [h, (updateHostAttributes_hostService_rules schema _ planReq hostIDs).1]
      exact execTxn_ruleStore_keeps schema st planReq r hr hout

end ProcServer
